import Mathlib

/-!
# Rolling-window aggregation engine of base-server-api

A shallow embedding of `storage/storage.go`, `util/util.go`, the record types of
`common/types.go` and `storage/db/model.go`, the enrichment and the paging loop of
`worker/get_base_logs_from_db.go`, the ranking loops of `internal/server/server.go` and the
handlers getUserBalances of `internal/server/user.go` and getPriceWithTransfer of
`internal/server/token.go`, followed by theorems about them.

Modelling conventions
* `float64` amounts are exact rationals (`ℚ`): aggregate arithmetic is taken exactly. Where
  a statement depends on the rounding, the operations are given a second time with the
  float64 arithmetic of the code (`roundFloat64`; the definitions whose name ends in `64`).
* `uint64` / `uint` fields that are only stored and copied are `Nat`; Go `int` is `Int`;
  a `time.Duration` is its count of nanoseconds, an `Int`.
* A Go `map[string]V` is an insertion-ordered association list (`GoMap V`); reading a
  missing key of a `map[string]float64` gives `0`, and `m[k] += v` creates the key.
* `time.Time` is the record of the observations the engine makes of it: the instant (in
  nanoseconds) and the calendar reading `Day()`, `Month()`, `Year()`.
* `time.Since` reads the clock; the clock value is a parameter `now` of the retire calls.
* The engine holds one chain (`common.ChainBase`); `ChainData` is the state of
  `s.chains[chain]`, and the mutex and the logger are not modelled.
* A Go run-time panic (index out of range) is the result `none`.
* Go `int` arithmetic on request parameters wraps at 64 bits (`wrapInt`), and `int64(x)` of
  a `uint64` is `toInt64`.
* `sort.Slice` is an insertion sort by the code's less function; the statements use only
  that it returns a sorted permutation.
* The database is a static table listed in the order in which its rows are returned; a
  loop that need not end is run for a given number of passes (`none` when they are used up).
-/

namespace BaseServer

/-! ## Strings -/

/-- The function strings.ToLower on the ASCII range (addresses are hexadecimal strings). -/
def ToLower (s : String) : String := ⟨s.data.map Char.toLower⟩

/-- The function strings.EqualFold: equality ignoring (ASCII) letter case. -/
def EqualFold (s t : String) : Bool := decide (ToLower s = ToLower t)

/-! ## Go maps with string keys -/

/-- A Go map with string keys, as an association list in insertion order. -/
structure GoMap (V : Type) where
  entries : List (String × V)
deriving DecidableEq, Repr

namespace GoMap

variable {V : Type}

/-- The map built by make. -/
def empty : GoMap V := ⟨[]⟩

/-- Search of an entry list. -/
def lookupList : List (String × V) → String → Option V
  | [], _ => none
  | (k', v) :: m, k => if k' = k then some v else lookupList m k

/-- Replace the value of a key of an entry list, or append the key. -/
def storeList : List (String × V) → String → V → List (String × V)
  | [], k, v => [(k, v)]
  | (k', v') :: m, k, v => if k' = k then (k, v) :: m else (k', v') :: storeList m k v

/-- The two-result read of a map: the value and whether the key exists. -/
def lookup (m : GoMap V) (k : String) : Option V := lookupList m.entries k

/-- The assignment m[k] = v. -/
def store (m : GoMap V) (k : String) (v : V) : GoMap V := ⟨storeList m.entries k v⟩

/-- The read m[k] of a float64 map: the zero value when the key is missing. -/
def get (m : GoMap ℚ) (k : String) : ℚ := (m.lookup k).getD 0

/-- The statement m[k] += v. -/
def add (m : GoMap ℚ) (k : String) (v : ℚ) : GoMap ℚ := m.store k (m.get k + v)

/-- The statement m[k] -= v. -/
def sub (m : GoMap ℚ) (k : String) (v : ℚ) : GoMap ℚ := m.store k (m.get k - v)

end GoMap

/-! ## Time -/

/-- What the engine observes of a time.Time: the instant, in nanoseconds since the zero
time, and its calendar reading (day of month, month number, year). -/
structure Time where
  nanos : Int
  day : Int
  month : Int
  year : Int
deriving DecidableEq, Repr

/-- The zero value of time.Time: January 1, year 1, 00:00:00 UTC. -/
def Time.zero : Time := ⟨0, 1, 1, 1⟩

instance : Inhabited Time := ⟨Time.zero⟩

/-- The largest time.Duration (a count of nanoseconds held in an int64). -/
def maxDuration : Int := 2 ^ 63 - 1

/-- The smallest time.Duration (an int64). -/
def minDuration : Int := -(2 ^ 63)

/-- The constant time.Second. -/
def Second : Int := 1000000000

/-- The constant time.Hour. -/
def Hour : Int := 3600 * Second

/-- The method Time.Sub: the difference t - u, saturated to the range of a Duration. -/
def Time.Sub (t u : Time) : Int :=
  let d : Int := t.nanos - u.nanos
  if d > maxDuration then maxDuration else if d < minDuration then minDuration else d

/-- The function time.Since with the clock reading now. -/
def Since (now t : Time) : Int := now.Sub t

/-! ## Records of common/types.go -/

/-- The enumeration SmartMoneyActivities. -/
inductive SmartMoneyActivities where
  | SmartMoneyActivitiesAll
  | SmartMoneyActivitiesDeposit
  | SmartMoneyActivitiesWithdraw
  | SmartMoneyActivitiesBuying
  | SmartMoneyActivitiesSelling
deriving DecidableEq, Repr

open SmartMoneyActivities (SmartMoneyActivitiesAll SmartMoneyActivitiesDeposit
  SmartMoneyActivitiesWithdraw SmartMoneyActivitiesBuying SmartMoneyActivitiesSelling)

/-- Modelled from the spec: the generated String method of SmartMoneyActivities (the
enumer output is not among the sources); the names are the line comments of the
constants, which are the action names of the spec. -/
def SmartMoneyActivities.String : SmartMoneyActivities → String
  | SmartMoneyActivitiesAll => "all"
  | SmartMoneyActivitiesDeposit => "deposit"
  | SmartMoneyActivitiesWithdraw => "withdraw"
  | SmartMoneyActivitiesBuying => "buying"
  | SmartMoneyActivitiesSelling => "selling"

/-- The record Tradelog. -/
structure Tradelog where
  BlockTimestamp : Time
  BlockNumber : Nat
  TxIndex : Nat
  TxHash : String
  Sender : String
  LogIndex : Nat
  TokenInAddress : String
  TokenInAmount : ℚ
  TokenInUsdtRate : ℚ
  TokenOutAddress : String
  TokenOutAmount : ℚ
  TokenOutUsdtRate : ℚ
  NativeTokenUsdtRate : ℚ
  CurrentTokenInUsdtRate : ℚ
  CurrentTokenOutUsdtRate : ℚ
  Profit : ℚ
  GetCurrentRateFail : Bool
deriving DecidableEq, Repr

/-- The record Transferlog. -/
structure Transferlog where
  BlockTimestamp : Time
  BlockNumber : Nat
  TxIndex : Nat
  TxHash : String
  FromAddress : String
  ToAddress : String
  TokenAddress : String
  TokenAmount : ℚ
  IsCexIn : Bool
  CurrentTokenUsdtRate : ℚ
  GetCurrentRateFail : Bool
deriving DecidableEq, Repr

/-- The record BigTx. -/
structure BigTx where
  Tx : String
  TokenAddress : String
  BlockTimestamp : Time
  BlockNumber : Nat
  Sender : String
  Time : Time
  ValueInToken : ℚ
  ValueInUsdt : ℚ
  Price : ℚ
  Movement : String
  Action : SmartMoneyActivities
deriving DecidableEq, Repr

/-! ## util/util.go -/

/-- The table quotes. -/
def quotes : List String :=
  [ "0xeeeeeeeeeeeeeeeeeeeeeeeeeeeeeeeeeeeeeeee",
    "0xC02aaA39b223FE8D0A0e5C4F27eAD9083C756Cc2",
    "0xdac17f958d2ee523a2206206994597c13d831ec7",
    "0xa0b86991c6218b36c1d19d4a2e9eb0ce3606eb48",
    "0x6b175474e89094c44da98b954eedeac495271d0f",
    "0x853d955acef822db058eb8505911ed77f175b99e" ]

/-- The function IsQuote: some entry of the table equals the address ignoring case. -/
def IsQuote (tokenAddress : String) : Bool :=
  quotes.any (fun q => EqualFold q tokenAddress)

/-! ## storage/storage.go: state -/

/-- The constant bigVolumeInUsdt. -/
def bigVolumeInUsdt : ℚ := 50000

/-- The record StorageByRangeIndex. -/
structure StorageByRangeIndex where
  StartIndex : Int
  StartBlockTs : Time
  StartBlock : Nat
  EndBlockTs : Time
  EndBlock : Nat
deriving DecidableEq, Repr

/-- The record TradeStorageByRange (it embeds StorageByRangeIndex). -/
structure TradeStorageByRange extends StorageByRangeIndex where
  duration : Int
  UserProfit : GoMap ℚ
  TokenProfit : GoMap ℚ
  TokenInFlowInUsdt : GoMap ℚ
  TokenInFlow : GoMap ℚ
  TokenOutFlowInUsdt : GoMap ℚ
  TokenOutFlow : GoMap ℚ
deriving DecidableEq, Repr

/-- The record TransferStorageByRange (it embeds StorageByRangeIndex). -/
structure TransferStorageByRange extends StorageByRangeIndex where
  duration : Int
  CexInFlow : GoMap ℚ
  CexInFlowInUsdt : GoMap ℚ
  CexOutFlow : GoMap ℚ
  CexOutFlowInUsdt : GoMap ℚ
deriving DecidableEq, Repr

/-- The type TokenTransfer: amount per date key. -/
abbrev TokenTransfer := GoMap ℚ

/-- The record ChainData: the fields the engine operations read or write. -/
structure ChainData where
  tradeLogs : List Tradelog
  transferLogs : List Transferlog
  tradeDataRange : List TradeStorageByRange
  transferDataRange : List TransferStorageByRange
  tokens : GoMap Bool
  bigTx : List BigTx
  tokenDeposit : GoMap TokenTransfer
  tokenWithdraw : GoMap TokenTransfer
deriving DecidableEq, Repr

/-- The constructor NewTradeStorageByRange. -/
def NewTradeStorageByRange (duration : Int) : TradeStorageByRange :=
  { duration := duration
    UserProfit := GoMap.empty
    TokenProfit := GoMap.empty
    TokenInFlowInUsdt := GoMap.empty
    TokenInFlow := GoMap.empty
    TokenOutFlowInUsdt := GoMap.empty
    TokenOutFlow := GoMap.empty
    StartIndex := -1
    StartBlockTs := Time.zero
    StartBlock := 0
    EndBlockTs := Time.zero
    EndBlock := 0 }

/-- The constructor NewTransferStorageByRange. -/
def NewTransferStorageByRange (duration : Int) : TransferStorageByRange :=
  { duration := duration
    CexInFlow := GoMap.empty
    CexInFlowInUsdt := GoMap.empty
    CexOutFlow := GoMap.empty
    CexOutFlowInUsdt := GoMap.empty
    StartIndex := -1
    StartBlockTs := Time.zero
    StartBlock := 0
    EndBlockTs := Time.zero
    EndBlock := 0 }

/-- The constructor NewStorage: the state of the one chain it creates. -/
def NewStorage : ChainData :=
  { tradeLogs := []
    transferLogs := []
    tradeDataRange :=
      [ NewTradeStorageByRange Hour,
        NewTradeStorageByRange (Hour * 4),
        NewTradeStorageByRange (Hour * 24),
        NewTradeStorageByRange (Hour * 24 * 7),
        NewTradeStorageByRange (Hour * 24 * 30) ]
    transferDataRange :=
      [ NewTransferStorageByRange Hour,
        NewTransferStorageByRange (Hour * 4),
        NewTransferStorageByRange (Hour * 24),
        NewTransferStorageByRange (Hour * 24 * 7),
        NewTransferStorageByRange (Hour * 24 * 30) ]
    tokens := GoMap.empty
    bigTx := []
    tokenDeposit := GoMap.empty
    tokenWithdraw := GoMap.empty }

/-! ## storage/storage.go: append -/

/-- One pass of the loop "add big data range" of AddTradeLogs, for one window;
lenTradeLogs is len(tradeLogs) after the append. -/
def addTradeToRange (log : Tradelog) (lenTradeLogs : Nat) (r : TradeStorageByRange) :
    TradeStorageByRange :=
  let tokenIn := ToLower log.TokenInAddress
  let tokenOut := ToLower log.TokenOutAddress
  let sender := ToLower log.Sender
  let r1 : TradeStorageByRange :=
    { r with
      UserProfit := r.UserProfit.add sender log.Profit
      TokenProfit := r.TokenProfit.add tokenOut log.Profit
      TokenInFlowInUsdt := r.TokenInFlowInUsdt.add tokenOut (log.TokenOutAmount * log.TokenOutUsdtRate)
      TokenInFlow := r.TokenInFlow.add tokenOut log.TokenOutAmount
      TokenOutFlowInUsdt := r.TokenOutFlowInUsdt.add tokenIn (log.TokenInAmount * log.TokenInUsdtRate)
      TokenOutFlow := r.TokenOutFlow.add tokenIn log.TokenInAmount
      EndBlockTs := log.BlockTimestamp
      EndBlock := log.BlockNumber }
  if r1.StartIndex = -1 then
    { r1 with
      StartBlockTs := log.BlockTimestamp
      StartBlock := log.BlockNumber
      StartIndex := (lenTradeLogs : Int) - 1 }
  else r1

/-- The body of the loop of AddTradeLogs, for one trade log. -/
def addTradeLog (c : ChainData) (log : Tradelog) : ChainData :=
  let tokenIn := ToLower log.TokenInAddress
  let tokenOut := ToLower log.TokenOutAddress
  let c1 : ChainData := { c with tokens := (c.tokens.store tokenIn true).store tokenOut true }
  if log.GetCurrentRateFail then c1
  else
    let c2 : ChainData := { c1 with tradeLogs := c1.tradeLogs ++ [log] }
    let valueInUsdt := log.TokenOutAmount * log.TokenOutUsdtRate
    let c3 : ChainData :=
      if valueInUsdt ≥ bigVolumeInUsdt then
        let action :=
          if IsQuote log.TokenOutAddress then SmartMoneyActivitiesSelling
          else SmartMoneyActivitiesBuying
        { c2 with
          bigTx := c2.bigTx ++
            [{ TokenAddress := log.TokenOutAddress
               Time := log.BlockTimestamp
               Sender := log.Sender
               ValueInToken := log.TokenOutAmount
               ValueInUsdt := valueInUsdt
               Price := log.TokenOutUsdtRate
               Movement := action.String
               Action := action
               BlockTimestamp := log.BlockTimestamp
               BlockNumber := log.BlockNumber
               Tx := log.TxHash }] }
      else c2
    { c3 with tradeDataRange := c3.tradeDataRange.map (addTradeToRange log c3.tradeLogs.length) }

/-- The method Storage.AddTradeLogs on the chain state. -/
def AddTradeLogs (c : ChainData) (logs : List Tradelog) : ChainData :=
  logs.foldl addTradeLog c

/-- One pass of the loop "add transfer range data" of AddTransferLogs, for one window;
lenTransferLogs is len(transferLogs) after the append. -/
def addTransferToRange (log : Transferlog) (lenTransferLogs : Nat) (r : TransferStorageByRange) :
    TransferStorageByRange :=
  let token := ToLower log.TokenAddress
  let r0 : TransferStorageByRange :=
    if log.IsCexIn then
      { r with
        CexInFlow := r.CexInFlow.add token log.TokenAmount
        CexInFlowInUsdt := r.CexInFlowInUsdt.add token (log.TokenAmount * log.CurrentTokenUsdtRate) }
    else
      { r with
        CexOutFlow := r.CexOutFlow.add token log.TokenAmount
        CexOutFlowInUsdt := r.CexOutFlowInUsdt.add token (log.TokenAmount * log.CurrentTokenUsdtRate) }
  let r1 : TransferStorageByRange :=
    { r0 with EndBlockTs := log.BlockTimestamp, EndBlock := log.BlockNumber }
  if r1.StartIndex = -1 then
    { r1 with
      StartBlockTs := log.BlockTimestamp
      StartBlock := log.BlockNumber
      StartIndex := (lenTransferLogs : Int) - 1 }
  else r1

/-- The date key of AddTransferLogs: Sprintf "%d-%d-%d" of day, month number and year. -/
def formatDate (t : Time) : String :=
  toString t.day ++ "-" ++ toString t.month ++ "-" ++ toString t.year

/-- The update of one daily series in AddTransferLogs: create the token's series when it
does not exist, then add the amount at the date key. -/
def addDaily (series : GoMap TokenTransfer) (token date : String) (amount : ℚ) :
    GoMap TokenTransfer :=
  let series1 :=
    if (series.lookup token).isNone then series.store token GoMap.empty else series
  series1.store token (((series1.lookup token).getD GoMap.empty).add date amount)

/-- The body of the loop of AddTransferLogs, for one transfer log. -/
def addTransferLog (c : ChainData) (log : Transferlog) : ChainData :=
  let token := ToLower log.TokenAddress
  let c1 : ChainData := { c with tokens := c.tokens.store token true }
  if log.GetCurrentRateFail then c1
  else
    let c2 : ChainData := { c1 with transferLogs := c1.transferLogs ++ [log] }
    let valueInUsdt := log.TokenAmount * log.CurrentTokenUsdtRate
    let c3 : ChainData :=
      if valueInUsdt ≥ bigVolumeInUsdt then
        let sender := if log.IsCexIn then log.FromAddress else log.ToAddress
        let action :=
          if log.IsCexIn then SmartMoneyActivitiesWithdraw else SmartMoneyActivitiesDeposit
        { c2 with
          bigTx := c2.bigTx ++
            [{ TokenAddress := log.TokenAddress
               Sender := sender
               Time := log.BlockTimestamp
               ValueInToken := log.TokenAmount
               ValueInUsdt := valueInUsdt
               Price := log.CurrentTokenUsdtRate
               Movement := action.String
               Action := action
               BlockTimestamp := log.BlockTimestamp
               BlockNumber := log.BlockNumber
               Tx := log.TxHash }] }
      else c2
    let c4 : ChainData :=
      { c3 with
        transferDataRange :=
          c3.transferDataRange.map (addTransferToRange log c3.transferLogs.length) }
    if log.IsCexIn then
      { c4 with
        tokenDeposit := addDaily c4.tokenDeposit token (formatDate log.BlockTimestamp) log.TokenAmount }
    else
      { c4 with
        tokenWithdraw := addDaily c4.tokenWithdraw token (formatDate log.BlockTimestamp) log.TokenAmount }

/-- The method Storage.AddTransferLogs on the chain state. -/
def AddTransferLogs (c : ChainData) (logs : List Transferlog) : ChainData :=
  logs.foldl addTransferLog c

/-- The method Storage.GetPriceWithTransferByRange: the two daily series stored at the
given key; a missing key gives the nil map, which reads as the empty map. -/
def GetPriceWithTransferByRange (c : ChainData) (token : String) : TokenTransfer × TokenTransfer :=
  ((c.tokenDeposit.lookup token).getD GoMap.empty, (c.tokenWithdraw.lookup token).getD GoMap.empty)

/-! ## storage/storage.go: retire -/

/-- The six subtractions of the loop body of RemoveTrades. -/
def subTradeFromRange (log : Tradelog) (r : TradeStorageByRange) : TradeStorageByRange :=
  let tokenIn := ToLower log.TokenInAddress
  let tokenOut := ToLower log.TokenOutAddress
  let sender := ToLower log.Sender
  { r with
    UserProfit := r.UserProfit.sub sender log.Profit
    TokenProfit := r.TokenProfit.sub tokenOut log.Profit
    TokenInFlowInUsdt := r.TokenInFlowInUsdt.sub tokenOut (log.TokenOutAmount * log.TokenOutUsdtRate)
    TokenInFlow := r.TokenInFlow.sub tokenOut log.TokenOutAmount
    TokenOutFlowInUsdt := r.TokenOutFlowInUsdt.sub tokenIn (log.TokenInAmount * log.TokenInUsdtRate)
    TokenOutFlow := r.TokenOutFlow.sub tokenIn log.TokenInAmount }

/-- The inner loop of RemoveTrades. The first argument is tradeLogs[currentIndex:], the
entries the cursor has not passed: the loop stops when it is empty (currentIndex has
reached len(tradeLogs)) or when its first entry is not older than the duration. -/
def removeTradesLoop (now : Time) (duration : Int) :
    List Tradelog → TradeStorageByRange → Int → TradeStorageByRange × Int
  | [], r, currentIndex => (r, currentIndex)
  | log :: rest, r, currentIndex =>
    if Since now log.BlockTimestamp ≤ duration then (r, currentIndex)
    else removeTradesLoop now duration rest (subTradeFromRange log r) (currentIndex + 1)

/-- The body of the outer loop of RemoveTrades, for one window. A start index below -1
makes the first read tradeLogs[currentIndex] of the inner loop panic. -/
def removeTradesRange (now : Time) (tradeLogs : List Tradelog) (r : TradeStorageByRange) :
    Option TradeStorageByRange :=
  let duration := r.duration
  let currentIndex := r.StartIndex
  if currentIndex = -1 then some r
  else if currentIndex < 0 then none
  else
    let res := removeTradesLoop now duration (tradeLogs.drop currentIndex.toNat) r currentIndex
    let r1 := res.1
    let currentIndex := res.2
    if currentIndex > r1.StartIndex then
      let r2 : TradeStorageByRange := { r1 with StartIndex := currentIndex }
      if currentIndex < tradeLogs.length then
        match tradeLogs[currentIndex.toNat]? with
        | some log =>
          some { r2 with StartBlockTs := log.BlockTimestamp, StartBlock := log.BlockNumber }
        | none => none
      else some r2
    else some r1

/-- The outer loop of RemoveTrades over the windows. -/
def removeTradesRanges (now : Time) (tradeLogs : List Tradelog) :
    List TradeStorageByRange → Option (List TradeStorageByRange)
  | [] => some []
  | r :: rs =>
    match removeTradesRange now tradeLogs r with
    | none => none
    | some r1 =>
      match removeTradesRanges now tradeLogs rs with
      | none => none
      | some rs1 => some (r1 :: rs1)

/-- The method Storage.RemoveTrades on the chain state, with the clock reading now. -/
def RemoveTrades (now : Time) (c : ChainData) : Option ChainData :=
  match removeTradesRanges now c.tradeLogs c.tradeDataRange with
  | none => none
  | some rs => some { c with tradeDataRange := rs }

/-- The subtractions of the loop body of RemoveTransfer. -/
def subTransferFromRange (log : Transferlog) (r : TransferStorageByRange) :
    TransferStorageByRange :=
  let token := ToLower log.TokenAddress
  if log.IsCexIn then
    { r with
      CexInFlow := r.CexInFlow.sub token log.TokenAmount
      CexInFlowInUsdt := r.CexInFlowInUsdt.sub token (log.TokenAmount * log.CurrentTokenUsdtRate) }
  else
    { r with
      CexOutFlow := r.CexOutFlow.sub token log.TokenAmount
      CexOutFlowInUsdt := r.CexOutFlowInUsdt.sub token (log.TokenAmount * log.CurrentTokenUsdtRate) }

/-- The inner loop of RemoveTransfer; the first argument is transferLogs[currentIndex:]. -/
def removeTransferLoop (now : Time) (duration : Int) :
    List Transferlog → TransferStorageByRange → Int → TransferStorageByRange × Int
  | [], r, currentIndex => (r, currentIndex)
  | log :: rest, r, currentIndex =>
    if Since now log.BlockTimestamp ≤ duration then (r, currentIndex)
    else removeTransferLoop now duration rest (subTransferFromRange log r) (currentIndex + 1)

/-- The body of the outer loop of RemoveTransfer, for one window. -/
def removeTransferRange (now : Time) (transferLogs : List Transferlog)
    (r : TransferStorageByRange) : Option TransferStorageByRange :=
  let duration := r.duration
  let currentIndex := r.StartIndex
  if currentIndex = -1 then some r
  else if currentIndex < 0 then none
  else
    let res :=
      removeTransferLoop now duration (transferLogs.drop currentIndex.toNat) r currentIndex
    let r1 := res.1
    let currentIndex := res.2
    if currentIndex > r1.StartIndex then
      let r2 : TransferStorageByRange := { r1 with StartIndex := currentIndex }
      if currentIndex < transferLogs.length then
        match transferLogs[currentIndex.toNat]? with
        | some log =>
          some { r2 with StartBlockTs := log.BlockTimestamp, StartBlock := log.BlockNumber }
        | none => none
      else some r2
    else some r1

/-- The outer loop of RemoveTransfer over the windows. -/
def removeTransferRanges (now : Time) (transferLogs : List Transferlog) :
    List TransferStorageByRange → Option (List TransferStorageByRange)
  | [] => some []
  | r :: rs =>
    match removeTransferRange now transferLogs r with
    | none => none
    | some r1 =>
      match removeTransferRanges now transferLogs rs with
      | none => none
      | some rs1 => some (r1 :: rs1)

/-- The method Storage.RemoveTransfer on the chain state, with the clock reading now. -/
def RemoveTransfer (now : Time) (c : ChainData) : Option ChainData :=
  match removeTransferRanges now c.transferLogs c.transferDataRange with
  | none => none
  | some rs => some { c with transferDataRange := rs }

/-! ## Vocabulary of the statements -/

/-- The six aggregate maps of a trade window. -/
inductive TradeField where
  | userProfit
  | tokenProfit
  | tokenInFlowInUsdt
  | tokenInFlow
  | tokenOutFlowInUsdt
  | tokenOutFlow
deriving DecidableEq, Repr

/-- The map of a trade window selected by a field name. -/
def TradeStorageByRange.field (r : TradeStorageByRange) : TradeField → GoMap ℚ
  | .userProfit => r.UserProfit
  | .tokenProfit => r.TokenProfit
  | .tokenInFlowInUsdt => r.TokenInFlowInUsdt
  | .tokenInFlow => r.TokenInFlow
  | .tokenOutFlowInUsdt => r.TokenOutFlowInUsdt
  | .tokenOutFlow => r.TokenOutFlow

/-- The key at which a trade log is counted in a map of a trade window. -/
def tradeKey (log : Tradelog) : TradeField → String
  | .userProfit => ToLower log.Sender
  | .tokenProfit => ToLower log.TokenOutAddress
  | .tokenInFlowInUsdt => ToLower log.TokenOutAddress
  | .tokenInFlow => ToLower log.TokenOutAddress
  | .tokenOutFlowInUsdt => ToLower log.TokenInAddress
  | .tokenOutFlow => ToLower log.TokenInAddress

/-- The amount with which a trade log is counted in a map of a trade window. -/
def tradeAmount (log : Tradelog) : TradeField → ℚ
  | .userProfit => log.Profit
  | .tokenProfit => log.Profit
  | .tokenInFlowInUsdt => log.TokenOutAmount * log.TokenOutUsdtRate
  | .tokenInFlow => log.TokenOutAmount
  | .tokenOutFlowInUsdt => log.TokenInAmount * log.TokenInUsdtRate
  | .tokenOutFlow => log.TokenInAmount

/-- The contribution of a trade log to the value of a map at a key. -/
def tradeContribution (f : TradeField) (k : String) (log : Tradelog) : ℚ :=
  if tradeKey log f = k then tradeAmount log f else 0

/-- The test of the retire loop: the event is older than the duration. -/
def tradeExpired (now : Time) (duration : Int) (log : Tradelog) : Bool :=
  decide (¬ Since now log.BlockTimestamp ≤ duration)

/-- The windows after retiring a list of events, oldest first. -/
def subTrades (es : List Tradelog) (r : TradeStorageByRange) : TradeStorageByRange :=
  es.foldl (fun r1 e => subTradeFromRange e r1) r

/-- The events a retire call at the clock reading now removes from a window: the longest
run of expired events at the start index. -/
def tradesToRetire (now : Time) (logs : List Tradelog) (r : TradeStorageByRange) :
    List Tradelog :=
  (logs.drop r.StartIndex.toNat).takeWhile (tradeExpired now r.duration)

/-- The states of the engine reachable from NewStorage by calls of AddTradeLogs and of
RemoveTrades (each retire call reads one clock value). -/
inductive TradeReachable : ChainData → Prop where
  | init : TradeReachable NewStorage
  | add (c : ChainData) (logs : List Tradelog) :
      TradeReachable c → TradeReachable (AddTradeLogs c logs)
  | remove (c c' : ChainData) (now : Time) :
      TradeReachable c → RemoveTrades now c = some c' → TradeReachable c'

/-- The events a trade window counts: the log from the start index on, none when the
start index is -1. -/
def liveTrades (logs : List Tradelog) (r : TradeStorageByRange) : List Tradelog :=
  if r.StartIndex = -1 then [] else logs.drop r.StartIndex.toNat

/-- The invariant of a trade window with respect to the trade log. -/
def TradeInv (logs : List Tradelog) (r : TradeStorageByRange) : Prop :=
  (r.StartIndex = -1 ↔ logs = []) ∧ -1 ≤ r.StartIndex ∧ r.StartIndex ≤ logs.length ∧
    ∀ f k, (r.field f).get k = ((liveTrades logs r).map (tradeContribution f k)).sum

/-- The invariant of the engine state: every trade window satisfies TradeInv, and there
are five of them. -/
def StateInv (c : ChainData) : Prop :=
  c.tradeDataRange.length = 5 ∧ ∀ r ∈ c.tradeDataRange, TradeInv c.tradeLogs r

/-! ## The scenarios of the specification -/

/-- The timestamp T0 of the scenarios: 5 March 2024, 12:00:00 UTC. -/
def scenarioT0 : Time := ⟨63845236800000000000, 5, 3, 2024⟩

/-- Scenario 1: a single trade buying 10 of token 0xZ for 1000 of 0xUSDC; its profit,
(120 - 100) * 10 - (1 - 1) * 1000 = 200, is computed at ingest. -/
def scenarioTrade : Tradelog :=
  { BlockTimestamp := scenarioT0
    BlockNumber := 100
    TxIndex := 0
    TxHash := "0xtx1"
    Sender := "0xA"
    LogIndex := 0
    TokenInAddress := "0xUSDC"
    TokenInAmount := 1000
    TokenInUsdtRate := 1
    TokenOutAddress := "0xZ"
    TokenOutAmount := 10
    TokenOutUsdtRate := 100
    NativeTokenUsdtRate := 0
    CurrentTokenInUsdtRate := 1
    CurrentTokenOutUsdtRate := 120
    Profit := 200
    GetCurrentRateFail := false }

/-- Scenario 3: the clock at T0 + 1h + 1s. -/
def scenarioExpiryClock : Time :=
  { scenarioT0 with nanos := scenarioT0.nanos + Hour + Second }

/-- Scenario 3: the state after the trade of scenario 1 is added to a fresh engine and
retired with the clock at T0 + 1h + 1s. -/
def scenarioExpiredState : ChainData :=
  (RemoveTrades scenarioExpiryClock (AddTradeLogs NewStorage [scenarioTrade])).getD NewStorage

/-- The test of the retire loop of RemoveTransfer: the event is older than the duration. -/
def transferExpired (now : Time) (duration : Int) (log : Transferlog) : Bool :=
  decide (¬ Since now log.BlockTimestamp ≤ duration)

/-- The window after retiring a list of transfer events, oldest first. -/
def subTransfers (es : List Transferlog) (r : TransferStorageByRange) : TransferStorageByRange :=
  es.foldl (fun r1 e => subTransferFromRange e r1) r

/-- The events a RemoveTransfer call at the clock reading now removes from a window. -/
def transfersToRetire (now : Time) (logs : List Transferlog) (r : TransferStorageByRange) :
    List Transferlog :=
  (logs.drop r.StartIndex.toNat).takeWhile (transferExpired now r.duration)

/-- Scenario 4: a transfer of 5 of token 0xZ at rate 20000 from 0xCEX to 0xA, with
is_cex_in false. -/
def scenarioTransfer : Transferlog :=
  { BlockTimestamp := scenarioT0
    BlockNumber := 200
    TxIndex := 0
    TxHash := "0xtx4"
    FromAddress := "0xCEX"
    ToAddress := "0xA"
    TokenAddress := "0xZ"
    TokenAmount := 5
    IsCexIn := false
    CurrentTokenUsdtRate := 20000
    GetCurrentRateFail := false }

/-- The state after the transfer of scenario 4 is added to a fresh engine and retired with
the clock at T0 + 1h + 1s. -/
def scenarioTransferExpiredState : ChainData :=
  (RemoveTransfer scenarioExpiryClock (AddTransferLogs NewStorage [scenarioTransfer])).getD
    NewStorage

/-- A trade whose current rates were not found: scenario 1 with the rate-fail flag set. -/
def scenarioRateFailTrade : Tradelog :=
  { scenarioTrade with Profit := 0, GetCurrentRateFail := true }

/-- A transfer whose current rate was not found: scenario 4 with the rate-fail flag set. -/
def scenarioRateFailTransfer : Transferlog :=
  { scenarioTransfer with CurrentTokenUsdtRate := 0, GetCurrentRateFail := true }

/-- A large sell: 1000 of token 0xZ sold for 60000 of USDC (a quote token, written in
mixed case), value 60000 USDT. -/
def scenarioBigSell : Tradelog :=
  { BlockTimestamp := scenarioT0
    BlockNumber := 101
    TxIndex := 0
    TxHash := "0xtx2"
    Sender := "0xA"
    LogIndex := 0
    TokenInAddress := "0xZ"
    TokenInAmount := 1000
    TokenInUsdtRate := 60
    TokenOutAddress := "0xA0b86991c6218b36c1d19D4a2e9Eb0cE3606eB48"
    TokenOutAmount := 60000
    TokenOutUsdtRate := 1
    NativeTokenUsdtRate := 0
    CurrentTokenInUsdtRate := 100
    CurrentTokenOutUsdtRate := 1
    Profit := -40000
    GetCurrentRateFail := false }

/-- Scenario 4 with is_cex_in true: the transfer is counted in the deposit series. -/
def scenarioCexInTransfer : Transferlog :=
  { scenarioTransfer with IsCexIn := true }

/-! ## storage/db/model.go and the enrichment of worker/get_base_logs_from_db.go -/

/-- The record SolanaTradelogDB: a row of the trade table. -/
structure SolanaTradelogDB where
  BlockTimestamp : Time
  BlockNumber : Nat
  TxHash : String
  Sender : String
  TokenInAddress : String
  TokenInAmount : ℚ
  TokenInUsdtRate : ℚ
  TokenOutAddress : String
  TokenOutAmount : ℚ
  TokenOutUsdtRate : ℚ
  SolUsdtRate : ℚ
  Created : Time
deriving DecidableEq, Repr

/-- The method SolanaTradelogDB.Convert; the fields it does not set have their zero
value. -/
def SolanaTradelogDB.Convert (t : SolanaTradelogDB) : Tradelog :=
  { BlockTimestamp := t.BlockTimestamp
    BlockNumber := t.BlockNumber
    TxIndex := 0
    TxHash := t.TxHash
    Sender := t.Sender
    LogIndex := 0
    TokenInAddress := t.TokenInAddress
    TokenInAmount := t.TokenInAmount
    TokenInUsdtRate := t.TokenInUsdtRate
    TokenOutAddress := t.TokenOutAddress
    TokenOutAmount := t.TokenOutAmount
    TokenOutUsdtRate := t.TokenOutUsdtRate
    NativeTokenUsdtRate := t.SolUsdtRate
    CurrentTokenInUsdtRate := 0
    CurrentTokenOutUsdtRate := 0
    Profit := 0
    GetCurrentRateFail := false }

/-- The record SolanaTransferLogDb: a row of the transfer table. -/
structure SolanaTransferLogDb where
  BlockTimestamp : Time
  BlockNumber : Nat
  TxHash : String
  FromAddress : String
  ToAddress : String
  TokenAddress : String
  TokenAmount : ℚ
  IsCexIn : Bool
  Created : Time
deriving DecidableEq, Repr

/-- The method SolanaTransferLogDb.Convert. -/
def SolanaTransferLogDb.Convert (e : SolanaTransferLogDb) : Transferlog :=
  { BlockTimestamp := e.BlockTimestamp
    BlockNumber := e.BlockNumber
    TxIndex := 0
    TxHash := e.TxHash
    FromAddress := e.FromAddress
    ToAddress := e.ToAddress
    TokenAddress := e.TokenAddress
    TokenAmount := e.TokenAmount
    IsCexIn := e.IsCexIn
    CurrentTokenUsdtRate := 0
    GetCurrentRateFail := false }

/-- The body of the loop of handleTrades for one row: the log to append, or none when
the body leaves through a continue (the flagged local copy is then discarded). -/
def handleTrade (ratesMap : GoMap ℚ) (t : SolanaTradelogDB) : Option Tradelog :=
  let solTradeLog := t.Convert
  match ratesMap.lookup (ToLower t.TokenInAddress) with
  | none => none
  | some currentRateOfTokenIn =>
    match ratesMap.lookup (ToLower t.TokenOutAddress) with
    | none => none
    | some currentRateOfTokenOut =>
      let profitOfTokenIn := (currentRateOfTokenIn - t.TokenInUsdtRate) * t.TokenInAmount
      let profitOfTokenOut := (currentRateOfTokenOut - t.TokenOutUsdtRate) * t.TokenOutAmount
      some
        { solTradeLog with
          CurrentTokenInUsdtRate := currentRateOfTokenIn
          CurrentTokenOutUsdtRate := currentRateOfTokenOut
          GetCurrentRateFail := false
          Profit := profitOfTokenOut - profitOfTokenIn }

/-- The method handleTrades; ratesMap is the snapshot GetTokenUsdtRate returns. -/
def handleTrades (ratesMap : GoMap ℚ) (trades : List SolanaTradelogDB) : List Tradelog :=
  trades.foldl
    (fun logs t =>
      match handleTrade ratesMap t with
      | none => logs
      | some solTradeLog => logs ++ [solTradeLog])
    []

/-- The body of the loop of handleTransfer for one row: the log to append, or none when
the body leaves through the continue. -/
def handleTransferRow (ratesMap : GoMap ℚ) (t : SolanaTransferLogDb) : Option Transferlog :=
  let transfer := t.Convert
  match ratesMap.lookup (ToLower t.TokenAddress) with
  | none => none
  | some currentRate =>
    some { transfer with GetCurrentRateFail := false, CurrentTokenUsdtRate := currentRate }

/-- The method handleTransfer; ratesMap is the snapshot GetTokenUsdtRate returns. -/
def handleTransfer (ratesMap : GoMap ℚ) (transfers : List SolanaTransferLogDb) :
    List Transferlog :=
  transfers.foldl
    (fun logs t =>
      match handleTransferRow ratesMap t with
      | none => logs
      | some transfer => logs ++ [transfer])
    []

/-- The database row of scenario 1, before enrichment. -/
def scenarioTradeRow : SolanaTradelogDB :=
  { BlockTimestamp := scenarioT0
    BlockNumber := 100
    TxHash := "0xtx1"
    Sender := "0xA"
    TokenInAddress := "0xUSDC"
    TokenInAmount := 1000
    TokenInUsdtRate := 1
    TokenOutAddress := "0xZ"
    TokenOutAmount := 10
    TokenOutUsdtRate := 100
    SolUsdtRate := 0
    Created := scenarioT0 }

/-- The database row of scenario 4, before enrichment. -/
def scenarioTransferRow : SolanaTransferLogDb :=
  { BlockTimestamp := scenarioT0
    BlockNumber := 200
    TxHash := "0xtx4"
    FromAddress := "0xCEX"
    ToAddress := "0xA"
    TokenAddress := "0xZ"
    TokenAmount := 5
    IsCexIn := false
    Created := scenarioT0 }

/-- The rate snapshot of scenario 1: 0xusdc at 1 and 0xz at 120. -/
def scenarioRates : GoMap ℚ := ⟨[("0xusdc", 1), ("0xz", 120)]⟩

/-! ## worker/get_base_logs_from_db.go: the initial paging loop -/

/-- The constant limitLogs. -/
def limitLogs : Nat := 200000

/-- The conversion int64(x) of a uint64. -/
def toInt64 (x : Nat) : Int := ((x : Int) + 2 ^ 63) % 2 ^ 64 - 2 ^ 63

/-- The local state of the paging loop of initSolanaTrade (and of initSolanaTransfer):
the accumulated rows and the watermark lastTradeBlock. -/
structure Paging (α : Type) where
  trades : List α
  lastTradeBlock : Int
deriving DecidableEq, Repr

/-- How one pass through the body of the paging loop ends: with the return after a failed
fetch, with a break, or at the end of the body (the loop goes on). -/
inductive PagingStep (α : Type) where
  | failed : PagingStep α
  | stop (s : Paging α) : PagingStep α
  | next (s : Paging α) : PagingStep α
deriving DecidableEq, Repr

/-- The inner loop of the paging loop: while the buffer is not empty and its last row has
the block number of the first row of the page, drop the last row. -/
def trimTail {α : Type} (blockNumber : α → Nat) (first : Nat) (trades : List α) : List α :=
  trades.rdropWhile (fun r => decide (blockNumber r = first))

/-- The body of the paging loop of initSolanaTrade; initSolanaTransfer has the same body
on transfer rows. The fetch is db.GetSolTrades at the page size limitLogs, none being an
error; currentBlock is the result of GetMaxBlockNumber. -/
def pagingBody {α : Type} (blockNumber : α → Nat) (fetch : Int → Option (List α))
    (currentBlock : Int) (s : Paging α) : PagingStep α :=
  match fetch s.lastTradeBlock with
  | none => PagingStep.failed
  | some oldTrades =>
    match oldTrades.head?, oldTrades.getLast? with
    | some firstRow, some lastRow =>
      let lastTradeBlock := toInt64 (blockNumber lastRow)
      let trades := trimTail blockNumber (blockNumber firstRow) s.trades ++ oldTrades
      if lastTradeBlock ≥ currentBlock then PagingStep.stop ⟨trades, lastTradeBlock⟩
      else PagingStep.next ⟨trades, lastTradeBlock⟩
    | _, _ => PagingStep.stop s

/-- The paging loop, run for at most the given number of passes: none when the passes
are used up before the loop has ended. -/
def pagingLoop {α : Type} (blockNumber : α → Nat) (fetch : Int → Option (List α))
    (currentBlock : Int) : Nat → Paging α → Option (PagingStep α)
  | 0, _ => none
  | fuel + 1, s =>
    match pagingBody blockNumber fetch currentBlock s with
    | PagingStep.next s1 => pagingLoop blockNumber fetch currentBlock fuel s1
    | r => some r

/-- The paging loop of initSolanaTrade. -/
def initSolanaTradeLoop (fetch : Int → Option (List SolanaTradelogDB)) (currentBlock : Int) :
    Nat → Paging SolanaTradelogDB → Option (PagingStep SolanaTradelogDB) :=
  pagingLoop SolanaTradelogDB.BlockNumber fetch currentBlock

/-- The paging loop of initSolanaTransfer. -/
def initSolanaTransferLoop (fetch : Int → Option (List SolanaTransferLogDb))
    (currentBlock : Int) :
    Nat → Paging SolanaTransferLogDb → Option (PagingStep SolanaTransferLogDb) :=
  pagingLoop SolanaTransferLogDb.BlockNumber fetch currentBlock

/-- The database read of db.GetSolTrades and db.GetSolTransfer on a static table (the
query is ordered by block_number, limited, with block_number at least fromBlock). The
table is listed in the order in which the database returns its rows; a fetch never fails
and returns the first limit rows whose block_number is at least fromBlock. -/
def fetchFrom {α : Type} (blockNumber : α → Nat) (source : List α) (limit : Nat)
    (fromBlock : Int) : Option (List α) :=
  some ((source.filter (fun r => decide (fromBlock ≤ (blockNumber r : Int)))).take limit)

/-- The states in which the paging loop enters its body or leaves through a break, when
it starts in the state s0. -/
inductive PagingReached {α : Type} (body : Paging α → PagingStep α) (s0 : Paging α) :
    Paging α → Prop where
  | start : PagingReached body s0 s0
  | next (s s1 : Paging α) :
      PagingReached body s0 s → body s = PagingStep.next s1 → PagingReached body s0 s1
  | stop (s s1 : Paging α) :
      PagingReached body s0 s → body s = PagingStep.stop s1 → PagingReached body s0 s1

/-- A trade row with the given block number and tx hash, all other fields as in
scenario 1. -/
def scenarioRowAt (block : Nat) (tx : String) : SolanaTradelogDB :=
  { scenarioTradeRow with BlockNumber := block, TxHash := tx }

/-- Scenario 5: a table with the blocks 10, 10, 11, 11, 12, read in pages of three rows. -/
def scenarioSource : List SolanaTradelogDB :=
  [scenarioRowAt 10 "a", scenarioRowAt 10 "b", scenarioRowAt 11 "c", scenarioRowAt 11 "d",
    scenarioRowAt 12 "e"]

/-- The invariant of the paging loop over a static table: the buffer is an initial
segment of the rows at or above the starting watermark, and the watermark is the starting
one while the buffer is empty and the block number of the last row of the buffer
afterwards. -/
def PagingInv {α : Type} (blockNumber : α → Nat) (rows : List α) (start : Int)
    (s : Paging α) : Prop :=
  (∃ n, s.trades = rows.take n) ∧
    ((s.trades = [] ∧ s.lastTradeBlock = start) ∨
      ∃ r, s.trades.getLast? = some r ∧ s.lastTradeBlock = (blockNumber r : Int))

/-! ## storage/storage.go: reads -/

/-- The method Storage.GetTradeLogs: the first window whose duration is the given one,
or the error. -/
def GetTradeLogs (c : ChainData) (duration : Int) : Except String TradeStorageByRange :=
  match c.tradeDataRange.find? (fun t => decide (t.duration = duration)) with
  | some t => Except.ok t
  | none => Except.error "invalid duration to get sol trade logs"

/-- The method Storage.GetTransferLogs: the first window whose duration is the given one,
or the error. -/
def GetTransferLogs (c : ChainData) (duration : Int) : Except String TransferStorageByRange :=
  match c.transferDataRange.find? (fun t => decide (t.duration = duration)) with
  | some t => Except.ok t
  | none => Except.error "invalid duration to get transfer logs"

/-- The five configured durations, in the order of NewStorage. -/
def configuredDurations : List Int :=
  [Hour, Hour * 4, Hour * 24, Hour * 24 * 7, Hour * 24 * 30]

/-- The states of the engine reachable from NewStorage by calls of AddTradeLogs,
AddTransferLogs, RemoveTrades and RemoveTransfer. -/
inductive Reachable : ChainData → Prop where
  | init : Reachable NewStorage
  | addTrades (c : ChainData) (logs : List Tradelog) :
      Reachable c → Reachable (AddTradeLogs c logs)
  | addTransfers (c : ChainData) (logs : List Transferlog) :
      Reachable c → Reachable (AddTransferLogs c logs)
  | removeTrades (c c1 : ChainData) (now : Time) :
      Reachable c → RemoveTrades now c = some c1 → Reachable c1
  | removeTransfer (c c1 : ChainData) (now : Time) :
      Reachable c → RemoveTransfer now c = some c1 → Reachable c1

/-- The function sort.Slice of the Go library, as an insertion sort by the given less
function: an element is placed before the first element that is not less than it. The
order sort.Slice gives to elements of which neither is less than the other is not
specified; no statement below depends on it. -/
def sortSlice {α : Type} (less : α → α → Bool) (l : List α) : List α :=
  l.insertionSort (fun a b => less b a = false)

/-- The method Storage.GetLastBigTx: the loop walks bigTx from the last index down to 0
and appends the entries that pass the action test, then the result is sorted by
block number, larger first. The argument last is not used. -/
def GetLastBigTx (c : ChainData) (action : SmartMoneyActivities) (last : Int) : List BigTx :=
  let _ := last
  let res := c.bigTx.reverse.foldl
    (fun res e =>
      if action = SmartMoneyActivitiesAll ∨ action = e.Action then res ++ [e] else res)
    []
  sortSlice (fun a b => decide (a.BlockNumber > b.BlockNumber)) res

/-! ## internal/server/server.go: getTopToken -/

/-- The enumeration Chain: its one constant. -/
inductive Chain where
  | ChainBase
deriving DecidableEq, Repr

/-- Modelled from the spec: the generated String method of Chain (the enumer output is not
among the sources); the name is the line comment of the constant, the chain token "base"
of the spec. -/
def Chain.String : Chain → String
  | Chain.ChainBase => "base"

/-- The record Token of common/types.go; SourcePrice is stored as its number. -/
structure Token where
  UsdPrice : ℚ
  Address : String
  Symbol : String
  ChainID : String
  SourcePrice : Nat
  ImageUrl : String
  DexID : String
  Url : String
  PriceChangeM5 : ℚ
  PriceChangeH1 : ℚ
  PriceChangeH6 : ℚ
  PriceChangeH24 : ℚ
deriving DecidableEq, Repr

/-- The zero value of Token, the result of reading a missing key of a map of tokens. -/
def Token.zero : Token :=
  { UsdPrice := 0, Address := "", Symbol := "", ChainID := "", SourcePrice := 0, ImageUrl := "",
    DexID := "", Url := "", PriceChangeM5 := 0, PriceChangeH1 := 0, PriceChangeH6 := 0,
    PriceChangeH24 := 0 }

/-- The record Data. -/
structure Data where
  key : String
  value : ℚ
deriving DecidableEq, Repr

/-- The record AddressResponse. -/
structure AddressResponse where
  Addr : String
  Value : ℚ
  Chain : String
deriving DecidableEq, Repr

/-- The record TokenAddressResponse (it embeds AddressResponse). -/
structure TokenAddressResponse extends AddressResponse where
  Symbol : String
  CurrentPrice : ℚ
  ImageUrl : String
deriving DecidableEq, Repr

/-- The result of an arithmetic operation on Go int values (64 bits): the exact result
wrapped into the range of an int64. -/
def wrapInt (x : Int) : Int := (x + 2 ^ 63) % 2 ^ 64 - 2 ^ 63

/-- The response entry getTopToken builds for one element of the sorted array. -/
def topTokenEntry (chain : Chain) (addrToTokenInfo : GoMap Token) (t : Data) :
    TokenAddressResponse :=
  let info := (addrToTokenInfo.lookup (ToLower t.key)).getD Token.zero
  { Addr := t.key
    Value := t.value
    Chain := chain.String
    Symbol := info.Symbol
    CurrentPrice := info.UsdPrice
    ImageUrl := info.ImageUrl }

/-- The loop "for i := st; i <= ed; i++" of getTopToken. The first argument is the number
of values of i from the current one up to ed; the read arrData[i] with a negative i is a
panic. -/
def topTokenLoop (chain : Chain) (addrToTokenInfo : GoMap Token) (arrData : List Data) :
    Nat → Int → List TokenAddressResponse → Option (List TokenAddressResponse)
  | 0, _, top => some top
  | n + 1, i, top =>
    if i ≥ (arrData.length : Int) then some top
    else if i < 0 then none
    else
      match arrData[i.toNat]? with
      | none => none
      | some t =>
        topTokenLoop chain addrToTokenInfo arrData n (i + 1)
          (top ++ [topTokenEntry chain addrToTokenInfo t])

/-- The method getTopToken. The entries of data are listed in the order in which the
range over the map yields them; start and limit are Go int values. -/
def getTopToken (chain : Chain) (data : GoMap ℚ) (addrToTokenInfo : GoMap Token)
    (start limit : Int) : Option (List TokenAddressResponse) :=
  let arrData := sortSlice (fun a b : Data => decide (a.value > b.value))
    (data.entries.map (fun kv => ({ key := kv.1, value := kv.2 } : Data)))
  let st := wrapInt (wrapInt (start - 1) * limit)
  let ed := wrapInt (wrapInt (st + limit) - 1)
  topTokenLoop chain addrToTokenInfo arrData (ed - st + 1).toNat st []

/-! ## storage/storage.go: the symbol cache -/

/-- The record CmcTokenInfo of common/types.go. -/
structure CmcTokenInfo where
  Name : String
  Symbol : String
  CirculatingSupply : ℚ
  TotalSupply : ℚ
  MaxSupply : ℚ
  UsdPrice : ℚ
  MarketCap : ℚ
  Tags : List String
  Volume24H : ℚ
  FullyDilutedValuation : ℚ
  PercentChange1H : ℚ
  PercentChange24H : ℚ
  PercentChange7D : ℚ
deriving DecidableEq, Repr

/-- The zero value of CmcTokenInfo, the result of reading a missing key. -/
def CmcTokenInfo.zero : CmcTokenInfo :=
  { Name := "", Symbol := "", CirculatingSupply := 0, TotalSupply := 0, MaxSupply := 0,
    UsdPrice := 0, MarketCap := 0, Tags := [], Volume24H := 0, FullyDilutedValuation := 0,
    PercentChange1H := 0, PercentChange24H := 0, PercentChange7D := 0 }

/-- The record CmcTokens of common/types.go. -/
structure CmcTokens where
  UpdatedTime : Int
  Tokens : List CmcTokenInfo
deriving DecidableEq, Repr

/-- The method Storage.SetSymbolToTokenInfoFromCmc on the map symbolToInfo. -/
def SetSymbolToTokenInfoFromCmc (symbolToInfo : GoMap CmcTokenInfo) (tokens : CmcTokens) :
    GoMap CmcTokenInfo :=
  tokens.Tokens.foldl
    (fun m t => if (m.lookup t.Symbol).isNone then m.store t.Symbol t else m)
    symbolToInfo

/-- The method Storage.GetTokenInfoFromSymbol on the map symbolToInfo. -/
def GetTokenInfoFromSymbol (symbolToInfo : GoMap CmcTokenInfo) (symbol : String) :
    CmcTokenInfo :=
  (symbolToInfo.lookup symbol).getD CmcTokenInfo.zero

/-! ## internal/server/server.go: the per-user loop of getLeaderboard -/

/-- The local variables of the loop over the trades of one user in getLeaderboard. -/
structure LeaderboardVars where
  mostTokenIn : GoMap ℚ
  mostTokenOut : GoMap ℚ
  mostTokenInValue : ℚ
  mostTokenInAddress : String
  mostTokenOutValue : ℚ
  mostTokenOutAddress : String
  largestPositionAddress : String
  largestPositionInUsdtValue : ℚ
deriving DecidableEq, Repr

/-- The variables before the loop: empty maps and zero values. -/
def LeaderboardVars.init : LeaderboardVars :=
  { mostTokenIn := GoMap.empty
    mostTokenOut := GoMap.empty
    mostTokenInValue := 0
    mostTokenInAddress := ""
    mostTokenOutValue := 0
    mostTokenOutAddress := ""
    largestPositionAddress := ""
    largestPositionInUsdtValue := 0 }

/-- The body of the loop "for _, tra := range trade" of getLeaderboard. -/
def leaderboardStep (v : LeaderboardVars) (tra : Tradelog) : LeaderboardVars :=
  let tokenIn := ToLower tra.TokenInAddress
  let tokenOut := ToLower tra.TokenOutAddress
  let valuePosition := tra.CurrentTokenOutUsdtRate * tra.TokenOutAmount
  let v1 : LeaderboardVars :=
    { v with
      mostTokenIn := v.mostTokenIn.add tokenOut valuePosition
      mostTokenOut := v.mostTokenOut.add tokenIn (tra.CurrentTokenInUsdtRate * tra.TokenInAmount) }
  let v2 : LeaderboardVars :=
    if v1.mostTokenInValue < v1.mostTokenIn.get tokenOut then
      { v1 with
        mostTokenInAddress := tra.TokenOutAddress
        mostTokenInValue := v1.mostTokenIn.get tokenOut }
    else v1
  let v3 : LeaderboardVars :=
    if v2.mostTokenOutValue < v2.mostTokenOut.get tokenIn then
      { v2 with
        mostTokenOutAddress := tra.TokenInAddress
        mostTokenOutValue := v2.mostTokenOut.get tokenIn }
    else v2
  if IsQuote tokenOut = false ∧ v3.largestPositionInUsdtValue < valuePosition then
    { v3 with
      largestPositionInUsdtValue := valuePosition
      largestPositionAddress := tra.TokenOutAddress }
  else v3

/-- The loop over the trades of one user in getLeaderboard: the variables after it. -/
def leaderboardLoop (trade : List Tradelog) : LeaderboardVars :=
  trade.foldl leaderboardStep LeaderboardVars.init

/-- A trade of the user 0xA that buys the given token for the given current value (amount
1 at the current rate value). -/
def scenarioBuy (tokenOut : String) (value : ℚ) : Tradelog :=
  { scenarioTrade with
    TokenOutAddress := tokenOut
    TokenOutAmount := 1
    CurrentTokenOutUsdtRate := value }

/-- Scenario 6: the user buys a quote token (USDC) with value 10 and 0xZ with value 5. -/
def scenarioLeaderboardTrades : List Tradelog :=
  [scenarioBuy "0xA0b86991c6218b36c1d19D4a2e9Eb0cE3606eB48" 10, scenarioBuy "0xZ" 5]

/-- The keys of a Go map. -/
def GoMap.keys {V : Type} (m : GoMap V) : List String := m.entries.map Prod.fst

/-- Every key of the map is equal to its own lower-casing. -/
def LowerKeys {V : Type} (m : GoMap V) : Prop := ∀ k ∈ m.keys, ToLower k = k

/-- Every key of the four maps of a transfer window is equal to its own lower-casing. -/
def TransferLowerKeys (r : TransferStorageByRange) : Prop :=
  LowerKeys r.CexInFlow ∧ LowerKeys r.CexInFlowInUsdt ∧ LowerKeys r.CexOutFlow ∧
    LowerKeys r.CexOutFlowInUsdt

/-- The invariant I4 of the engine state: the keys of every window map, of the token set
and of the two daily series are lower-cased. -/
def KeysInv (c : ChainData) : Prop :=
  (∀ r ∈ c.tradeDataRange, ∀ f, LowerKeys (r.field f)) ∧
    (∀ r ∈ c.transferDataRange, TransferLowerKeys r) ∧
    LowerKeys c.tokens ∧ LowerKeys c.tokenDeposit ∧ LowerKeys c.tokenWithdraw

/-! ## internal/server/user.go: getUserBalances -/

/-- The record TokenBalance of common/types.go. -/
structure TokenBalance where
  Address : String
  Amount : ℚ
deriving DecidableEq, Repr

/-- The record TokenBalanceResponse. -/
structure TokenBalanceResponse where
  Symbol : String
  ImageUrl : String
  Amount : ℚ
  TotalSpent : ℚ
  Pnl : ℚ
deriving DecidableEq, Repr

/-- The record GetUserBalanceResponse. -/
structure GetUserBalanceResponse where
  Address : String
  TotalBalance : ℚ
  Profit : ℚ
  PnlPercent : ℚ
  TokenBalances : List TokenBalanceResponse
deriving DecidableEq, Repr

/-- The handler getUserBalances, from the request already bound and its chain parsed: the
answer "balances", or the error text of the bad-request answer. The argument inMemDB is
the key/value read followed by the JSON decoding (a failed read or decoding gives no
balances); addrToTokenInfo is the snapshot GetTokenInfo returns. -/
def getUserBalances (c : ChainData) (addrToTokenInfo : GoMap Token)
    (inMemDB : String → List TokenBalance) (chain : Chain) (address : String) :
    Except String GetUserBalanceResponse :=
  match GetTradeLogs c (Hour * 24) with
  | Except.error _ => Except.error "invalid get user balances"
  | Except.ok trades =>
    let profit := trades.UserProfit.get address
    let balances := inMemDB (chain.String ++ "_" ++ ToLower address)
    let acc := balances.foldl
      (fun (acc : List TokenBalanceResponse × ℚ) balance =>
        let info := (addrToTokenInfo.lookup (ToLower balance.Address)).getD Token.zero
        (acc.1 ++ [{ Symbol := info.Symbol, ImageUrl := info.ImageUrl, Amount := balance.Amount,
                     TotalSpent := 0, Pnl := 0 }],
          acc.2 + info.UsdPrice * balance.Amount))
      ([], 0)
    let userBalances := acc.1
    let totalBalance := acc.2
    let pnlPercent := if totalBalance > 0 then profit / totalBalance * 100 else 0
    Except.ok
      { Address := address
        TotalBalance := totalBalance
        Profit := profit
        PnlPercent := pnlPercent
        TokenBalances := userBalances }

/-! ## storage/storage.go: the scan of the transfer log -/

/-- The method Storage.GetTransferLogsForToken: the loop over the transfer log appends the
entries whose token address equals the token ignoring case. The argument fromTs (the
parameter from of the source) is not read. -/
def GetTransferLogsForToken (c : ChainData) (fromTs : Time) (token : String) : List Transferlog :=
  let _ := fromTs
  c.transferLogs.foldl
    (fun transferlogs t =>
      if EqualFold t.TokenAddress token then transferlogs ++ [t] else transferlogs)
    []

/-! ## internal/server/token.go: getPriceWithTransfer -/

/-- The record PriceWithTransferResponse. -/
structure PriceWithTransferResponse where
  Date : String
  Deposit : ℚ
  Withdraw : ℚ
  Price : ℚ
deriving DecidableEq, Repr

/-- The handler getPriceWithTransfer, from the request already bound and its chain parsed:
the map of the answer "price_with_transfer". The loop ranges over the deposit series; the
field Price is not set. -/
def getPriceWithTransfer (c : ChainData) (address : String) : GoMap PriceWithTransferResponse :=
  let series := GetPriceWithTransferByRange c (ToLower address)
  let deposit := series.1
  let withdraw := series.2
  deposit.entries.foldl
    (fun res kv =>
      res.store kv.1 { Date := kv.1, Deposit := kv.2, Withdraw := withdraw.get kv.1, Price := 0 })
    GoMap.empty

/-! ## worker/get_base_logs_from_db.go: initSolanaTrade -/

/-- The method Postgres.GetMaxBlockNumber on a static table: the largest block number of
the table. On an empty table max(block_number) is NULL, which does not scan into an int64:
the error, none. -/
def GetMaxBlockNumber {α : Type} (blockNumber : α → Nat) : List α → Option Int
  | [] => none
  | r :: rs => some ((rs.foldl (fun m x => max m (blockNumber x)) (blockNumber r) : Nat) : Int)

/-- The method initSolanaTrade up to the end of its paging loop, on a static table: the
state with which the loop ends. The arguments lastTradeBlock and maxRangeBlock are the
fields of the worker (the configured first block and the largest range to read back); the
loop is run for at most fuel passes. -/
def initSolanaTrade (source : List SolanaTradelogDB) (lastTradeBlock maxRangeBlock : Int)
    (fuel : Nat) : Option (PagingStep SolanaTradelogDB) :=
  let res := GetMaxBlockNumber SolanaTradelogDB.BlockNumber source
  let currentBlock := res.getD 0
  let lastTradeBlock :=
    if res.isSome ∧ wrapInt (currentBlock - maxRangeBlock) > lastTradeBlock then
      wrapInt (currentBlock - maxRangeBlock)
    else lastTradeBlock
  initSolanaTradeLoop (fetchFrom SolanaTradelogDB.BlockNumber source limitLogs) currentBlock fuel
    ⟨[], lastTradeBlock⟩

/-! ## Further scenarios -/

/-- A second trade of the user 0xA, at block 101 and at the time T0 + 1h + 1s. -/
def scenarioLaterTrade : Tradelog :=
  { scenarioTrade with BlockNumber := 101, BlockTimestamp := scenarioExpiryClock, TxHash := "0xtx3" }

/-- The state after the expiry scenario is followed by the append of the later trade: the
trade of scenario 1 is added, retired at T0 + 1h + 1s, and the later trade is added. -/
def scenarioStaleStartState : ChainData :=
  AddTradeLogs scenarioExpiredState [scenarioLaterTrade]

/-- A trade stamped T0 + 1h + 1s whose block number, 99, is below that of scenario 1. -/
def scenarioSkewedTrade : Tradelog :=
  { scenarioTrade with BlockNumber := 99, BlockTimestamp := scenarioExpiryClock, TxHash := "0xtx0" }

/-- A table of 200001 trade rows: 199999 rows of block 1 followed by two rows of block 2. -/
def scenarioStraddleSource : List SolanaTradelogDB :=
  List.replicate 199999 (scenarioRowAt 1 "a") ++ [scenarioRowAt 2 "b", scenarioRowAt 2 "c"]

/-- A transfer of scenario 4 counted in the withdraw series only, one day later. -/
def scenarioNextDayTransfer : Transferlog :=
  { scenarioTransfer with BlockTimestamp := ⟨scenarioT0.nanos + 24 * Hour, 6, 3, 2024⟩ }

/-- The date keys of every series of a daily-series map are distinct (the representation
of a Go map lists each key once). -/
def SeriesNodup (series : GoMap TokenTransfer) : Prop :=
  ∀ token s, series.lookup token = some s → s.keys.Nodup

/-- One operation of the engine: a call of AddTradeLogs, AddTransferLogs, RemoveTrades or
RemoveTransfer that returns. -/
inductive Step : ChainData → ChainData → Prop where
  | addTrades (c : ChainData) (logs : List Tradelog) : Step c (AddTradeLogs c logs)
  | addTransfers (c : ChainData) (logs : List Transferlog) : Step c (AddTransferLogs c logs)
  | removeTrades (c c1 : ChainData) (now : Time) : RemoveTrades now c = some c1 → Step c c1
  | removeTransfer (c c1 : ChainData) (now : Time) : RemoveTransfer now c = some c1 → Step c c1

/-- The start index is -1 or a position from 0 to the length of the log. -/
def IndexInBounds (len : Nat) (ix : StorageByRangeIndex) : Prop :=
  ix.StartIndex = -1 ∨ (0 ≤ ix.StartIndex ∧ ix.StartIndex ≤ (len : Int))

/-- The start index of b is not below that of a, and is not negative when that of a is
not. -/
def IndexNotDecreased (a b : StorageByRangeIndex) : Prop :=
  a.StartIndex ≤ b.StartIndex ∧ (0 ≤ a.StartIndex → 0 ≤ b.StartIndex)

/-- When the start index of a is not -1, b has the start index, the start block and the
start timestamp of a. -/
def StartKept (a b : StorageByRangeIndex) : Prop :=
  a.StartIndex ≠ -1 →
    b.StartIndex = a.StartIndex ∧ b.StartBlock = a.StartBlock ∧ b.StartBlockTs = a.StartBlockTs

/-! ## The float64 arithmetic of the aggregate maps -/

/-- The number of binary digits of a natural number (0 for 0); the first argument bounds
the number of halvings. -/
def bitLength : Nat → Nat → Nat
  | 0, _ => 0
  | fuel + 1, n => if n = 0 then 0 else bitLength fuel (n / 2) + 1

/-- The float64 (IEEE 754 binary64) nearest to a rational number, a tie going to the even
significand: the rounding that every float64 operation applies to its exact result. A
float64 is held as the rational number it denotes. For |x| in [2^e, 2^(e+1)) the float64
values are the multiples of 2^(e - 52), and below 2^(-1022) they are the multiples of
2^(-1074) (the subnormal numbers); t is the exponent of that spacing and r the rounded
multiple. A result of magnitude 2^1024 or more, which Go makes an infinity, is outside
this model. -/
def roundFloat64 (x : ℚ) : ℚ :=
  if x = 0 then 0
  else
    let n := x.num.natAbs
    let d := x.den
    let e0 : Int := (bitLength n n : Int) - (bitLength d d : Int)
    let e : Int := if d * 2 ^ e0.toNat ≤ n * 2 ^ (-e0).toNat then e0 else e0 - 1
    let t : Int := max e (-1022) - 52
    let N := n * 2 ^ (-t).toNat
    let D := d * 2 ^ t.toNat
    let q := N / D
    let rem := N % D
    let r :=
      if 2 * rem < D then q else if D < 2 * rem then q + 1 else if q % 2 = 0 then q else q + 1
    let mag : ℚ := ((r * 2 ^ t.toNat : Nat) : ℚ) / ((2 ^ (-t).toNat : Nat) : ℚ)
    if x < 0 then -mag else mag

/-- The float64 sum a + b: the exact sum, rounded. -/
def float64Add (a b : ℚ) : ℚ := roundFloat64 (a + b)

/-- The float64 difference a - b: the exact difference, rounded. -/
def float64Sub (a b : ℚ) : ℚ := roundFloat64 (a - b)

/-- The float64 product a * b: the exact product, rounded. -/
def float64Mul (a b : ℚ) : ℚ := roundFloat64 (a * b)

/-- The statement m[k] += v in float64 arithmetic. -/
def GoMap.add64 (m : GoMap ℚ) (k : String) (v : ℚ) : GoMap ℚ :=
  m.store k (float64Add (m.get k) v)

/-- The statement m[k] -= v in float64 arithmetic. -/
def GoMap.sub64 (m : GoMap ℚ) (k : String) (v : ℚ) : GoMap ℚ :=
  m.store k (float64Sub (m.get k) v)

/-! ## storage/storage.go: AddTradeLogs and RemoveTrades in float64 arithmetic -/

/-- One pass of the loop "add big data range" of AddTradeLogs, for one window, with every
sum and product rounded to float64 (a product is rounded before it is added). -/
def addTradeToRange64 (log : Tradelog) (lenTradeLogs : Nat) (r : TradeStorageByRange) :
    TradeStorageByRange :=
  let tokenIn := ToLower log.TokenInAddress
  let tokenOut := ToLower log.TokenOutAddress
  let sender := ToLower log.Sender
  let r1 : TradeStorageByRange :=
    { r with
      UserProfit := r.UserProfit.add64 sender log.Profit
      TokenProfit := r.TokenProfit.add64 tokenOut log.Profit
      TokenInFlowInUsdt :=
        r.TokenInFlowInUsdt.add64 tokenOut (float64Mul log.TokenOutAmount log.TokenOutUsdtRate)
      TokenInFlow := r.TokenInFlow.add64 tokenOut log.TokenOutAmount
      TokenOutFlowInUsdt :=
        r.TokenOutFlowInUsdt.add64 tokenIn (float64Mul log.TokenInAmount log.TokenInUsdtRate)
      TokenOutFlow := r.TokenOutFlow.add64 tokenIn log.TokenInAmount
      EndBlockTs := log.BlockTimestamp
      EndBlock := log.BlockNumber }
  if r1.StartIndex = -1 then
    { r1 with
      StartBlockTs := log.BlockTimestamp
      StartBlock := log.BlockNumber
      StartIndex := (lenTradeLogs : Int) - 1 }
  else r1

/-- The body of the loop of AddTradeLogs, for one trade log, in float64 arithmetic. -/
def addTradeLog64 (c : ChainData) (log : Tradelog) : ChainData :=
  let tokenIn := ToLower log.TokenInAddress
  let tokenOut := ToLower log.TokenOutAddress
  let c1 : ChainData := { c with tokens := (c.tokens.store tokenIn true).store tokenOut true }
  if log.GetCurrentRateFail then c1
  else
    let c2 : ChainData := { c1 with tradeLogs := c1.tradeLogs ++ [log] }
    let valueInUsdt := float64Mul log.TokenOutAmount log.TokenOutUsdtRate
    let c3 : ChainData :=
      if valueInUsdt ≥ bigVolumeInUsdt then
        let action :=
          if IsQuote log.TokenOutAddress then SmartMoneyActivitiesSelling
          else SmartMoneyActivitiesBuying
        { c2 with
          bigTx := c2.bigTx ++
            [{ TokenAddress := log.TokenOutAddress
               Time := log.BlockTimestamp
               Sender := log.Sender
               ValueInToken := log.TokenOutAmount
               ValueInUsdt := valueInUsdt
               Price := log.TokenOutUsdtRate
               Movement := action.String
               Action := action
               BlockTimestamp := log.BlockTimestamp
               BlockNumber := log.BlockNumber
               Tx := log.TxHash }] }
      else c2
    { c3 with tradeDataRange := c3.tradeDataRange.map (addTradeToRange64 log c3.tradeLogs.length) }

/-- The method Storage.AddTradeLogs on the chain state, in float64 arithmetic. -/
def AddTradeLogs64 (c : ChainData) (logs : List Tradelog) : ChainData :=
  logs.foldl addTradeLog64 c

/-- The six subtractions of the loop body of RemoveTrades, in float64 arithmetic. -/
def subTradeFromRange64 (log : Tradelog) (r : TradeStorageByRange) : TradeStorageByRange :=
  let tokenIn := ToLower log.TokenInAddress
  let tokenOut := ToLower log.TokenOutAddress
  let sender := ToLower log.Sender
  { r with
    UserProfit := r.UserProfit.sub64 sender log.Profit
    TokenProfit := r.TokenProfit.sub64 tokenOut log.Profit
    TokenInFlowInUsdt :=
      r.TokenInFlowInUsdt.sub64 tokenOut (float64Mul log.TokenOutAmount log.TokenOutUsdtRate)
    TokenInFlow := r.TokenInFlow.sub64 tokenOut log.TokenOutAmount
    TokenOutFlowInUsdt :=
      r.TokenOutFlowInUsdt.sub64 tokenIn (float64Mul log.TokenInAmount log.TokenInUsdtRate)
    TokenOutFlow := r.TokenOutFlow.sub64 tokenIn log.TokenInAmount }

/-- The inner loop of RemoveTrades in float64 arithmetic; the first argument is
tradeLogs[currentIndex:]. -/
def removeTradesLoop64 (now : Time) (duration : Int) :
    List Tradelog → TradeStorageByRange → Int → TradeStorageByRange × Int
  | [], r, currentIndex => (r, currentIndex)
  | log :: rest, r, currentIndex =>
    if Since now log.BlockTimestamp ≤ duration then (r, currentIndex)
    else removeTradesLoop64 now duration rest (subTradeFromRange64 log r) (currentIndex + 1)

/-- The body of the outer loop of RemoveTrades, for one window, in float64 arithmetic. -/
def removeTradesRange64 (now : Time) (tradeLogs : List Tradelog) (r : TradeStorageByRange) :
    Option TradeStorageByRange :=
  let duration := r.duration
  let currentIndex := r.StartIndex
  if currentIndex = -1 then some r
  else if currentIndex < 0 then none
  else
    let res := removeTradesLoop64 now duration (tradeLogs.drop currentIndex.toNat) r currentIndex
    let r1 := res.1
    let currentIndex := res.2
    if currentIndex > r1.StartIndex then
      let r2 : TradeStorageByRange := { r1 with StartIndex := currentIndex }
      if currentIndex < tradeLogs.length then
        match tradeLogs[currentIndex.toNat]? with
        | some log =>
          some { r2 with StartBlockTs := log.BlockTimestamp, StartBlock := log.BlockNumber }
        | none => none
      else some r2
    else some r1

/-- The outer loop of RemoveTrades over the windows, in float64 arithmetic. -/
def removeTradesRanges64 (now : Time) (tradeLogs : List Tradelog) :
    List TradeStorageByRange → Option (List TradeStorageByRange)
  | [] => some []
  | r :: rs =>
    match removeTradesRange64 now tradeLogs r with
    | none => none
    | some r1 =>
      match removeTradesRanges64 now tradeLogs rs with
      | none => none
      | some rs1 => some (r1 :: rs1)

/-- The method Storage.RemoveTrades on the chain state, with the clock reading now, in
float64 arithmetic. -/
def RemoveTrades64 (now : Time) (c : ChainData) : Option ChainData :=
  match removeTradesRanges64 now c.tradeLogs c.tradeDataRange with
  | none => none
  | some rs => some { c with tradeDataRange := rs }

/-! ## A run with float64 residue -/

/-- The float64 nearest to 0.1. -/
def float64Tenth : ℚ := 3602879701896397 / 36028797018963968

/-- The float64 nearest to 0.2. -/
def float64Fifth : ℚ := 3602879701896397 / 18014398509481984

/-- A trade of scenario 1 in which 0.1 of the token 0xZ is bought, stamped T0. -/
def scenarioDriftTrade1 : Tradelog :=
  { scenarioTrade with TokenOutAmount := float64Tenth }

/-- A trade of scenario 1 in which 0.2 of the token 0xZ is bought, at block 101, stamped
T0. -/
def scenarioDriftTrade2 : Tradelog :=
  { scenarioTrade with TokenOutAmount := float64Fifth, BlockNumber := 101, TxHash := "0xtx5" }

/-- A trade of scenario 1 in which 0.2 of the token 0xZ is bought, at block 102, stamped
T0 + 1h + 1s. -/
def scenarioDriftTrade3 : Tradelog :=
  { scenarioTrade with
    TokenOutAmount := float64Fifth
    BlockNumber := 102
    BlockTimestamp := scenarioExpiryClock
    TxHash := "0xtx6" }

/-- The clock at T0 + 5h + 2s. -/
def scenarioDriftClock : Time :=
  { scenarioT0 with nanos := scenarioT0.nanos + 5 * Hour + 2 * Second }

/-- The run in float64 arithmetic: the first two trades are added to a fresh engine, the
engine is retired at T0 + 1h + 1s, the third trade is added, and the engine is retired at
T0 + 5h + 2s. -/
def scenarioDriftState : Option ChainData :=
  match RemoveTrades64 scenarioExpiryClock
      (AddTradeLogs64 NewStorage [scenarioDriftTrade1, scenarioDriftTrade2]) with
  | none => none
  | some c1 => RemoveTrades64 scenarioDriftClock (AddTradeLogs64 c1 [scenarioDriftTrade3])

/-! ## Lemmas on Go maps -/

namespace GoMap

variable {V : Type}

theorem lookupList_storeList (m : List (String × V)) (k k' : String) (v : V) :
    lookupList (storeList m k v) k' = if k = k' then some v else lookupList m k' := by
  induction m with
  | nil => simp [storeList, lookupList]
  | cons a m ih =>
    obtain ⟨ka, va⟩ := a
    by_cases h : ka = k
    · subst h
      by_cases h' : ka = k' <;> simp [storeList, lookupList, h']
    · by_cases h' : ka = k'
      · subst h'
        simp [storeList, lookupList, h, Ne.symm h]
      · simp [storeList, lookupList, h, h', ih]

theorem lookup_store (m : GoMap V) (k k' : String) (v : V) :
    (m.store k v).lookup k' = if k = k' then some v else m.lookup k' :=
  lookupList_storeList m.entries k k' v

theorem lookup_empty (k : String) : (GoMap.empty : GoMap V).lookup k = none := rfl

theorem get_empty (k : String) : (GoMap.empty : GoMap ℚ).get k = 0 := rfl

theorem lookup_add (m : GoMap ℚ) (k k' : String) (v : ℚ) :
    (m.add k v).lookup k' = if k = k' then some (m.get k + v) else m.lookup k' :=
  lookup_store m k k' _

theorem lookup_sub (m : GoMap ℚ) (k k' : String) (v : ℚ) :
    (m.sub k v).lookup k' = if k = k' then some (m.get k - v) else m.lookup k' :=
  lookup_store m k k' _

theorem get_add (m : GoMap ℚ) (k k' : String) (v : ℚ) :
    (m.add k v).get k' = m.get k' + (if k = k' then v else 0) := by
  unfold get
  rw [lookup_add]
  by_cases h : k = k'
  · subst h
    simp [get]
  · simp [h]

theorem get_sub (m : GoMap ℚ) (k k' : String) (v : ℚ) :
    (m.sub k v).get k' = m.get k' - (if k = k' then v else 0) := by
  unfold get
  rw [lookup_sub]
  by_cases h : k = k'
  · subst h
    simp [get]
  · simp [h]

end GoMap

/-! ## Lemmas on time -/

/-- The saturation of Time.Sub does not change a comparison with a duration below the
largest one. -/
theorem Since_le_iff (now t : Time) (d : Int) (hd : d < 2 ^ 63 - 1) (hd' : -(2 ^ 63) ≤ d) :
    Since now t ≤ d ↔ now.nanos - t.nanos ≤ d := by
  have e1 : maxDuration = 2 ^ 63 - 1 := rfl
  have e2 : minDuration = -(2 ^ 63) := rfl
  unfold Since Time.Sub
  simp only
  split_ifs with h1 h2
  · rw [e1] at h1 ⊢
    constructor <;> intro h <;> omega
  · rw [e2] at h2 ⊢
    constructor <;> intro h <;> omega
  · rfl

/-! ## Lemmas on lists -/

theorem takeWhile_drop_length_takeWhile {α : Type} (p : α → Bool) (l : List α) :
    (l.drop (l.takeWhile p).length).takeWhile p = [] := by
  induction l with
  | nil => rfl
  | cons a l ih =>
    by_cases h : p a = true
    · simpa [List.takeWhile_cons, h] using ih
    · simp [List.takeWhile_cons, h]

theorem takeWhile_append_drop_length {α : Type} (p : α → Bool) (l : List α) :
    l.takeWhile p ++ l.drop (l.takeWhile p).length = l := by
  induction l with
  | nil => rfl
  | cons a l ih =>
    by_cases h : p a = true
    · simpa [List.takeWhile_cons, h] using ih
    · simp [List.takeWhile_cons, h]

theorem length_takeWhile_le_length {α : Type} (p : α → Bool) (l : List α) :
    (l.takeWhile p).length ≤ l.length := by
  have h := congrArg List.length (takeWhile_append_drop_length p l)
  rw [List.length_append] at h
  omega

theorem takeWhile_eq_self_of_all {α : Type} (p : α → Bool) (l : List α)
    (h : ∀ a ∈ l, p a = true) : l.takeWhile p = l := by
  induction l with
  | nil => rfl
  | cons a l ih =>
    have ha : p a = true := h a (List.mem_cons_self a l)
    have hl : ∀ b ∈ l, p b = true := fun b hb => h b (List.mem_cons_of_mem a hb)
    simp [List.takeWhile_cons, ha, ih hl]

/-! ## Lemmas on the trade windows -/

theorem field_addTradeToRange (log : Tradelog) (n : Nat) (r : TradeStorageByRange)
    (f : TradeField) :
    (addTradeToRange log n r).field f = (r.field f).add (tradeKey log f) (tradeAmount log f) := by
  unfold addTradeToRange
  cases f <;> simp only [TradeStorageByRange.field, tradeKey, tradeAmount] <;> split_ifs <;> rfl

theorem field_subTradeFromRange (log : Tradelog) (r : TradeStorageByRange) (f : TradeField) :
    (subTradeFromRange log r).field f = (r.field f).sub (tradeKey log f) (tradeAmount log f) := by
  cases f <;> rfl

theorem index_subTradeFromRange (log : Tradelog) (r : TradeStorageByRange) :
    (subTradeFromRange log r).toStorageByRangeIndex = r.toStorageByRangeIndex ∧
      (subTradeFromRange log r).duration = r.duration :=
  ⟨rfl, rfl⟩

theorem subTrades_nil (r : TradeStorageByRange) : subTrades [] r = r := rfl

theorem subTrades_cons (e : Tradelog) (es : List Tradelog) (r : TradeStorageByRange) :
    subTrades (e :: es) r = subTrades es (subTradeFromRange e r) := rfl

theorem index_subTrades (es : List Tradelog) (r : TradeStorageByRange) :
    (subTrades es r).toStorageByRangeIndex = r.toStorageByRangeIndex ∧
      (subTrades es r).duration = r.duration := by
  induction es generalizing r with
  | nil => exact ⟨rfl, rfl⟩
  | cons e es ih =>
    rw [subTrades_cons]
    exact ⟨(ih _).1.trans (index_subTradeFromRange e r).1,
      (ih _).2.trans (index_subTradeFromRange e r).2⟩

theorem get_field_subTrades (es : List Tradelog) (r : TradeStorageByRange) (f : TradeField)
    (k : String) :
    ((subTrades es r).field f).get k =
      (r.field f).get k - (es.map (tradeContribution f k)).sum := by
  induction es generalizing r with
  | nil => simp [subTrades_nil]
  | cons e es ih =>
    rw [subTrades_cons, ih, field_subTradeFromRange, GoMap.get_sub]
    simp only [List.map_cons, List.sum_cons, tradeContribution]
    ring

theorem removeTradesLoop_eq (now : Time) (duration : Int) (es : List Tradelog)
    (r : TradeStorageByRange) (i : Int) :
    removeTradesLoop now duration es r i =
      (subTrades (es.takeWhile (tradeExpired now duration)) r,
        i + ((es.takeWhile (tradeExpired now duration)).length : Int)) := by
  induction es generalizing r i with
  | nil => simp [removeTradesLoop, subTrades_nil]
  | cons e es ih =>
    by_cases h : Since now e.BlockTimestamp ≤ duration
    · simp [removeTradesLoop, h, tradeExpired, List.takeWhile_cons, subTrades_nil]
    · simp only [removeTradesLoop, h, if_false, ih]
      have hp : tradeExpired now duration e = true := by simp [tradeExpired, h]
      simp only [List.takeWhile_cons, hp, if_true, subTrades_cons, List.length_cons]
      congr 1
      push_cast
      ring

theorem removeTradesRange_neg_one (now : Time) (logs : List Tradelog) (r : TradeStorageByRange)
    (h : r.StartIndex = -1) : removeTradesRange now logs r = some r := by
  simp [removeTradesRange, h]

theorem removeTradesRange_stable (now : Time) (logs : List Tradelog) (r : TradeStorageByRange)
    (h0 : 0 ≤ r.StartIndex) (htw : tradesToRetire now logs r = []) :
    removeTradesRange now logs r = some r := by
  have h1 : r.StartIndex ≠ -1 := by omega
  have h2 : ¬ r.StartIndex < 0 := by omega
  unfold tradesToRetire at htw
  simp [removeTradesRange, h1, h2, removeTradesLoop_eq, htw, subTrades_nil]

theorem removeTradesRange_some (now : Time) (logs : List Tradelog) (r r' : TradeStorageByRange)
    (h : removeTradesRange now logs r = some r') :
    (r.StartIndex = -1 ∧ r' = r) ∨
      (0 ≤ r.StartIndex ∧
        r'.StartIndex = r.StartIndex + ((tradesToRetire now logs r).length : Int) ∧
        r'.duration = r.duration ∧
        ∀ f, r'.field f = (subTrades (tradesToRetire now logs r) r).field f) := by
  by_cases h1 : r.StartIndex = -1
  · left
    rw [removeTradesRange_neg_one now logs r h1] at h
    exact ⟨h1, (Option.some.inj h).symm⟩
  · right
    by_cases h2 : r.StartIndex < 0
    · simp [removeTradesRange, h1, h2] at h
    · have hidx := index_subTrades (tradesToRetire now logs r) r
      have hS : (subTrades (tradesToRetire now logs r) r).StartIndex = r.StartIndex :=
        congrArg StorageByRangeIndex.StartIndex hidx.1
      refine ⟨by omega, ?_⟩
      unfold removeTradesRange at h
      simp only [h1, h2, if_false, removeTradesLoop_eq] at h
      change (if r.StartIndex + ((tradesToRetire now logs r).length : Int) >
          (subTrades (tradesToRetire now logs r) r).StartIndex then _ else _) = _ at h
      rw [hS] at h
      split_ifs at h with h3 h4
      · split at h
        · cases h
          exact ⟨rfl, hidx.2, fun f => by cases f <;> rfl⟩
        · cases h
      · cases h
        exact ⟨rfl, hidx.2, fun f => by cases f <;> rfl⟩
      · cases h
        have hlen : ((tradesToRetire now logs r).length : Int) = 0 := by omega
        refine ⟨?_, hidx.2, fun f => rfl⟩
        rw [hlen, add_zero]
        exact hS

theorem removeTradesRange_total (now : Time) (logs : List Tradelog) (r : TradeStorageByRange)
    (h : -1 ≤ r.StartIndex) : ∃ r', removeTradesRange now logs r = some r' := by
  by_cases h1 : r.StartIndex = -1
  · exact ⟨r, removeTradesRange_neg_one now logs r h1⟩
  · have h2 : ¬ r.StartIndex < 0 := by omega
    unfold removeTradesRange
    simp only [h1, h2, if_false, removeTradesLoop_eq]
    split_ifs with h3 h4
    · have hlt : (r.StartIndex + ((tradesToRetire now logs r).length : Int)).toNat < logs.length := by
        unfold tradesToRetire
        omega
      unfold tradesToRetire at hlt
      rw [List.getElem?_eq_getElem hlt]
      exact ⟨_, rfl⟩
    · exact ⟨_, rfl⟩
    · exact ⟨_, rfl⟩

theorem removeTradesRanges_iff (now : Time) (logs : List Tradelog)
    (rs rs' : List TradeStorageByRange) :
    removeTradesRanges now logs rs = some rs' ↔
      List.Forall₂ (fun r r' => removeTradesRange now logs r = some r') rs rs' := by
  induction rs generalizing rs' with
  | nil =>
    constructor
    · intro h
      simp only [removeTradesRanges, Option.some.injEq] at h
      subst h
      exact List.Forall₂.nil
    · intro h
      cases h
      rfl
  | cons r rs ih =>
    constructor
    · intro h
      unfold removeTradesRanges at h
      split at h
      · cases h
      · rename_i r1 hr1
        split at h
        · cases h
        · rename_i rs1 hrs1
          cases h
          exact List.Forall₂.cons hr1 ((ih rs1).1 hrs1)
    · intro h
      cases h with
      | cons h1 h2 =>
        unfold removeTradesRanges
        rw [h1]
        simp only
        rw [(ih _).2 h2]

theorem removeTradesRanges_total (now : Time) (logs : List Tradelog)
    (rs : List TradeStorageByRange) (h : ∀ r ∈ rs, -1 ≤ r.StartIndex) :
    ∃ rs', removeTradesRanges now logs rs = some rs' := by
  induction rs with
  | nil => exact ⟨[], rfl⟩
  | cons r rs ih =>
    obtain ⟨r1, hr1⟩ := removeTradesRange_total now logs r (h r (List.mem_cons_self r rs))
    obtain ⟨rs1, hrs1⟩ := ih (fun x hx => h x (List.mem_cons_of_mem r hx))
    refine ⟨r1 :: rs1, ?_⟩
    unfold removeTradesRanges
    rw [hr1]
    simp only
    rw [hrs1]

theorem RemoveTrades_iff (now : Time) (c c' : ChainData) :
    RemoveTrades now c = some c' ↔
      ∃ rs', c' = { c with tradeDataRange := rs' } ∧
        List.Forall₂ (fun r r' => removeTradesRange now c.tradeLogs r = some r')
          c.tradeDataRange rs' := by
  unfold RemoveTrades
  constructor
  · intro h
    split at h
    · cases h
    · rename_i rs hrs
      cases h
      exact ⟨rs, rfl, (removeTradesRanges_iff now _ _ _).1 hrs⟩
  · rintro ⟨rs', rfl, h⟩
    rw [(removeTradesRanges_iff now _ _ _).2 h]

theorem RemoveTrades_total (now : Time) (c : ChainData)
    (h : ∀ r ∈ c.tradeDataRange, -1 ≤ r.StartIndex) : ∃ c', RemoveTrades now c = some c' := by
  obtain ⟨rs', hrs⟩ := removeTradesRanges_total now c.tradeLogs c.tradeDataRange h
  refine ⟨{ c with tradeDataRange := rs' }, ?_⟩
  unfold RemoveTrades
  rw [hrs]

theorem forall₂_forall {α β : Type} {R : α → β → Prop} {P : α → Prop} {Q : β → Prop}
    {l : List α} {l' : List β} (h : List.Forall₂ R l l')
    (hPQ : ∀ a b, R a b → P a → Q b) (hP : ∀ a ∈ l, P a) : ∀ b ∈ l', Q b := by
  induction h with
  | nil => intro b hb; cases hb
  | cons hab _ ih =>
    intro b hb
    rcases List.mem_cons.1 hb with rfl | hb
    · exact hPQ _ _ hab (hP _ (List.mem_cons_self _ _))
    · exact ih (fun a ha => hP a (List.mem_cons_of_mem _ ha)) b hb

theorem forall₂_map_right {α : Type} (g : α → α) (l : List α) :
    List.Forall₂ (fun a b => b = g a) l (l.map g) := by
  induction l with
  | nil => exact List.Forall₂.nil
  | cons a l ih => exact List.Forall₂.cons rfl ih

theorem forall₂_imp {α β : Type} {R S : α → β → Prop} {l : List α} {l' : List β}
    (h : List.Forall₂ R l l') (hRS : ∀ a b, R a b → S a b) : List.Forall₂ S l l' := by
  induction h with
  | nil => exact List.Forall₂.nil
  | cons hab _ ih => exact List.Forall₂.cons (hRS _ _ hab) ih

/-! ## The engine state after AddTradeLogs -/

theorem AddTradeLogs_nil (c : ChainData) : AddTradeLogs c [] = c := rfl

theorem AddTradeLogs_cons (c : ChainData) (e : Tradelog) (es : List Tradelog) :
    AddTradeLogs c (e :: es) = AddTradeLogs (addTradeLog c e) es := rfl

theorem AddTradeLogs_single (c : ChainData) (e : Tradelog) :
    AddTradeLogs c [e] = addTradeLog c e := rfl

theorem addTradeLog_fail (c : ChainData) (e : Tradelog) (h : e.GetCurrentRateFail = true) :
    addTradeLog c e =
      { c with
        tokens := (c.tokens.store (ToLower e.TokenInAddress) true).store
          (ToLower e.TokenOutAddress) true } := by
  simp [addTradeLog, h]

theorem addTradeLog_tradeLogs (c : ChainData) (e : Tradelog)
    (h : e.GetCurrentRateFail = false) : (addTradeLog c e).tradeLogs = c.tradeLogs ++ [e] := by
  unfold addTradeLog
  simp only [h, Bool.false_eq_true, if_false]
  split_ifs <;> rfl

theorem addTradeLog_tradeDataRange (c : ChainData) (e : Tradelog)
    (h : e.GetCurrentRateFail = false) :
    (addTradeLog c e).tradeDataRange =
      c.tradeDataRange.map (addTradeToRange e (c.tradeLogs.length + 1)) := by
  unfold addTradeLog
  simp only [h, Bool.false_eq_true, if_false]
  split_ifs <;> simp

theorem StartIndex_addTradeToRange (e : Tradelog) (n : Nat) (r : TradeStorageByRange) :
    (addTradeToRange e n r).StartIndex = if r.StartIndex = -1 then (n : Int) - 1 else r.StartIndex := by
  unfold addTradeToRange
  simp only
  split_ifs <;> rfl

theorem duration_addTradeToRange (e : Tradelog) (n : Nat) (r : TradeStorageByRange) :
    (addTradeToRange e n r).duration = r.duration := by
  unfold addTradeToRange
  simp only
  split_ifs <;> rfl

/-! ## Reachable states and the window invariant -/

theorem TradeInv_new (d : Int) : TradeInv [] (NewTradeStorageByRange d) := by
  refine ⟨by simp [NewTradeStorageByRange], by simp [NewTradeStorageByRange],
    by simp [NewTradeStorageByRange], ?_⟩
  intro f k
  cases f <;> simp [liveTrades, NewTradeStorageByRange, TradeStorageByRange.field, GoMap.get_empty]

theorem TradeInv_addTradeToRange (logs : List Tradelog) (e : Tradelog) (r : TradeStorageByRange)
    (h : TradeInv logs r) :
    TradeInv (logs ++ [e]) (addTradeToRange e (logs.length + 1) r) := by
  obtain ⟨h1, h2, h3, h4⟩ := h
  have hS := StartIndex_addTradeToRange e (logs.length + 1) r
  by_cases hs : r.StartIndex = -1
  · rw [if_pos hs] at hS
    have hS' : (addTradeToRange e (logs.length + 1) r).StartIndex = (logs.length : Int) := by
      rw [hS]
      push_cast
      ring
    refine ⟨?_, by omega, by simp [hS'], ?_⟩
    · constructor
      · intro h
        omega
      · intro h
        simp at h
    · intro f k
      have hne : (addTradeToRange e (logs.length + 1) r).StartIndex ≠ -1 := by omega
      have h0 := h4 f k
      simp only [liveTrades, if_pos hs, List.map_nil, List.sum_nil] at h0
      rw [field_addTradeToRange, GoMap.get_add, h0]
      have hlen : ¬ (logs.length : Int) = -1 := by omega
      simp only [liveTrades, hS', hlen, if_false, Int.toNat_ofNat, List.drop_left, List.map_cons,
        List.map_nil, List.sum_cons, List.sum_nil, tradeContribution, zero_add, add_zero]
  · rw [if_neg hs] at hS
    have hnn : 0 ≤ r.StartIndex := by omega
    have hle : r.StartIndex.toNat ≤ logs.length := by omega
    refine ⟨?_, by omega, by rw [hS]; simp only [List.length_append, List.length_singleton]; omega,
      ?_⟩
    · constructor
      · intro h
        omega
      · intro h
        simp at h
    · intro f k
      have hne : (addTradeToRange e (logs.length + 1) r).StartIndex ≠ -1 := by omega
      have h0 := h4 f k
      simp only [liveTrades, if_neg hs] at h0
      rw [field_addTradeToRange, GoMap.get_add, h0]
      simp only [liveTrades, hS, hs, if_false, List.drop_append_of_le_length hle, List.map_append,
        List.sum_append, List.map_cons, List.map_nil, List.sum_cons, List.sum_nil,
        tradeContribution, add_zero]

theorem length_tradesToRetire_le (now : Time) (logs : List Tradelog) (r : TradeStorageByRange) :
    (tradesToRetire now logs r).length + r.StartIndex.toNat ≤ max logs.length r.StartIndex.toNat := by
  unfold tradesToRetire
  have h1 := length_takeWhile_le_length (tradeExpired now r.duration)
    (logs.drop r.StartIndex.toNat)
  rw [List.length_drop] at h1
  omega

theorem drop_tradesToRetire (now : Time) (logs : List Tradelog) (r : TradeStorageByRange) :
    tradesToRetire now logs r ++
        logs.drop (r.StartIndex.toNat + (tradesToRetire now logs r).length) =
      logs.drop r.StartIndex.toNat := by
  have h := takeWhile_append_drop_length (tradeExpired now r.duration)
    (logs.drop r.StartIndex.toNat)
  rw [List.drop_drop] at h
  exact h

theorem TradeInv_removeTradesRange (now : Time) (logs : List Tradelog)
    (r r' : TradeStorageByRange) (h : TradeInv logs r)
    (hr : removeTradesRange now logs r = some r') : TradeInv logs r' := by
  rcases removeTradesRange_some now logs r r' hr with ⟨_, rfl⟩ | ⟨h0, hS, _, hf⟩
  · exact h
  · obtain ⟨h1, h2, h3, h4⟩ := h
    have hlen := length_tradesToRetire_le now logs r
    have hne : r.StartIndex ≠ -1 := by omega
    have hne' : r'.StartIndex ≠ -1 := by omega
    refine ⟨?_, by omega, by omega, ?_⟩
    · constructor
      · intro h
        omega
      · intro h
        exact absurd (h1.2 h) hne
    · intro f k
      have h0 := h4 f k
      simp only [liveTrades, if_neg hne] at h0
      have htoNat : r'.StartIndex.toNat = r.StartIndex.toNat + (tradesToRetire now logs r).length := by
        omega
      rw [hf f, get_field_subTrades, h0]
      simp only [liveTrades, if_neg hne', htoNat]
      rw [← drop_tradesToRetire now logs r, List.map_append, List.sum_append]
      ring

theorem StateInv_NewStorage : StateInv NewStorage := by
  refine ⟨rfl, ?_⟩
  intro r hr
  simp only [NewStorage, List.mem_cons, List.mem_singleton, List.not_mem_nil, or_false] at hr
  rcases hr with rfl | rfl | rfl | rfl | rfl <;> exact TradeInv_new _

theorem StateInv_addTradeLog (c : ChainData) (e : Tradelog) (h : StateInv c) :
    StateInv (addTradeLog c e) := by
  cases hf : e.GetCurrentRateFail with
  | true =>
    rw [addTradeLog_fail c e hf]
    exact h
  | false =>
    refine ⟨?_, ?_⟩
    · rw [addTradeLog_tradeDataRange c e hf, List.length_map]
      exact h.1
    · intro r hr
      rw [addTradeLog_tradeDataRange c e hf] at hr
      rw [addTradeLog_tradeLogs c e hf]
      obtain ⟨r0, hr0, rfl⟩ := List.mem_map.1 hr
      exact TradeInv_addTradeToRange _ e r0 (h.2 r0 hr0)

theorem StateInv_AddTradeLogs (c : ChainData) (logs : List Tradelog) (h : StateInv c) :
    StateInv (AddTradeLogs c logs) := by
  induction logs generalizing c with
  | nil => exact h
  | cons e es ih =>
    rw [AddTradeLogs_cons]
    exact ih _ (StateInv_addTradeLog c e h)

theorem StateInv_RemoveTrades (now : Time) (c c' : ChainData) (h : StateInv c)
    (hr : RemoveTrades now c = some c') : StateInv c' := by
  obtain ⟨rs', rfl, hrs⟩ := (RemoveTrades_iff now c c').1 hr
  refine ⟨?_, ?_⟩
  · exact hrs.length_eq.symm.trans h.1
  · exact forall₂_forall hrs
      (fun a b hab ha => TradeInv_removeTradesRange now c.tradeLogs a b ha hab) h.2

theorem StateInv_of_reachable (c : ChainData) (h : TradeReachable c) : StateInv c := by
  induction h with
  | init => exact StateInv_NewStorage
  | add c logs _ ih => exact StateInv_AddTradeLogs c logs ih
  | remove c c' now _ hr ih => exact StateInv_RemoveTrades now c c' ih hr

/-! ## The scenarios, evaluated -/

theorem RemoveTrades_scenario :
    RemoveTrades scenarioExpiryClock (AddTradeLogs NewStorage [scenarioTrade]) =
      some scenarioExpiredState := by
  with_unfolding_all rfl

theorem TradeReachable_scenarioExpiredState : TradeReachable scenarioExpiredState :=
  TradeReachable.remove _ _ scenarioExpiryClock
    (TradeReachable.add NewStorage [scenarioTrade] TradeReachable.init) RemoveTrades_scenario

/-! ## C1: the window maps are the sums over the live events -/

/-- C1 (invariant I3 for trade windows). In every state reachable from NewStorage by
AddTradeLogs and RemoveTrades calls there are five trade windows, each start index lies
between -1 and the length of the trade log, and at every key each of the six maps of each
window holds the exact sum of the contributions of the trade-log entries from the start
index to the end of the log (the empty sum when the start index is -1 or the length). -/
theorem trade_window_maps_are_live_sums (c : ChainData) (h : TradeReachable c) :
    c.tradeDataRange.length = 5 ∧
      ∀ r ∈ c.tradeDataRange,
        -1 ≤ r.StartIndex ∧ r.StartIndex ≤ c.tradeLogs.length ∧
        ∀ k : String,
          r.UserProfit.get k =
            ((if r.StartIndex = -1 then [] else c.tradeLogs.drop r.StartIndex.toNat).map
              (fun e => if ToLower e.Sender = k then e.Profit else 0)).sum ∧
          r.TokenProfit.get k =
            ((if r.StartIndex = -1 then [] else c.tradeLogs.drop r.StartIndex.toNat).map
              (fun e => if ToLower e.TokenOutAddress = k then e.Profit else 0)).sum ∧
          r.TokenInFlow.get k =
            ((if r.StartIndex = -1 then [] else c.tradeLogs.drop r.StartIndex.toNat).map
              (fun e => if ToLower e.TokenOutAddress = k then e.TokenOutAmount else 0)).sum ∧
          r.TokenInFlowInUsdt.get k =
            ((if r.StartIndex = -1 then [] else c.tradeLogs.drop r.StartIndex.toNat).map
              (fun e => if ToLower e.TokenOutAddress = k
                then e.TokenOutAmount * e.TokenOutUsdtRate else 0)).sum ∧
          r.TokenOutFlow.get k =
            ((if r.StartIndex = -1 then [] else c.tradeLogs.drop r.StartIndex.toNat).map
              (fun e => if ToLower e.TokenInAddress = k then e.TokenInAmount else 0)).sum ∧
          r.TokenOutFlowInUsdt.get k =
            ((if r.StartIndex = -1 then [] else c.tradeLogs.drop r.StartIndex.toNat).map
              (fun e => if ToLower e.TokenInAddress = k
                then e.TokenInAmount * e.TokenInUsdtRate else 0)).sum := by
  obtain ⟨h5, hall⟩ := StateInv_of_reachable c h
  refine ⟨h5, ?_⟩
  intro r hr
  obtain ⟨_, h2, h3, h4⟩ := hall r hr
  refine ⟨h2, h3, ?_⟩
  intro k
  exact ⟨h4 .userProfit k, h4 .tokenProfit k, h4 .tokenInFlow k, h4 .tokenInFlowInUsdt k,
    h4 .tokenOutFlow k, h4 .tokenOutFlowInUsdt k⟩

/-- Witness of C1: the state of scenario 3 (one trade added, then retired from the 1h
window) is reachable, and the window maps are the live sums there. -/
theorem trade_window_maps_are_live_sums_witness :
    TradeReachable scenarioExpiredState ∧
      (scenarioExpiredState.tradeDataRange.length = 5 ∧
        ∀ r ∈ scenarioExpiredState.tradeDataRange,
          -1 ≤ r.StartIndex ∧ r.StartIndex ≤ scenarioExpiredState.tradeLogs.length ∧
          ∀ k : String,
            r.UserProfit.get k =
              ((if r.StartIndex = -1 then []
                else scenarioExpiredState.tradeLogs.drop r.StartIndex.toNat).map
                (fun e => if ToLower e.Sender = k then e.Profit else 0)).sum ∧
            r.TokenProfit.get k =
              ((if r.StartIndex = -1 then []
                else scenarioExpiredState.tradeLogs.drop r.StartIndex.toNat).map
                (fun e => if ToLower e.TokenOutAddress = k then e.Profit else 0)).sum ∧
            r.TokenInFlow.get k =
              ((if r.StartIndex = -1 then []
                else scenarioExpiredState.tradeLogs.drop r.StartIndex.toNat).map
                (fun e => if ToLower e.TokenOutAddress = k then e.TokenOutAmount else 0)).sum ∧
            r.TokenInFlowInUsdt.get k =
              ((if r.StartIndex = -1 then []
                else scenarioExpiredState.tradeLogs.drop r.StartIndex.toNat).map
                (fun e => if ToLower e.TokenOutAddress = k
                  then e.TokenOutAmount * e.TokenOutUsdtRate else 0)).sum ∧
            r.TokenOutFlow.get k =
              ((if r.StartIndex = -1 then []
                else scenarioExpiredState.tradeLogs.drop r.StartIndex.toNat).map
                (fun e => if ToLower e.TokenInAddress = k then e.TokenInAmount else 0)).sum ∧
            r.TokenOutFlowInUsdt.get k =
              ((if r.StartIndex = -1 then []
                else scenarioExpiredState.tradeLogs.drop r.StartIndex.toNat).map
                (fun e => if ToLower e.TokenInAddress = k
                  then e.TokenInAmount * e.TokenInUsdtRate else 0)).sum) :=
  ⟨TradeReachable_scenarioExpiredState,
    trade_window_maps_are_live_sums scenarioExpiredState TradeReachable_scenarioExpiredState⟩

/-! ## C2: adding an event and retiring it restores the window -/

theorem add_then_retire_range (now : Time) (logs : List Tradelog) (e : Tradelog)
    (r r' : TradeStorageByRange)
    (hstart : r.StartIndex = -1 ∨ r.StartIndex = (logs.length : Int))
    (hexp : r.duration < Since now e.BlockTimestamp)
    (h : removeTradesRange now (logs ++ [e]) (addTradeToRange e (logs.length + 1) r) = some r') :
    ∀ f k, (r'.field f).get k = (r.field f).get k := by
  have hS : (addTradeToRange e (logs.length + 1) r).StartIndex = (logs.length : Int) := by
    rw [StartIndex_addTradeToRange]
    rcases hstart with h1 | h1
    · rw [if_pos h1]
      push_cast
      ring
    · have hne : r.StartIndex ≠ -1 := by omega
      rw [if_neg hne, h1]
  have hd := duration_addTradeToRange e (logs.length + 1) r
  have hp : tradeExpired now r.duration e = true := by
    simp only [tradeExpired, decide_eq_true_eq]
    omega
  have htw : tradesToRetire now (logs ++ [e]) (addTradeToRange e (logs.length + 1) r) = [e] := by
    unfold tradesToRetire
    rw [hS, hd, Int.toNat_ofNat, List.drop_left]
    simp [List.takeWhile_cons, hp]
  rcases removeTradesRange_some now _ _ r' h with ⟨h1, _⟩ | ⟨_, _, _, hf⟩
  · omega
  · intro f k
    rw [hf f, htw, get_field_subTrades, field_addTradeToRange, GoMap.get_add]
    simp [tradeContribution]

/-- C2 (add/retire symmetry). For a trade e whose rates were found, after AddTradeLogs of
[e] and a RemoveTrades whose clock reading makes e older than the duration of a window
that had no live events (start index -1 or the length of the trade log), all six maps of
that window have, at every key, the value they had before the add. The retire call
returns whenever no start index is below -1. -/
theorem add_then_retire_restores_window (c : ChainData) (e : Tradelog) (now : Time)
    (hf : e.GetCurrentRateFail = false) :
    ((∀ r ∈ c.tradeDataRange, -1 ≤ r.StartIndex) →
        ∃ c', RemoveTrades now (AddTradeLogs c [e]) = some c') ∧
      ∀ c', RemoveTrades now (AddTradeLogs c [e]) = some c' →
        List.Forall₂
          (fun r r' =>
            (r.StartIndex = -1 ∨ r.StartIndex = (c.tradeLogs.length : Int)) →
            r.duration < Since now e.BlockTimestamp →
            ∀ k : String,
              r'.UserProfit.get k = r.UserProfit.get k ∧
              r'.TokenProfit.get k = r.TokenProfit.get k ∧
              r'.TokenInFlow.get k = r.TokenInFlow.get k ∧
              r'.TokenInFlowInUsdt.get k = r.TokenInFlowInUsdt.get k ∧
              r'.TokenOutFlow.get k = r.TokenOutFlow.get k ∧
              r'.TokenOutFlowInUsdt.get k = r.TokenOutFlowInUsdt.get k)
          c.tradeDataRange c'.tradeDataRange := by
  rw [AddTradeLogs_single]
  constructor
  · intro hidx
    apply RemoveTrades_total
    rw [addTradeLog_tradeDataRange c e hf]
    intro r hr
    obtain ⟨r0, hr0, rfl⟩ := List.mem_map.1 hr
    rw [StartIndex_addTradeToRange]
    have := hidx r0 hr0
    split_ifs <;> omega
  · intro c' hc'
    obtain ⟨rs', rfl, hrs⟩ := (RemoveTrades_iff now _ c').1 hc'
    rw [addTradeLog_tradeDataRange c e hf, addTradeLog_tradeLogs c e hf,
      List.forall₂_map_left_iff] at hrs
    refine forall₂_imp hrs ?_
    intro r r' hr hstart hexp k
    have h := add_then_retire_range now c.tradeLogs e r r' hstart hexp hr
    exact ⟨h .userProfit k, h .tokenProfit k, h .tokenInFlow k, h .tokenInFlowInUsdt k,
      h .tokenOutFlow k, h .tokenOutFlowInUsdt k⟩

/-- Witness of C2: the trade of scenario 1 on a fresh engine, retired at T0 + 1h + 1s. -/
theorem add_then_retire_restores_window_witness :
    scenarioTrade.GetCurrentRateFail = false ∧
      (((∀ r ∈ NewStorage.tradeDataRange, -1 ≤ r.StartIndex) →
          ∃ c', RemoveTrades scenarioExpiryClock (AddTradeLogs NewStorage [scenarioTrade]) =
            some c') ∧
        ∀ c', RemoveTrades scenarioExpiryClock (AddTradeLogs NewStorage [scenarioTrade]) =
            some c' →
          List.Forall₂
            (fun r r' =>
              (r.StartIndex = -1 ∨ r.StartIndex = (NewStorage.tradeLogs.length : Int)) →
              r.duration < Since scenarioExpiryClock scenarioTrade.BlockTimestamp →
              ∀ k : String,
                r'.UserProfit.get k = r.UserProfit.get k ∧
                r'.TokenProfit.get k = r.TokenProfit.get k ∧
                r'.TokenInFlow.get k = r.TokenInFlow.get k ∧
                r'.TokenInFlowInUsdt.get k = r.TokenInFlowInUsdt.get k ∧
                r'.TokenOutFlow.get k = r.TokenOutFlow.get k ∧
                r'.TokenOutFlowInUsdt.get k = r.TokenOutFlowInUsdt.get k)
            NewStorage.tradeDataRange c'.tradeDataRange) :=
  ⟨rfl, add_then_retire_restores_window NewStorage scenarioTrade scenarioExpiryClock rfl⟩

/-! ## C3: the expiry scenario -/

/-- C3, counterexample. In the expiry scenario the maps of the 1h trade window are not
empty after the retire: each keeps the key the trade created, with value 0. -/
theorem expiry_scenario_maps_keep_keys :
    (RemoveTrades scenarioExpiryClock (AddTradeLogs NewStorage [scenarioTrade])).map
        (fun c => (c.tradeDataRange.filter (fun w => decide (w.duration = Hour))).map
          (fun w => (w.UserProfit.entries, w.TokenProfit.entries, w.TokenInFlow.entries,
            w.TokenInFlowInUsdt.entries, w.TokenOutFlow.entries, w.TokenOutFlowInUsdt.entries))) =
      some [([("0xa", 0)], [("0xz", 0)], [("0xz", 0)], [("0xz", 0)], [("0xusdc", 0)],
        [("0xusdc", 0)])] := by
  with_unfolding_all rfl

theorem scenarioExpiredState_hour_window :
    ∀ w ∈ scenarioExpiredState.tradeDataRange, w.duration = Hour →
      w.StartIndex = 1 ∧ scenarioExpiredState.tradeLogs.length = 1 ∧
        w.UserProfit.lookup "0xa" = some 0 ∧ w.TokenProfit.lookup "0xz" = some 0 ∧
        w.TokenInFlow.lookup "0xz" = some 0 ∧ w.TokenInFlowInUsdt.lookup "0xz" = some 0 ∧
        w.TokenOutFlow.lookup "0xusdc" = some 0 ∧
        w.TokenOutFlowInUsdt.lookup "0xusdc" = some 0 := by
  with_unfolding_all decide

/-- C3, amended. On a fresh engine, after AddTradeLogs of the scenario-1 trade and
RemoveTrades with the clock at T0 + 1h + 1s, the retire call returns a state in which
every map of the 1h trade window reads 0 at every key, as before the add, and the keys
the trade created are still entries of the maps, with value 0. -/
theorem expiry_scenario_maps_read_zero :
    ∃ c, RemoveTrades scenarioExpiryClock (AddTradeLogs NewStorage [scenarioTrade]) = some c ∧
      (∃ w ∈ c.tradeDataRange, w.duration = Hour) ∧
      ∀ w ∈ c.tradeDataRange, w.duration = Hour →
        (∀ k : String,
          w.UserProfit.get k = 0 ∧ w.TokenProfit.get k = 0 ∧ w.TokenInFlow.get k = 0 ∧
          w.TokenInFlowInUsdt.get k = 0 ∧ w.TokenOutFlow.get k = 0 ∧
          w.TokenOutFlowInUsdt.get k = 0) ∧
        w.UserProfit.lookup "0xa" = some 0 ∧ w.TokenProfit.lookup "0xz" = some 0 ∧
        w.TokenInFlow.lookup "0xz" = some 0 ∧ w.TokenInFlowInUsdt.lookup "0xz" = some 0 ∧
        w.TokenOutFlow.lookup "0xusdc" = some 0 ∧
        w.TokenOutFlowInUsdt.lookup "0xusdc" = some 0 := by
  refine ⟨scenarioExpiredState, RemoveTrades_scenario, ?_, ?_⟩
  · with_unfolding_all decide
  · intro w hw hd
    obtain ⟨hS, hlen, hkeys⟩ := scenarioExpiredState_hour_window w hw hd
    refine ⟨?_, hkeys⟩
    obtain ⟨_, hall⟩ := StateInv_of_reachable _ TradeReachable_scenarioExpiredState
    obtain ⟨_, _, _, h4⟩ := hall w hw
    have hlive : liveTrades scenarioExpiredState.tradeLogs w = [] := by
      have hne : w.StartIndex ≠ -1 := by omega
      simp only [liveTrades, if_neg hne]
      apply List.drop_of_length_le
      omega
    intro k
    have h := fun f => h4 f k
    simp only [hlive, List.map_nil, List.sum_nil] at h
    exact ⟨h .userProfit, h .tokenProfit, h .tokenInFlow, h .tokenInFlowInUsdt,
      h .tokenOutFlow, h .tokenOutFlowInUsdt⟩

/-! ## Lemmas on the transfer windows -/

theorem index_subTransferFromRange (log : Transferlog) (r : TransferStorageByRange) :
    (subTransferFromRange log r).toStorageByRangeIndex = r.toStorageByRangeIndex ∧
      (subTransferFromRange log r).duration = r.duration := by
  unfold subTransferFromRange
  simp only
  split_ifs <;> exact ⟨rfl, rfl⟩

theorem subTransfers_nil (r : TransferStorageByRange) : subTransfers [] r = r := rfl

theorem subTransfers_cons (e : Transferlog) (es : List Transferlog)
    (r : TransferStorageByRange) :
    subTransfers (e :: es) r = subTransfers es (subTransferFromRange e r) := rfl

theorem index_subTransfers (es : List Transferlog) (r : TransferStorageByRange) :
    (subTransfers es r).toStorageByRangeIndex = r.toStorageByRangeIndex ∧
      (subTransfers es r).duration = r.duration := by
  induction es generalizing r with
  | nil => exact ⟨rfl, rfl⟩
  | cons e es ih =>
    rw [subTransfers_cons]
    exact ⟨(ih _).1.trans (index_subTransferFromRange e r).1,
      (ih _).2.trans (index_subTransferFromRange e r).2⟩

theorem removeTransferLoop_eq (now : Time) (duration : Int) (es : List Transferlog)
    (r : TransferStorageByRange) (i : Int) :
    removeTransferLoop now duration es r i =
      (subTransfers (es.takeWhile (transferExpired now duration)) r,
        i + ((es.takeWhile (transferExpired now duration)).length : Int)) := by
  induction es generalizing r i with
  | nil => simp [removeTransferLoop, subTransfers_nil]
  | cons e es ih =>
    by_cases h : Since now e.BlockTimestamp ≤ duration
    · simp [removeTransferLoop, h, transferExpired, List.takeWhile_cons, subTransfers_nil]
    · simp only [removeTransferLoop, h, if_false, ih]
      have hp : transferExpired now duration e = true := by simp [transferExpired, h]
      simp only [List.takeWhile_cons, hp, if_true, subTransfers_cons, List.length_cons]
      congr 1
      push_cast
      ring

theorem removeTransferRange_neg_one (now : Time) (logs : List Transferlog)
    (r : TransferStorageByRange) (h : r.StartIndex = -1) :
    removeTransferRange now logs r = some r := by
  simp [removeTransferRange, h]

theorem removeTransferRange_stable (now : Time) (logs : List Transferlog)
    (r : TransferStorageByRange) (h0 : 0 ≤ r.StartIndex)
    (htw : transfersToRetire now logs r = []) : removeTransferRange now logs r = some r := by
  have h1 : r.StartIndex ≠ -1 := by omega
  have h2 : ¬ r.StartIndex < 0 := by omega
  unfold transfersToRetire at htw
  simp [removeTransferRange, h1, h2, removeTransferLoop_eq, htw, subTransfers_nil]

theorem removeTransferRange_some (now : Time) (logs : List Transferlog)
    (r r' : TransferStorageByRange) (h : removeTransferRange now logs r = some r') :
    (r.StartIndex = -1 ∧ r' = r) ∨
      (0 ≤ r.StartIndex ∧
        r'.StartIndex = r.StartIndex + ((transfersToRetire now logs r).length : Int) ∧
        r'.duration = r.duration ∧
        r'.CexInFlow = (subTransfers (transfersToRetire now logs r) r).CexInFlow ∧
        r'.CexInFlowInUsdt = (subTransfers (transfersToRetire now logs r) r).CexInFlowInUsdt ∧
        r'.CexOutFlow = (subTransfers (transfersToRetire now logs r) r).CexOutFlow ∧
        r'.CexOutFlowInUsdt =
          (subTransfers (transfersToRetire now logs r) r).CexOutFlowInUsdt) := by
  by_cases h1 : r.StartIndex = -1
  · left
    rw [removeTransferRange_neg_one now logs r h1] at h
    exact ⟨h1, (Option.some.inj h).symm⟩
  · right
    by_cases h2 : r.StartIndex < 0
    · simp [removeTransferRange, h1, h2] at h
    · have hidx := index_subTransfers (transfersToRetire now logs r) r
      have hS : (subTransfers (transfersToRetire now logs r) r).StartIndex = r.StartIndex :=
        congrArg StorageByRangeIndex.StartIndex hidx.1
      refine ⟨by omega, ?_⟩
      unfold removeTransferRange at h
      simp only [h1, h2, if_false, removeTransferLoop_eq] at h
      change (if r.StartIndex + ((transfersToRetire now logs r).length : Int) >
          (subTransfers (transfersToRetire now logs r) r).StartIndex then _ else _) = _ at h
      rw [hS] at h
      split_ifs at h with h3 h4
      · split at h
        · cases h
          exact ⟨rfl, hidx.2, rfl, rfl, rfl, rfl⟩
        · cases h
      · cases h
        exact ⟨rfl, hidx.2, rfl, rfl, rfl, rfl⟩
      · cases h
        have hlen : ((transfersToRetire now logs r).length : Int) = 0 := by omega
        refine ⟨?_, hidx.2, rfl, rfl, rfl, rfl⟩
        rw [hlen, add_zero]
        exact hS

theorem removeTransferRange_total (now : Time) (logs : List Transferlog)
    (r : TransferStorageByRange) (h : -1 ≤ r.StartIndex) :
    ∃ r', removeTransferRange now logs r = some r' := by
  by_cases h1 : r.StartIndex = -1
  · exact ⟨r, removeTransferRange_neg_one now logs r h1⟩
  · have h2 : ¬ r.StartIndex < 0 := by omega
    unfold removeTransferRange
    simp only [h1, h2, if_false, removeTransferLoop_eq]
    split_ifs with h3 h4
    · have hlt : (r.StartIndex + ((transfersToRetire now logs r).length : Int)).toNat <
          logs.length := by
        unfold transfersToRetire
        omega
      unfold transfersToRetire at hlt
      rw [List.getElem?_eq_getElem hlt]
      exact ⟨_, rfl⟩
    · exact ⟨_, rfl⟩
    · exact ⟨_, rfl⟩

theorem removeTransferRanges_iff (now : Time) (logs : List Transferlog)
    (rs rs' : List TransferStorageByRange) :
    removeTransferRanges now logs rs = some rs' ↔
      List.Forall₂ (fun r r' => removeTransferRange now logs r = some r') rs rs' := by
  induction rs generalizing rs' with
  | nil =>
    constructor
    · intro h
      simp only [removeTransferRanges, Option.some.injEq] at h
      subst h
      exact List.Forall₂.nil
    · intro h
      cases h
      rfl
  | cons r rs ih =>
    constructor
    · intro h
      unfold removeTransferRanges at h
      split at h
      · cases h
      · rename_i r1 hr1
        split at h
        · cases h
        · rename_i rs1 hrs1
          cases h
          exact List.Forall₂.cons hr1 ((ih rs1).1 hrs1)
    · intro h
      cases h with
      | cons h1 h2 =>
        unfold removeTransferRanges
        rw [h1]
        simp only
        rw [(ih _).2 h2]

theorem removeTransferRanges_total (now : Time) (logs : List Transferlog)
    (rs : List TransferStorageByRange) (h : ∀ r ∈ rs, -1 ≤ r.StartIndex) :
    ∃ rs', removeTransferRanges now logs rs = some rs' := by
  induction rs with
  | nil => exact ⟨[], rfl⟩
  | cons r rs ih =>
    obtain ⟨r1, hr1⟩ := removeTransferRange_total now logs r (h r (List.mem_cons_self r rs))
    obtain ⟨rs1, hrs1⟩ := ih (fun x hx => h x (List.mem_cons_of_mem r hx))
    refine ⟨r1 :: rs1, ?_⟩
    unfold removeTransferRanges
    rw [hr1]
    simp only
    rw [hrs1]

theorem RemoveTransfer_iff (now : Time) (c c' : ChainData) :
    RemoveTransfer now c = some c' ↔
      ∃ rs', c' = { c with transferDataRange := rs' } ∧
        List.Forall₂ (fun r r' => removeTransferRange now c.transferLogs r = some r')
          c.transferDataRange rs' := by
  unfold RemoveTransfer
  constructor
  · intro h
    split at h
    · cases h
    · rename_i rs hrs
      cases h
      exact ⟨rs, rfl, (removeTransferRanges_iff now _ _ _).1 hrs⟩
  · rintro ⟨rs', rfl, h⟩
    rw [(removeTransferRanges_iff now _ _ _).2 h]

theorem RemoveTransfer_total (now : Time) (c : ChainData)
    (h : ∀ r ∈ c.transferDataRange, -1 ≤ r.StartIndex) :
    ∃ c', RemoveTransfer now c = some c' := by
  obtain ⟨rs', hrs⟩ := removeTransferRanges_total now c.transferLogs c.transferDataRange h
  refine ⟨{ c with transferDataRange := rs' }, ?_⟩
  unfold RemoveTransfer
  rw [hrs]

theorem RemoveTransfer_scenario :
    RemoveTransfer scenarioExpiryClock (AddTransferLogs NewStorage [scenarioTransfer]) =
      some scenarioTransferExpiredState := by
  with_unfolding_all rfl

/-! ## C4: retiring twice at one clock reading -/

theorem removeTradesRange_idem (now : Time) (logs : List Tradelog) (r r' : TradeStorageByRange)
    (h : removeTradesRange now logs r = some r') : removeTradesRange now logs r' = some r' := by
  rcases removeTradesRange_some now logs r r' h with ⟨_, rfl⟩ | ⟨h0, hS, hd, _⟩
  · exact h
  · apply removeTradesRange_stable
    · omega
    · have htoNat : r'.StartIndex.toNat =
          r.StartIndex.toNat + (tradesToRetire now logs r).length := by
        omega
      unfold tradesToRetire
      rw [hd, htoNat, ← List.drop_drop]
      exact takeWhile_drop_length_takeWhile _ _

theorem removeTransferRange_idem (now : Time) (logs : List Transferlog)
    (r r' : TransferStorageByRange) (h : removeTransferRange now logs r = some r') :
    removeTransferRange now logs r' = some r' := by
  rcases removeTransferRange_some now logs r r' h with ⟨_, rfl⟩ | ⟨h0, hS, hd, _⟩
  · exact h
  · apply removeTransferRange_stable
    · omega
    · have htoNat : r'.StartIndex.toNat =
          r.StartIndex.toNat + (transfersToRetire now logs r).length := by
        omega
      unfold transfersToRetire
      rw [hd, htoNat, ← List.drop_drop]
      exact takeWhile_drop_length_takeWhile _ _

theorem forall₂_refl_of_right {α : Type} {R : α → α → Prop} {l l' : List α}
    (h : List.Forall₂ R l l') (hR : ∀ a b, R a b → R b b) : List.Forall₂ R l' l' := by
  induction h with
  | nil => exact List.Forall₂.nil
  | cons hab _ ih => exact List.Forall₂.cons (hR _ _ hab) ih

/-- C4 (retire is idempotent under an unchanged clock). Whenever RemoveTrades at a clock
reading returns a state, a second RemoveTrades at the same clock reading returns exactly
that state again (all window maps and start_index, start_block, start_block_ts unchanged);
the same holds for RemoveTransfer. Both calls return whenever no start index is below -1. -/
theorem retire_twice_same_clock (now : Time) (c : ChainData) :
    (∀ c1, RemoveTrades now c = some c1 → RemoveTrades now c1 = some c1) ∧
      (∀ c2, RemoveTransfer now c = some c2 → RemoveTransfer now c2 = some c2) ∧
      ((∀ r ∈ c.tradeDataRange, -1 ≤ r.StartIndex) → ∃ c1, RemoveTrades now c = some c1) ∧
      ((∀ r ∈ c.transferDataRange, -1 ≤ r.StartIndex) →
        ∃ c2, RemoveTransfer now c = some c2) := by
  refine ⟨?_, ?_, RemoveTrades_total now c, RemoveTransfer_total now c⟩
  · intro c1 h
    obtain ⟨rs', rfl, hrs⟩ := (RemoveTrades_iff now c c1).1 h
    exact (RemoveTrades_iff now _ _).2
      ⟨rs', rfl, forall₂_refl_of_right hrs (removeTradesRange_idem now c.tradeLogs)⟩
  · intro c2 h
    obtain ⟨rs', rfl, hrs⟩ := (RemoveTransfer_iff now c c2).1 h
    exact (RemoveTransfer_iff now _ _).2
      ⟨rs', rfl, forall₂_refl_of_right hrs (removeTransferRange_idem now c.transferLogs)⟩

/-- Witness of C4: in scenario 3 (a trade retired from the 1h window) and for the transfer
of scenario 4 retired likewise, a second retire at the same clock changes nothing. -/
theorem retire_twice_same_clock_witness :
    RemoveTrades scenarioExpiryClock scenarioExpiredState = some scenarioExpiredState ∧
      RemoveTransfer scenarioExpiryClock scenarioTransferExpiredState =
        some scenarioTransferExpiredState :=
  ⟨(retire_twice_same_clock scenarioExpiryClock (AddTradeLogs NewStorage [scenarioTrade])).1
      scenarioExpiredState RemoveTrades_scenario,
    (retire_twice_same_clock scenarioExpiryClock
      (AddTransferLogs NewStorage [scenarioTransfer])).2.1
      scenarioTransferExpiredState RemoveTransfer_scenario⟩

/-! ## C5: when the start index is -1 -/

/-- C5, counterexample. After the retire of scenario 3 the trade log is not empty and its
one event is older than the duration of the 1h window at the clock of the call, yet the
start index of that window is 1, the length of the log, not -1. -/
theorem start_index_not_reset_after_expiry :
    ∃ c w, RemoveTrades scenarioExpiryClock (AddTradeLogs NewStorage [scenarioTrade]) = some c ∧
      TradeReachable (AddTradeLogs NewStorage [scenarioTrade]) ∧
      c.tradeDataRange.head? = some w ∧
      (c.tradeLogs = [] ∨
        ∀ e ∈ c.tradeLogs, w.duration < Since scenarioExpiryClock e.BlockTimestamp) ∧
      w.StartIndex = 1 ∧
      ¬ (w.StartIndex = -1 ↔
        (c.tradeLogs = [] ∨
          ∀ e ∈ c.tradeLogs, w.duration < Since scenarioExpiryClock e.BlockTimestamp)) := by
  refine ⟨scenarioExpiredState, scenarioExpiredState.tradeDataRange.headD (NewTradeStorageByRange 0),
    RemoveTrades_scenario, TradeReachable.add NewStorage [scenarioTrade] TradeReachable.init,
    ?_, ?_, ?_, ?_⟩
  · with_unfolding_all rfl
  · with_unfolding_all decide
  · with_unfolding_all rfl
  · with_unfolding_all decide

theorem StartIndex_removeTradesRange_all_expired (now : Time) (logs : List Tradelog)
    (r r' : TradeStorageByRange) (hinv : TradeInv logs r) (hne : logs ≠ [])
    (hall : ∀ e ∈ logs, r.duration < Since now e.BlockTimestamp)
    (h : removeTradesRange now logs r = some r') : r'.StartIndex = (logs.length : Int) := by
  obtain ⟨h1, h2, h3, _⟩ := hinv
  have hs : r.StartIndex ≠ -1 := fun hs => hne (h1.1 hs)
  rcases removeTradesRange_some now logs r r' h with ⟨h0, _⟩ | ⟨h0, hS, _, _⟩
  · exact absurd h0 hs
  · have htw : tradesToRetire now logs r = logs.drop r.StartIndex.toNat := by
      unfold tradesToRetire
      apply takeWhile_eq_self_of_all
      intro e he
      have := hall e (List.mem_of_mem_drop he)
      simp only [tradeExpired, decide_eq_true_eq]
      omega
    rw [hS, htw, List.length_drop]
    omega

/-- C5, amended. In every state reachable from NewStorage by AddTradeLogs and
RemoveTrades, immediately after a RemoveTrades call at the clock reading now, for every
trade window: the start index is -1 if and only if the trade log is empty; and when the
log is not empty and every event in it is older than the duration of the window, the
start index is the length of the log. The retire call returns in every such state. -/
theorem start_index_after_retire (c : ChainData) (now : Time) (hc : TradeReachable c) :
    (∃ c', RemoveTrades now c = some c') ∧
      ∀ c', RemoveTrades now c = some c' →
        ∀ w ∈ c'.tradeDataRange,
          (w.StartIndex = -1 ↔ c'.tradeLogs = []) ∧
          (c'.tradeLogs ≠ [] →
            (∀ e ∈ c'.tradeLogs, w.duration < Since now e.BlockTimestamp) →
            w.StartIndex = (c'.tradeLogs.length : Int)) := by
  have hinv := StateInv_of_reachable c hc
  constructor
  · exact RemoveTrades_total now c (fun r hr => (hinv.2 r hr).2.1)
  · intro c' hc'
    have hinv' := StateInv_RemoveTrades now c c' hinv hc'
    obtain ⟨rs', rfl, hrs⟩ := (RemoveTrades_iff now c c').1 hc'
    intro w hw
    refine ⟨(hinv'.2 w hw).1, ?_⟩
    intro hne hall
    have key := forall₂_forall (P := fun r => TradeInv c.tradeLogs r)
      (Q := fun r' => (∀ e ∈ c.tradeLogs, r'.duration < Since now e.BlockTimestamp) →
        r'.StartIndex = (c.tradeLogs.length : Int)) hrs
      (fun a b hab ha hb => by
        have hd : b.duration = a.duration := by
          rcases removeTradesRange_some now _ a b hab with ⟨_, rfl⟩ | ⟨_, _, hd, _⟩
          · rfl
          · exact hd
        exact StartIndex_removeTradesRange_all_expired now c.tradeLogs a b ha hne
          (fun e he => hd ▸ hb e he) hab)
      hinv.2
    exact key w hw hall

/-- Witness of C5 (amended): the state of scenario 1 after the add, retired at
T0 + 1h + 1s. -/
theorem start_index_after_retire_witness :
    TradeReachable (AddTradeLogs NewStorage [scenarioTrade]) ∧
      ((∃ c', RemoveTrades scenarioExpiryClock (AddTradeLogs NewStorage [scenarioTrade]) =
          some c') ∧
        ∀ c', RemoveTrades scenarioExpiryClock (AddTradeLogs NewStorage [scenarioTrade]) =
            some c' →
          ∀ w ∈ c'.tradeDataRange,
            (w.StartIndex = -1 ↔ c'.tradeLogs = []) ∧
            (c'.tradeLogs ≠ [] →
              (∀ e ∈ c'.tradeLogs, w.duration < Since scenarioExpiryClock e.BlockTimestamp) →
              w.StartIndex = (c'.tradeLogs.length : Int))) :=
  ⟨TradeReachable.add NewStorage [scenarioTrade] TradeReachable.init,
    start_index_after_retire (AddTradeLogs NewStorage [scenarioTrade]) scenarioExpiryClock
      (TradeReachable.add NewStorage [scenarioTrade] TradeReachable.init)⟩

/-! ## C6: rate-fail events -/

theorem AddTransferLogs_single (c : ChainData) (t : Transferlog) :
    AddTransferLogs c [t] = addTransferLog c t := rfl

theorem addTransferLog_fail (c : ChainData) (t : Transferlog)
    (h : t.GetCurrentRateFail = true) :
    addTransferLog c t = { c with tokens := c.tokens.store (ToLower t.TokenAddress) true } := by
  simp [addTransferLog, h]

/-- C6 (rate-fail events are observed but not counted). AddTradeLogs of a trade with the
rate-fail flag stores the lower-cased token_in and token_out addresses in the token set
and changes nothing else: the trade log, the big-tx list and the trade windows (maps and
index metadata), like every other component, are as before. AddTransferLogs of a transfer
with the flag stores the lower-cased token address in the token set and leaves the
transfer log, the big-tx list, the transfer windows and both daily series as before. -/
theorem rate_fail_events_only_reach_token_set (c : ChainData) (e : Tradelog) (t : Transferlog)
    (he : e.GetCurrentRateFail = true) (ht : t.GetCurrentRateFail = true) :
    (AddTradeLogs c [e] =
        { c with
          tokens := (c.tokens.store (ToLower e.TokenInAddress) true).store
            (ToLower e.TokenOutAddress) true } ∧
      (AddTradeLogs c [e]).tradeLogs = c.tradeLogs ∧
      (AddTradeLogs c [e]).bigTx = c.bigTx ∧
      (AddTradeLogs c [e]).tradeDataRange = c.tradeDataRange ∧
      (AddTradeLogs c [e]).tokens.lookup (ToLower e.TokenInAddress) = some true ∧
      (AddTradeLogs c [e]).tokens.lookup (ToLower e.TokenOutAddress) = some true ∧
      ∀ k, k ≠ ToLower e.TokenInAddress → k ≠ ToLower e.TokenOutAddress →
        (AddTradeLogs c [e]).tokens.lookup k = c.tokens.lookup k) ∧
    (AddTransferLogs c [t] = { c with tokens := c.tokens.store (ToLower t.TokenAddress) true } ∧
      (AddTransferLogs c [t]).transferLogs = c.transferLogs ∧
      (AddTransferLogs c [t]).bigTx = c.bigTx ∧
      (AddTransferLogs c [t]).transferDataRange = c.transferDataRange ∧
      (AddTransferLogs c [t]).tokenDeposit = c.tokenDeposit ∧
      (AddTransferLogs c [t]).tokenWithdraw = c.tokenWithdraw ∧
      (AddTransferLogs c [t]).tokens.lookup (ToLower t.TokenAddress) = some true ∧
      ∀ k, k ≠ ToLower t.TokenAddress →
        (AddTransferLogs c [t]).tokens.lookup k = c.tokens.lookup k) := by
  rw [AddTradeLogs_single, addTradeLog_fail c e he, AddTransferLogs_single,
    addTransferLog_fail c t ht]
  refine ⟨⟨rfl, rfl, rfl, rfl, ?_, ?_, ?_⟩, ⟨rfl, rfl, rfl, rfl, rfl, rfl, ?_, ?_⟩⟩
  · simp only [GoMap.lookup_store]
    split_ifs <;> rfl
  · simp only [GoMap.lookup_store, if_true]
  · intro k h1 h2
    simp only [GoMap.lookup_store, if_neg (Ne.symm h1), if_neg (Ne.symm h2)]
  · simp only [GoMap.lookup_store, if_true]
  · intro k h1
    simp only [GoMap.lookup_store, if_neg (Ne.symm h1)]

/-- Witness of C6: the events of scenarios 1 and 4 with the rate-fail flag set, on a fresh
engine. -/
theorem rate_fail_events_only_reach_token_set_witness :
    (scenarioRateFailTrade.GetCurrentRateFail = true ∧
      scenarioRateFailTransfer.GetCurrentRateFail = true) ∧
    ((AddTradeLogs NewStorage [scenarioRateFailTrade] =
        { NewStorage with
          tokens := (NewStorage.tokens.store (ToLower scenarioRateFailTrade.TokenInAddress)
            true).store (ToLower scenarioRateFailTrade.TokenOutAddress) true } ∧
      (AddTradeLogs NewStorage [scenarioRateFailTrade]).tradeLogs = NewStorage.tradeLogs ∧
      (AddTradeLogs NewStorage [scenarioRateFailTrade]).bigTx = NewStorage.bigTx ∧
      (AddTradeLogs NewStorage [scenarioRateFailTrade]).tradeDataRange =
        NewStorage.tradeDataRange ∧
      (AddTradeLogs NewStorage [scenarioRateFailTrade]).tokens.lookup
        (ToLower scenarioRateFailTrade.TokenInAddress) = some true ∧
      (AddTradeLogs NewStorage [scenarioRateFailTrade]).tokens.lookup
        (ToLower scenarioRateFailTrade.TokenOutAddress) = some true ∧
      ∀ k, k ≠ ToLower scenarioRateFailTrade.TokenInAddress →
        k ≠ ToLower scenarioRateFailTrade.TokenOutAddress →
        (AddTradeLogs NewStorage [scenarioRateFailTrade]).tokens.lookup k =
          NewStorage.tokens.lookup k) ∧
    (AddTransferLogs NewStorage [scenarioRateFailTransfer] =
        { NewStorage with
          tokens := NewStorage.tokens.store (ToLower scenarioRateFailTransfer.TokenAddress)
            true } ∧
      (AddTransferLogs NewStorage [scenarioRateFailTransfer]).transferLogs =
        NewStorage.transferLogs ∧
      (AddTransferLogs NewStorage [scenarioRateFailTransfer]).bigTx = NewStorage.bigTx ∧
      (AddTransferLogs NewStorage [scenarioRateFailTransfer]).transferDataRange =
        NewStorage.transferDataRange ∧
      (AddTransferLogs NewStorage [scenarioRateFailTransfer]).tokenDeposit =
        NewStorage.tokenDeposit ∧
      (AddTransferLogs NewStorage [scenarioRateFailTransfer]).tokenWithdraw =
        NewStorage.tokenWithdraw ∧
      (AddTransferLogs NewStorage [scenarioRateFailTransfer]).tokens.lookup
        (ToLower scenarioRateFailTransfer.TokenAddress) = some true ∧
      ∀ k, k ≠ ToLower scenarioRateFailTransfer.TokenAddress →
        (AddTransferLogs NewStorage [scenarioRateFailTransfer]).tokens.lookup k =
          NewStorage.tokens.lookup k)) :=
  ⟨⟨rfl, rfl⟩,
    rate_fail_events_only_reach_token_set NewStorage scenarioRateFailTrade
      scenarioRateFailTransfer rfl rfl⟩

/-! ## C7: the window update on append -/

theorem lookup_field_addTradeToRange (e : Tradelog) (n : Nat) (r : TradeStorageByRange)
    (f : TradeField) (k : String) :
    ((addTradeToRange e n r).field f).lookup k =
      if tradeKey e f = k then some ((r.field f).get (tradeKey e f) + tradeAmount e f)
      else (r.field f).lookup k := by
  rw [field_addTradeToRange, GoMap.lookup_add]

/-- C7 (window update on append). AddTradeLogs of a trade e whose rates were found changes
every trade window, map by map, exactly so: user_profit at lower(sender) and token_profit
at lower(token_out) grow by the profit, token_in_flow at lower(token_out) by
token_out_amount, token_in_flow_usdt at lower(token_out) by token_out_amount times
token_out_usdt_rate, token_out_flow at lower(token_in) by token_in_amount and
token_out_flow_usdt at lower(token_in) by token_in_amount times token_in_usdt_rate; every
other key of every map keeps its entry (or keeps being absent). -/
theorem add_trade_updates_each_window (c : ChainData) (e : Tradelog)
    (hf : e.GetCurrentRateFail = false) :
    List.Forall₂
      (fun r r' => ∀ k : String,
        r'.UserProfit.lookup k =
          (if ToLower e.Sender = k then some (r.UserProfit.get (ToLower e.Sender) + e.Profit)
            else r.UserProfit.lookup k) ∧
        r'.TokenProfit.lookup k =
          (if ToLower e.TokenOutAddress = k
            then some (r.TokenProfit.get (ToLower e.TokenOutAddress) + e.Profit)
            else r.TokenProfit.lookup k) ∧
        r'.TokenInFlow.lookup k =
          (if ToLower e.TokenOutAddress = k
            then some (r.TokenInFlow.get (ToLower e.TokenOutAddress) + e.TokenOutAmount)
            else r.TokenInFlow.lookup k) ∧
        r'.TokenInFlowInUsdt.lookup k =
          (if ToLower e.TokenOutAddress = k
            then some (r.TokenInFlowInUsdt.get (ToLower e.TokenOutAddress) +
              e.TokenOutAmount * e.TokenOutUsdtRate)
            else r.TokenInFlowInUsdt.lookup k) ∧
        r'.TokenOutFlow.lookup k =
          (if ToLower e.TokenInAddress = k
            then some (r.TokenOutFlow.get (ToLower e.TokenInAddress) + e.TokenInAmount)
            else r.TokenOutFlow.lookup k) ∧
        r'.TokenOutFlowInUsdt.lookup k =
          (if ToLower e.TokenInAddress = k
            then some (r.TokenOutFlowInUsdt.get (ToLower e.TokenInAddress) +
              e.TokenInAmount * e.TokenInUsdtRate)
            else r.TokenOutFlowInUsdt.lookup k))
      c.tradeDataRange (AddTradeLogs c [e]).tradeDataRange := by
  rw [AddTradeLogs_single, addTradeLog_tradeDataRange c e hf]
  refine forall₂_imp (forall₂_map_right _ c.tradeDataRange) ?_
  rintro r r' rfl k
  have h := fun f => lookup_field_addTradeToRange e (c.tradeLogs.length + 1) r f k
  exact ⟨h .userProfit, h .tokenProfit, h .tokenInFlow, h .tokenInFlowInUsdt, h .tokenOutFlow,
    h .tokenOutFlowInUsdt⟩

/-- Witness of C7: scenario 1 on a fresh engine; the 1h window then holds
user_profit["0xa"] = 200, token_profit["0xz"] = 200, token_in_flow["0xz"] = 10,
token_in_flow_usdt["0xz"] = 1000 and token_out_flow["0xusdc"] = 1000. -/
theorem add_trade_updates_each_window_witness :
    scenarioTrade.GetCurrentRateFail = false ∧
    List.Forall₂
      (fun r r' => ∀ k : String,
        r'.UserProfit.lookup k =
          (if ToLower scenarioTrade.Sender = k
            then some (r.UserProfit.get (ToLower scenarioTrade.Sender) + scenarioTrade.Profit)
            else r.UserProfit.lookup k) ∧
        r'.TokenProfit.lookup k =
          (if ToLower scenarioTrade.TokenOutAddress = k
            then some (r.TokenProfit.get (ToLower scenarioTrade.TokenOutAddress) +
              scenarioTrade.Profit)
            else r.TokenProfit.lookup k) ∧
        r'.TokenInFlow.lookup k =
          (if ToLower scenarioTrade.TokenOutAddress = k
            then some (r.TokenInFlow.get (ToLower scenarioTrade.TokenOutAddress) +
              scenarioTrade.TokenOutAmount)
            else r.TokenInFlow.lookup k) ∧
        r'.TokenInFlowInUsdt.lookup k =
          (if ToLower scenarioTrade.TokenOutAddress = k
            then some (r.TokenInFlowInUsdt.get (ToLower scenarioTrade.TokenOutAddress) +
              scenarioTrade.TokenOutAmount * scenarioTrade.TokenOutUsdtRate)
            else r.TokenInFlowInUsdt.lookup k) ∧
        r'.TokenOutFlow.lookup k =
          (if ToLower scenarioTrade.TokenInAddress = k
            then some (r.TokenOutFlow.get (ToLower scenarioTrade.TokenInAddress) +
              scenarioTrade.TokenInAmount)
            else r.TokenOutFlow.lookup k) ∧
        r'.TokenOutFlowInUsdt.lookup k =
          (if ToLower scenarioTrade.TokenInAddress = k
            then some (r.TokenOutFlowInUsdt.get (ToLower scenarioTrade.TokenInAddress) +
              scenarioTrade.TokenInAmount * scenarioTrade.TokenInUsdtRate)
            else r.TokenOutFlowInUsdt.lookup k))
      NewStorage.tradeDataRange (AddTradeLogs NewStorage [scenarioTrade]).tradeDataRange ∧
    ((AddTradeLogs NewStorage [scenarioTrade]).tradeDataRange.map
      (fun w => (w.duration, w.UserProfit.get "0xa", w.TokenProfit.get "0xz",
        w.TokenInFlow.get "0xz", w.TokenInFlowInUsdt.get "0xz",
        w.TokenOutFlow.get "0xusdc"))).head? = some (Hour, 200, 200, 10, 1000, 1000) :=
  ⟨rfl, add_trade_updates_each_window NewStorage scenarioTrade rfl, by with_unfolding_all rfl⟩

/-! ## C8: the big-tx log for trades -/

/-- C8 (big-tx log for trades). AddTradeLogs of a trade e whose rates were found appends
exactly one BigTx at the end of the big-tx list when token_out_amount times
token_out_usdt_rate is at least 50000 and leaves the list as it is otherwise. The record
has action selling when IsQuote(token_out_address) and buying otherwise, the token_out
address and the sender exactly as given, value_in_token = token_out_amount, value_in_usdt
= the product, price = token_out_usdt_rate, and the block number, timestamp and tx hash
of e. -/
theorem big_trade_appends_one_bigtx (c : ChainData) (e : Tradelog)
    (hf : e.GetCurrentRateFail = false) :
    (AddTradeLogs c [e]).bigTx =
      if e.TokenOutAmount * e.TokenOutUsdtRate ≥ 50000 then
        c.bigTx ++
          [{ Tx := e.TxHash
             TokenAddress := e.TokenOutAddress
             BlockTimestamp := e.BlockTimestamp
             BlockNumber := e.BlockNumber
             Sender := e.Sender
             Time := e.BlockTimestamp
             ValueInToken := e.TokenOutAmount
             ValueInUsdt := e.TokenOutAmount * e.TokenOutUsdtRate
             Price := e.TokenOutUsdtRate
             Movement :=
               SmartMoneyActivities.String
                 (if IsQuote e.TokenOutAddress = true then SmartMoneyActivitiesSelling
                  else SmartMoneyActivitiesBuying)
             Action :=
               if IsQuote e.TokenOutAddress = true then SmartMoneyActivitiesSelling
               else SmartMoneyActivitiesBuying }]
      else c.bigTx := by
  rw [AddTradeLogs_single]
  unfold addTradeLog
  simp only [hf, Bool.false_eq_true, if_false, bigVolumeInUsdt]
  by_cases hv : e.TokenOutAmount * e.TokenOutUsdtRate ≥ 50000
  · simp only [if_pos hv]
  · simp only [if_neg hv]

/-- Witness of C8: a sell of 60000 USDC (quote token written in mixed case) on a fresh
engine gives one BigTx with action selling; the trade of scenario 1 (value 1000) gives
none. -/
theorem big_trade_appends_one_bigtx_witness :
    scenarioBigSell.GetCurrentRateFail = false ∧
    (AddTradeLogs NewStorage [scenarioBigSell]).bigTx =
      (if scenarioBigSell.TokenOutAmount * scenarioBigSell.TokenOutUsdtRate ≥ 50000 then
        NewStorage.bigTx ++
          [{ Tx := scenarioBigSell.TxHash
             TokenAddress := scenarioBigSell.TokenOutAddress
             BlockTimestamp := scenarioBigSell.BlockTimestamp
             BlockNumber := scenarioBigSell.BlockNumber
             Sender := scenarioBigSell.Sender
             Time := scenarioBigSell.BlockTimestamp
             ValueInToken := scenarioBigSell.TokenOutAmount
             ValueInUsdt := scenarioBigSell.TokenOutAmount * scenarioBigSell.TokenOutUsdtRate
             Price := scenarioBigSell.TokenOutUsdtRate
             Movement :=
               SmartMoneyActivities.String
                 (if IsQuote scenarioBigSell.TokenOutAddress = true then
                    SmartMoneyActivitiesSelling
                  else SmartMoneyActivitiesBuying)
             Action :=
               if IsQuote scenarioBigSell.TokenOutAddress = true then SmartMoneyActivitiesSelling
               else SmartMoneyActivitiesBuying }]
      else NewStorage.bigTx) ∧
    (AddTradeLogs NewStorage [scenarioBigSell]).bigTx.map
        (fun b => (b.Action, b.TokenAddress, b.Sender, b.ValueInUsdt)) =
      [(SmartMoneyActivitiesSelling, "0xA0b86991c6218b36c1d19D4a2e9Eb0cE3606eB48", "0xA",
        60000)] ∧
    (AddTradeLogs NewStorage [scenarioTrade]).bigTx = [] :=
  ⟨rfl, big_trade_appends_one_bigtx NewStorage scenarioBigSell rfl,
    by with_unfolding_all rfl, by with_unfolding_all rfl⟩

/-! ## C9: the big-tx classification of transfers -/

/-- C9 (big-tx classification of transfers). AddTransferLogs of a transfer t whose rate was
found appends exactly one BigTx when token_amount times current_token_usdt_rate is at
least 50000 and none otherwise. Its action is deposit when is_cex_in is false and withdraw
when it is true; its sender is from_address when is_cex_in is true and to_address
otherwise. -/
theorem big_transfer_appends_one_bigtx (c : ChainData) (t : Transferlog)
    (hf : t.GetCurrentRateFail = false) :
    (AddTransferLogs c [t]).bigTx =
      if t.TokenAmount * t.CurrentTokenUsdtRate ≥ 50000 then
        c.bigTx ++
          [{ Tx := t.TxHash
             TokenAddress := t.TokenAddress
             BlockTimestamp := t.BlockTimestamp
             BlockNumber := t.BlockNumber
             Sender := if t.IsCexIn = true then t.FromAddress else t.ToAddress
             Time := t.BlockTimestamp
             ValueInToken := t.TokenAmount
             ValueInUsdt := t.TokenAmount * t.CurrentTokenUsdtRate
             Price := t.CurrentTokenUsdtRate
             Movement :=
               SmartMoneyActivities.String
                 (if t.IsCexIn = true then SmartMoneyActivitiesWithdraw
                  else SmartMoneyActivitiesDeposit)
             Action :=
               if t.IsCexIn = true then SmartMoneyActivitiesWithdraw
               else SmartMoneyActivitiesDeposit }]
      else c.bigTx := by
  rw [AddTransferLogs_single]
  unfold addTransferLog
  simp only [hf, Bool.false_eq_true, if_false, bigVolumeInUsdt]
  by_cases hv : t.TokenAmount * t.CurrentTokenUsdtRate ≥ 50000
  · simp only [if_pos hv]
    cases hq : t.IsCexIn <;> simp
  · simp only [if_neg hv]
    split_ifs <;> rfl

/-- Witness of C9: scenario 4 (amount 5 at rate 20000, is_cex_in false) on a fresh engine
gives one BigTx with action deposit and sender "0xA". -/
theorem big_transfer_appends_one_bigtx_witness :
    scenarioTransfer.GetCurrentRateFail = false ∧
    (AddTransferLogs NewStorage [scenarioTransfer]).bigTx =
      (if scenarioTransfer.TokenAmount * scenarioTransfer.CurrentTokenUsdtRate ≥ 50000 then
        NewStorage.bigTx ++
          [{ Tx := scenarioTransfer.TxHash
             TokenAddress := scenarioTransfer.TokenAddress
             BlockTimestamp := scenarioTransfer.BlockTimestamp
             BlockNumber := scenarioTransfer.BlockNumber
             Sender :=
               if scenarioTransfer.IsCexIn = true then scenarioTransfer.FromAddress
               else scenarioTransfer.ToAddress
             Time := scenarioTransfer.BlockTimestamp
             ValueInToken := scenarioTransfer.TokenAmount
             ValueInUsdt := scenarioTransfer.TokenAmount * scenarioTransfer.CurrentTokenUsdtRate
             Price := scenarioTransfer.CurrentTokenUsdtRate
             Movement :=
               SmartMoneyActivities.String
                 (if scenarioTransfer.IsCexIn = true then SmartMoneyActivitiesWithdraw
                  else SmartMoneyActivitiesDeposit)
             Action :=
               if scenarioTransfer.IsCexIn = true then SmartMoneyActivitiesWithdraw
               else SmartMoneyActivitiesDeposit }]
      else NewStorage.bigTx) ∧
    (AddTransferLogs NewStorage [scenarioTransfer]).bigTx.map
        (fun b => (b.Action, b.Sender, b.ValueInUsdt)) =
      [(SmartMoneyActivitiesDeposit, "0xA", 100000)] :=
  ⟨rfl, big_transfer_appends_one_bigtx NewStorage scenarioTransfer rfl,
    by with_unfolding_all rfl⟩

/-! ## C10: the daily series -/

theorem lookup_addDaily (series : GoMap TokenTransfer) (token date : String) (amount : ℚ)
    (tk : String) :
    (addDaily series token date amount).lookup tk =
      if token = tk then some (((series.lookup token).getD GoMap.empty).add date amount)
      else series.lookup tk := by
  unfold addDaily
  cases h : series.lookup token with
  | none =>
    simp only [Option.isNone_none, if_true, GoMap.lookup_store, Option.getD_some,
      Option.getD_none]
    split_ifs <;> rfl
  | some m =>
    simp only [Option.isNone_some, Bool.false_eq_true, if_false, GoMap.lookup_store, h,
      Option.getD_some]

theorem get_lookup_addDaily (series : GoMap TokenTransfer) (token date : String) (amount : ℚ)
    (tk d : String) :
    (((addDaily series token date amount).lookup tk).getD GoMap.empty).get d =
      ((series.lookup tk).getD GoMap.empty).get d +
        (if token = tk ∧ date = d then amount else 0) := by
  rw [lookup_addDaily]
  by_cases h : token = tk
  · subst h
    simp only [if_true, Option.getD_some, GoMap.get_add, true_and]
  · simp [h]

theorem addTransferLog_daily (c : ChainData) (t : Transferlog)
    (hf : t.GetCurrentRateFail = false) :
    (addTransferLog c t).tokenDeposit =
        (if t.IsCexIn = true then
          addDaily c.tokenDeposit (ToLower t.TokenAddress) (formatDate t.BlockTimestamp)
            t.TokenAmount
        else c.tokenDeposit) ∧
      (addTransferLog c t).tokenWithdraw =
        (if t.IsCexIn = true then c.tokenWithdraw
        else
          addDaily c.tokenWithdraw (ToLower t.TokenAddress) (formatDate t.BlockTimestamp)
            t.TokenAmount) := by
  unfold addTransferLog
  simp only [hf, Bool.false_eq_true, if_false]
  split_ifs <;> exact ⟨rfl, rfl⟩

/-- C10 (daily series). AddTransferLogs of a transfer t whose rate was found adds
token_amount to the deposit series of lower(token_address) at the date key when is_cex_in
is true, and to the withdraw series of lower(token_address) at the date key when it is
false; the key is the decimal day, month number and year of block_ts joined by "-",
without padding. The series of that token is the old one (the empty one if there was
none) with the amount added at the key, every other token keeps its series, the other
daily series is unchanged, and the two series GetPriceWithTransferByRange returns for any
token read, at every date, the old value plus the amount exactly at that token and key. -/
theorem transfer_updates_daily_series (c : ChainData) (t : Transferlog)
    (hf : t.GetCurrentRateFail = false) :
    formatDate t.BlockTimestamp =
        toString t.BlockTimestamp.day ++ "-" ++ toString t.BlockTimestamp.month ++ "-" ++
          toString t.BlockTimestamp.year ∧
      (t.IsCexIn = true →
        (AddTransferLogs c [t]).tokenDeposit.lookup (ToLower t.TokenAddress) =
            some (((c.tokenDeposit.lookup (ToLower t.TokenAddress)).getD GoMap.empty).add
              (formatDate t.BlockTimestamp) t.TokenAmount) ∧
          (∀ tk, tk ≠ ToLower t.TokenAddress →
            (AddTransferLogs c [t]).tokenDeposit.lookup tk = c.tokenDeposit.lookup tk) ∧
          (AddTransferLogs c [t]).tokenWithdraw = c.tokenWithdraw) ∧
      (t.IsCexIn = false →
        (AddTransferLogs c [t]).tokenWithdraw.lookup (ToLower t.TokenAddress) =
            some (((c.tokenWithdraw.lookup (ToLower t.TokenAddress)).getD GoMap.empty).add
              (formatDate t.BlockTimestamp) t.TokenAmount) ∧
          (∀ tk, tk ≠ ToLower t.TokenAddress →
            (AddTransferLogs c [t]).tokenWithdraw.lookup tk = c.tokenWithdraw.lookup tk) ∧
          (AddTransferLogs c [t]).tokenDeposit = c.tokenDeposit) ∧
      (∀ tk d : String,
        (GetPriceWithTransferByRange (AddTransferLogs c [t]) tk).1.get d =
            (GetPriceWithTransferByRange c tk).1.get d +
              (if t.IsCexIn = true ∧ ToLower t.TokenAddress = tk ∧
                  formatDate t.BlockTimestamp = d then t.TokenAmount else 0) ∧
          (GetPriceWithTransferByRange (AddTransferLogs c [t]) tk).2.get d =
            (GetPriceWithTransferByRange c tk).2.get d +
              (if t.IsCexIn = false ∧ ToLower t.TokenAddress = tk ∧
                  formatDate t.BlockTimestamp = d then t.TokenAmount else 0)) := by
  rw [AddTransferLogs_single]
  obtain ⟨hdep, hwd⟩ := addTransferLog_daily c t hf
  refine ⟨rfl, ?_, ?_, ?_⟩
  · intro hin
    rw [hdep, hwd, if_pos hin, if_pos hin]
    refine ⟨?_, ?_, rfl⟩
    · rw [lookup_addDaily, if_pos rfl]
    · intro tk htk
      rw [lookup_addDaily, if_neg (Ne.symm htk)]
  · intro hin
    have hin' : ¬ t.IsCexIn = true := by simp [hin]
    rw [hdep, hwd, if_neg hin', if_neg hin']
    refine ⟨?_, ?_, rfl⟩
    · rw [lookup_addDaily, if_pos rfl]
    · intro tk htk
      rw [lookup_addDaily, if_neg (Ne.symm htk)]
  · intro tk d
    unfold GetPriceWithTransferByRange
    simp only
    rw [hdep, hwd]
    cases hin : t.IsCexIn
    · simp only [Bool.false_eq_true, if_false, false_and, add_zero, true_and,
        get_lookup_addDaily]
    · simp only [if_true, true_and, get_lookup_addDaily, Bool.true_eq_false, false_and,
        if_false, add_zero]

/-- Witness of C10: the transfer of scenario 4 (is_cex_in false, block_ts 5 March 2024)
puts 5 at the key "5-3-2024" of the withdraw series of "0xz"; with is_cex_in true it goes
to the deposit series. -/
theorem transfer_updates_daily_series_witness :
    scenarioTransfer.GetCurrentRateFail = false ∧
    (∀ tk d : String,
      (GetPriceWithTransferByRange (AddTransferLogs NewStorage [scenarioTransfer]) tk).1.get d =
          (GetPriceWithTransferByRange NewStorage tk).1.get d +
            (if scenarioTransfer.IsCexIn = true ∧ ToLower scenarioTransfer.TokenAddress = tk ∧
                formatDate scenarioTransfer.BlockTimestamp = d
              then scenarioTransfer.TokenAmount else 0) ∧
        (GetPriceWithTransferByRange (AddTransferLogs NewStorage [scenarioTransfer]) tk).2.get d =
          (GetPriceWithTransferByRange NewStorage tk).2.get d +
            (if scenarioTransfer.IsCexIn = false ∧ ToLower scenarioTransfer.TokenAddress = tk ∧
                formatDate scenarioTransfer.BlockTimestamp = d
              then scenarioTransfer.TokenAmount else 0)) ∧
    (GetPriceWithTransferByRange (AddTransferLogs NewStorage [scenarioTransfer]) "0xz").2.entries =
      [("5-3-2024", 5)] ∧
    (GetPriceWithTransferByRange (AddTransferLogs NewStorage [scenarioTransfer]) "0xz").1.entries =
      [] ∧
    (GetPriceWithTransferByRange (AddTransferLogs NewStorage [scenarioCexInTransfer])
      "0xz").1.entries = [("5-3-2024", 5)] :=
  ⟨rfl, (transfer_updates_daily_series NewStorage scenarioTransfer rfl).2.2.2,
    by with_unfolding_all rfl, by with_unfolding_all rfl, by with_unfolding_all rfl⟩

/-! ## The enrichment as a filter -/

theorem foldl_append_filterMap {α β : Type} (f : α → Option β) (step : List β → α → List β)
    (hstep : ∀ logs t, step logs t = logs ++ (f t).toList) (l : List α) (acc : List β) :
    l.foldl step acc = acc ++ l.filterMap f := by
  induction l generalizing acc with
  | nil => simp
  | cons a l ih =>
    rw [List.foldl_cons, ih, hstep]
    cases h : f a with
    | none => simp [List.filterMap_cons, h]
    | some b => simp [List.filterMap_cons, h]

theorem handleTrades_eq_filterMap (ratesMap : GoMap ℚ) (trades : List SolanaTradelogDB) :
    handleTrades ratesMap trades = trades.filterMap (handleTrade ratesMap) := by
  unfold handleTrades
  rw [foldl_append_filterMap (handleTrade ratesMap)]
  · rfl
  · intro logs t
    cases h : handleTrade ratesMap t <;> simp

theorem handleTransfer_eq_filterMap (ratesMap : GoMap ℚ) (transfers : List SolanaTransferLogDb) :
    handleTransfer ratesMap transfers = transfers.filterMap (handleTransferRow ratesMap) := by
  unfold handleTransfer
  rw [foldl_append_filterMap (handleTransferRow ratesMap)]
  · rfl
  · intro logs t
    cases h : handleTransferRow ratesMap t <;> simp

theorem handleTrade_of_rates (ratesMap : GoMap ℚ) (t : SolanaTradelogDB) (curIn curOut : ℚ)
    (hin : ratesMap.lookup (ToLower t.TokenInAddress) = some curIn)
    (hout : ratesMap.lookup (ToLower t.TokenOutAddress) = some curOut) :
    handleTrade ratesMap t =
      some
        { t.Convert with
          CurrentTokenInUsdtRate := curIn
          CurrentTokenOutUsdtRate := curOut
          GetCurrentRateFail := false
          Profit := (curOut - t.TokenOutUsdtRate) * t.TokenOutAmount -
            (curIn - t.TokenInUsdtRate) * t.TokenInAmount } := by
  simp [handleTrade, hin, hout]

/-! ## C11: the profit of a trade -/

/-- C11 (profit definition). For a database trade row whose lower-cased token_in and
token_out addresses have the rates cur_in and cur_out in the snapshot, handleTrades emits
the converted row with current_token_in_usdt_rate = cur_in, current_token_out_usdt_rate =
cur_out, get_current_rate_fail = false and profit = (cur_out - token_out_usdt_rate) *
token_out_amount - (cur_in - token_in_usdt_rate) * token_in_amount: it is the whole result
for the one-row batch, and a member of the result for any batch that contains the row. -/
theorem handleTrades_profit (ratesMap : GoMap ℚ) (t : SolanaTradelogDB) (curIn curOut : ℚ)
    (hin : ratesMap.lookup (ToLower t.TokenInAddress) = some curIn)
    (hout : ratesMap.lookup (ToLower t.TokenOutAddress) = some curOut) :
    handleTrades ratesMap [t] =
        [{ BlockTimestamp := t.BlockTimestamp
           BlockNumber := t.BlockNumber
           TxIndex := 0
           TxHash := t.TxHash
           Sender := t.Sender
           LogIndex := 0
           TokenInAddress := t.TokenInAddress
           TokenInAmount := t.TokenInAmount
           TokenInUsdtRate := t.TokenInUsdtRate
           TokenOutAddress := t.TokenOutAddress
           TokenOutAmount := t.TokenOutAmount
           TokenOutUsdtRate := t.TokenOutUsdtRate
           NativeTokenUsdtRate := t.SolUsdtRate
           CurrentTokenInUsdtRate := curIn
           CurrentTokenOutUsdtRate := curOut
           Profit := (curOut - t.TokenOutUsdtRate) * t.TokenOutAmount -
             (curIn - t.TokenInUsdtRate) * t.TokenInAmount
           GetCurrentRateFail := false }] ∧
      ∀ trades : List SolanaTradelogDB, t ∈ trades →
        ∃ log ∈ handleTrades ratesMap trades,
          log.Profit = (curOut - t.TokenOutUsdtRate) * t.TokenOutAmount -
              (curIn - t.TokenInUsdtRate) * t.TokenInAmount ∧
            log.CurrentTokenInUsdtRate = curIn ∧ log.CurrentTokenOutUsdtRate = curOut ∧
            log.GetCurrentRateFail = false ∧
            log.TxHash = t.TxHash ∧ log.Sender = t.Sender ∧
            log.BlockNumber = t.BlockNumber ∧ log.BlockTimestamp = t.BlockTimestamp ∧
            log.TokenInAddress = t.TokenInAddress ∧ log.TokenInAmount = t.TokenInAmount ∧
            log.TokenInUsdtRate = t.TokenInUsdtRate ∧
            log.TokenOutAddress = t.TokenOutAddress ∧ log.TokenOutAmount = t.TokenOutAmount ∧
            log.TokenOutUsdtRate = t.TokenOutUsdtRate := by
  have h := handleTrade_of_rates ratesMap t curIn curOut hin hout
  constructor
  · rw [handleTrades_eq_filterMap]
    simp only [List.filterMap_cons, h, List.filterMap_nil]
    rfl
  · intro trades ht
    have hmem : ∀ log, handleTrade ratesMap t = some log → log ∈ handleTrades ratesMap trades := by
      intro log hlog
      rw [handleTrades_eq_filterMap, List.mem_filterMap]
      exact ⟨t, ht, hlog⟩
    exact ⟨_, hmem _ h, rfl, rfl, rfl, rfl, rfl, rfl, rfl, rfl, rfl, rfl, rfl, rfl, rfl, rfl⟩

/-- Witness of C11: the row of scenario 1 with the rates 1 and 120 is enriched to the
trade of scenario 1, whose profit is (120 - 100) * 10 - (1 - 1) * 1000 = 200. -/
theorem handleTrades_profit_witness :
    (scenarioRates.lookup (ToLower scenarioTradeRow.TokenInAddress) = some 1 ∧
      scenarioRates.lookup (ToLower scenarioTradeRow.TokenOutAddress) = some 120) ∧
    (∀ trades : List SolanaTradelogDB, scenarioTradeRow ∈ trades →
      ∃ log ∈ handleTrades scenarioRates trades,
        log.Profit = (120 - scenarioTradeRow.TokenOutUsdtRate) * scenarioTradeRow.TokenOutAmount -
            (1 - scenarioTradeRow.TokenInUsdtRate) * scenarioTradeRow.TokenInAmount ∧
          log.CurrentTokenInUsdtRate = 1 ∧ log.CurrentTokenOutUsdtRate = 120 ∧
          log.GetCurrentRateFail = false ∧
          log.TxHash = scenarioTradeRow.TxHash ∧ log.Sender = scenarioTradeRow.Sender ∧
          log.BlockNumber = scenarioTradeRow.BlockNumber ∧
          log.BlockTimestamp = scenarioTradeRow.BlockTimestamp ∧
          log.TokenInAddress = scenarioTradeRow.TokenInAddress ∧
          log.TokenInAmount = scenarioTradeRow.TokenInAmount ∧
          log.TokenInUsdtRate = scenarioTradeRow.TokenInUsdtRate ∧
          log.TokenOutAddress = scenarioTradeRow.TokenOutAddress ∧
          log.TokenOutAmount = scenarioTradeRow.TokenOutAmount ∧
          log.TokenOutUsdtRate = scenarioTradeRow.TokenOutUsdtRate) ∧
    handleTrades scenarioRates [scenarioTradeRow] = [scenarioTrade] :=
  ⟨⟨by with_unfolding_all rfl, by with_unfolding_all rfl⟩,
    (handleTrades_profit scenarioRates scenarioTradeRow 1 120 (by with_unfolding_all rfl)
      (by with_unfolding_all rfl)).2,
    by with_unfolding_all rfl⟩

/-! ## C12: the enrichment drops the rows without a rate -/

theorem filterMap_eq_map_filter_of {α β : Type} (f : α → Option β) (p : α → Bool) (g : α → β)
    (h : ∀ a, f a = if p a = true then some (g a) else none) (l : List α) :
    l.filterMap f = (l.filter p).map g := by
  induction l with
  | nil => rfl
  | cons a l ih =>
    cases hp : p a with
    | false => simp [List.filterMap_cons, List.filter_cons, h a, hp, ih]
    | true => simp [List.filterMap_cons, List.filter_cons, h a, hp, ih]

/-- C12 (enrichment drops unpriced rows). For every list of database rows and every rate
snapshot, handleTrades returns, in input order, exactly the converted (and enriched) rows
whose lower-cased token_in address and lower-cased token_out address are both keys of the
snapshot, and handleTransfer returns, in input order, exactly the converted rows whose
lower-cased token address is a key; no returned record has get_current_rate_fail = true. -/
theorem enrichment_keeps_exactly_priced_rows (ratesMap : GoMap ℚ)
    (trades : List SolanaTradelogDB) (transfers : List SolanaTransferLogDb) :
    handleTrades ratesMap trades =
        (trades.filter
          (fun t => (ratesMap.lookup (ToLower t.TokenInAddress)).isSome &&
            (ratesMap.lookup (ToLower t.TokenOutAddress)).isSome)).map
          (fun t =>
            { t.Convert with
              CurrentTokenInUsdtRate := ratesMap.get (ToLower t.TokenInAddress)
              CurrentTokenOutUsdtRate := ratesMap.get (ToLower t.TokenOutAddress)
              GetCurrentRateFail := false
              Profit :=
                (ratesMap.get (ToLower t.TokenOutAddress) - t.TokenOutUsdtRate) *
                    t.TokenOutAmount -
                  (ratesMap.get (ToLower t.TokenInAddress) - t.TokenInUsdtRate) *
                    t.TokenInAmount }) ∧
      handleTransfer ratesMap transfers =
        (transfers.filter (fun t => (ratesMap.lookup (ToLower t.TokenAddress)).isSome)).map
          (fun t =>
            { t.Convert with
              GetCurrentRateFail := false
              CurrentTokenUsdtRate := ratesMap.get (ToLower t.TokenAddress) }) ∧
      (∀ log ∈ handleTrades ratesMap trades, log.GetCurrentRateFail = false) ∧
      (∀ log ∈ handleTransfer ratesMap transfers, log.GetCurrentRateFail = false) := by
  have h1 : handleTrades ratesMap trades = _ :=
    (handleTrades_eq_filterMap ratesMap trades).trans
      (filterMap_eq_map_filter_of (handleTrade ratesMap)
        (fun t => (ratesMap.lookup (ToLower t.TokenInAddress)).isSome &&
          (ratesMap.lookup (ToLower t.TokenOutAddress)).isSome)
        (fun t =>
          { t.Convert with
            CurrentTokenInUsdtRate := ratesMap.get (ToLower t.TokenInAddress)
            CurrentTokenOutUsdtRate := ratesMap.get (ToLower t.TokenOutAddress)
            GetCurrentRateFail := false
            Profit :=
              (ratesMap.get (ToLower t.TokenOutAddress) - t.TokenOutUsdtRate) *
                  t.TokenOutAmount -
                (ratesMap.get (ToLower t.TokenInAddress) - t.TokenInUsdtRate) *
                  t.TokenInAmount })
        (by
          intro t
          unfold handleTrade GoMap.get
          cases hin : ratesMap.lookup (ToLower t.TokenInAddress) <;>
            cases hout : ratesMap.lookup (ToLower t.TokenOutAddress) <;> simp [hin, hout])
        trades)
  have h2 : handleTransfer ratesMap transfers = _ :=
    (handleTransfer_eq_filterMap ratesMap transfers).trans
      (filterMap_eq_map_filter_of (handleTransferRow ratesMap)
        (fun t => (ratesMap.lookup (ToLower t.TokenAddress)).isSome)
        (fun t =>
          { t.Convert with
            GetCurrentRateFail := false
            CurrentTokenUsdtRate := ratesMap.get (ToLower t.TokenAddress) })
        (by
          intro t
          unfold handleTransferRow GoMap.get
          cases hin : ratesMap.lookup (ToLower t.TokenAddress) <;> simp [hin])
        transfers)
  refine ⟨h1, h2, ?_, ?_⟩
  · intro log hlog
    rw [h1, List.mem_map] at hlog
    obtain ⟨t, _, rfl⟩ := hlog
    rfl
  · intro log hlog
    rw [h2, List.mem_map] at hlog
    obtain ⟨t, _, rfl⟩ := hlog
    rfl

/-! ## The paging loop -/

theorem toInt64_of_lt (x : Nat) (h : x < 2 ^ 63) : toInt64 x = (x : Int) := by
  unfold toInt64
  have h' : (x : Int) < 9223372036854775808 := by
    have : (2 : Nat) ^ 63 = 9223372036854775808 := by norm_num
    omega
  norm_num
  omega

theorem filter_ge_eq_dropWhile {α : Type} (bn : α → Nat) (rows : List α) (w : Int)
    (hs : rows.Pairwise (fun a b => bn a ≤ bn b)) :
    rows.filter (fun r => decide (w ≤ (bn r : Int))) =
      rows.dropWhile (fun r => decide ((bn r : Int) < w)) := by
  induction rows with
  | nil => rfl
  | cons a rows ih =>
    rw [List.pairwise_cons] at hs
    by_cases h : (bn a : Int) < w
    · have h' : ¬ w ≤ (bn a : Int) := by omega
      simp only [List.filter_cons, List.dropWhile_cons, h, h', decide_True, decide_False,
        if_true, Bool.false_eq_true, if_false]
      exact ih hs.2
    · have h' : w ≤ (bn a : Int) := by omega
      simp only [List.filter_cons, List.dropWhile_cons, h, h', decide_True, decide_False,
        if_true, Bool.false_eq_true, if_false]
      congr 1
      apply List.filter_eq_self.2
      intro b hb
      have := hs.1 b hb
      simp only [decide_eq_true_eq]
      omega

theorem rdropWhile_append_of_all {α : Type} (q : α → Bool) (l xs : List α)
    (h : ∀ x ∈ xs, q x = true) : (l ++ xs).rdropWhile q = l.rdropWhile q := by
  induction xs generalizing l with
  | nil => simp
  | cons x xs ih =>
    have e : l ++ x :: xs = (l ++ [x]) ++ xs := by simp
    rw [e, ih (l ++ [x]) (fun y hy => h y (List.mem_cons_of_mem x hy)),
      List.rdropWhile_concat_pos _ _ _ (h x (List.mem_cons_self x xs))]

theorem rdropWhile_of_none {α : Type} (q : α → Bool) (l : List α)
    (h : ∀ x ∈ l, q x = false) : l.rdropWhile q = l := by
  rw [List.rdropWhile_eq_self_iff]
  intro hl
  rw [h _ (List.getLast_mem hl)]
  simp

theorem pairwise_le_getLast {α : Type} (bn : α → Nat) (l : List α) (r : α)
    (hs : l.Pairwise (fun a b => bn a ≤ bn b)) (hr : l.getLast? = some r) :
    ∀ x ∈ l, bn x ≤ bn r := by
  induction l with
  | nil => intro x hx; cases hx
  | cons a l ih =>
    rw [List.pairwise_cons] at hs
    intro x hx
    cases l with
    | nil =>
      simp only [List.getLast?_singleton, Option.some.injEq] at hr
      simp only [List.mem_singleton] at hx
      subst hr; subst hx
      exact le_refl _
    | cons b l =>
      have hr' : (b :: l).getLast? = some r := by
        rw [List.getLast?_cons_cons] at hr
        exact hr
      have hrmem : r ∈ b :: l := List.mem_of_getLast?_eq_some hr'
      rcases List.mem_cons.1 hx with rfl | hx
      · exact hs.1 r hrmem
      · exact ih hs.2 hr' x hx

theorem paging_page_eq_take {α : Type} (bn : α → Nat) (source : List α) (limit : Nat)
    (start : Int) (hs : source.Pairwise (fun a b => bn a ≤ bn b)) (s : Paging α)
    (hinv : PagingInv bn (source.filter (fun r => decide (start ≤ (bn r : Int)))) start s)
    (first : α)
    (hfirst : ((source.filter (fun r => decide (s.lastTradeBlock ≤ (bn r : Int)))).take
      limit).head? = some first) :
    ∃ n, trimTail bn (bn first) s.trades ++
        (source.filter (fun r => decide (s.lastTradeBlock ≤ (bn r : Int)))).take limit =
      (source.filter (fun r => decide (start ≤ (bn r : Int)))).take n := by
  obtain ⟨⟨n, hn⟩, hlast⟩ := hinv
  rcases hlast with ⟨hnil, hw⟩ | ⟨r, hr, hw⟩
  · refine ⟨limit, ?_⟩
    rw [hnil, hw]
    simp [trimTail]
  · have hF : (source.filter (fun r => decide (start ≤ (bn r : Int)))).Pairwise
        (fun a b => bn a ≤ bn b) := hs.sublist (List.filter_sublist _)
    generalize hFdef : source.filter (fun r => decide (start ≤ (bn r : Int))) = F at *
    have hrmem : r ∈ s.trades := List.mem_of_getLast?_eq_some hr
    have hrF : r ∈ F := by
      rw [hn] at hrmem
      exact List.mem_of_mem_take hrmem
    have hstart : start ≤ (bn r : Int) := by
      rw [← hFdef, List.mem_filter] at hrF
      simpa using hrF.2
    have hfil : source.filter (fun x => decide (s.lastTradeBlock ≤ (bn x : Int))) =
        F.dropWhile (fun x => decide ((bn x : Int) < (bn r : Int))) := by
      rw [← filter_ge_eq_dropWhile bn F _ hF, ← hFdef, List.filter_filter, hw]
      apply List.filter_congr
      intro x _
      by_cases hx : (bn r : Int) ≤ (bn x : Int)
      · have : start ≤ (bn x : Int) := by omega
        simp [hx, this]
      · simp [hx]
    rw [hfil] at hfirst ⊢
    have hsplit := List.takeWhile_append_dropWhile
      (fun x => decide ((bn x : Int) < (bn r : Int))) F
    generalize htw : F.takeWhile (fun x => decide ((bn x : Int) < (bn r : Int))) = tw at hsplit
    generalize hdw : F.dropWhile (fun x => decide ((bn x : Int) < (bn r : Int))) = dw at *
    have htwlt : ∀ x ∈ tw, bn x < bn r := by
      intro x hx
      rw [← htw] at hx
      have := List.mem_takeWhile_imp hx
      simp only [decide_eq_true_eq] at this
      omega
    have hdwge : ∀ x ∈ dw, bn r ≤ bn x := by
      intro x hx
      rw [← hdw, ← filter_ge_eq_dropWhile bn F _ hF, List.mem_filter] at hx
      have := hx.2
      simp only [decide_eq_true_eq] at this
      omega
    have htrades : s.trades = tw.take n ++ dw.take (n - tw.length) := by
      rw [hn, ← hsplit, List.take_append_eq_append_take]
    have hlt : tw.length < n := by
      by_contra hcon
      have h0 : n - tw.length = 0 := by omega
      rw [htrades, h0, List.take_zero, List.append_nil] at hrmem
      have := htwlt r (List.mem_of_mem_take hrmem)
      omega
    rw [List.take_of_length_le (by omega : tw.length ≤ n)] at htrades
    have hsorted : s.trades.Pairwise (fun a b => bn a ≤ bn b) := by
      rw [hn]
      exact hF.sublist (List.take_sublist _ _)
    have hX : ∀ x ∈ dw.take (n - tw.length), bn x = bn r := by
      intro x hx
      have h1 := hdwge x (List.mem_of_mem_take hx)
      have h2 := pairwise_le_getLast bn s.trades r hsorted hr x
        (by rw [htrades]; exact List.mem_append_right _ hx)
      omega
    have hfirstX : first ∈ dw.take (n - tw.length) := by
      have hlim : limit ≠ 0 := by
        intro h0
        rw [h0] at hfirst
        simp at hfirst
      have hk : n - tw.length ≠ 0 := by omega
      have h1 : (dw.take (n - tw.length)).head? = some first := by
        rw [List.head?_take, if_neg hk]
        rw [List.head?_take, if_neg hlim] at hfirst
        exact hfirst
      exact List.mem_of_mem_head? h1
    have hbnfirst : bn first = bn r := hX first hfirstX
    refine ⟨tw.length + limit, ?_⟩
    rw [← hsplit, List.take_append, htrades, hbnfirst]
    congr 1
    unfold trimTail
    rw [rdropWhile_append_of_all _ _ _ (fun x hx => by simp [hX x hx])]
    apply rdropWhile_of_none
    intro x hx
    have := htwlt x hx
    simp only [decide_eq_false_iff_not]
    omega

theorem pagingBody_cases {α : Type} (bn : α → Nat) (fetch : Int → Option (List α))
    (currentBlock : Int) (s s1 : Paging α)
    (h : pagingBody bn fetch currentBlock s = PagingStep.next s1 ∨
      pagingBody bn fetch currentBlock s = PagingStep.stop s1) :
    s1 = s ∨
      ∃ page first lastRow, fetch s.lastTradeBlock = some page ∧ page.head? = some first ∧
        page.getLast? = some lastRow ∧
        s1 = ⟨trimTail bn (bn first) s.trades ++ page, toInt64 (bn lastRow)⟩ := by
  unfold pagingBody at h
  cases hf : fetch s.lastTradeBlock with
  | none =>
    rw [hf] at h
    rcases h with h | h <;> cases h
  | some page =>
    rw [hf] at h
    dsimp only at h
    cases hh : page.head? with
    | none =>
      rw [hh] at h
      simp only at h
      rcases h with h | h
      · cases h
      · left
        cases h
        rfl
    | some first =>
      cases hl : page.getLast? with
      | none =>
        rw [hh, hl] at h
        simp only at h
        rcases h with h | h
        · cases h
        · left
          cases h
          rfl
      | some lastRow =>
        right
        rw [hh, hl] at h
        simp only at h
        refine ⟨page, first, lastRow, rfl, hh, hl, ?_⟩
        split_ifs at h
        · rcases h with h | h
          · cases h
          · cases h
            rfl
        · rcases h with h | h
          · cases h
            rfl
          · cases h

theorem pagingInv_step {α : Type} (bn : α → Nat) (source : List α) (limit : Nat)
    (start currentBlock : Int) (hs : source.Pairwise (fun a b => bn a ≤ bn b))
    (hb : ∀ r ∈ source, bn r < 2 ^ 63) (s s1 : Paging α)
    (hinv : PagingInv bn (source.filter (fun r => decide (start ≤ (bn r : Int)))) start s)
    (h : pagingBody bn (fetchFrom bn source limit) currentBlock s = PagingStep.next s1 ∨
      pagingBody bn (fetchFrom bn source limit) currentBlock s = PagingStep.stop s1) :
    PagingInv bn (source.filter (fun r => decide (start ≤ (bn r : Int)))) start s1 := by
  rcases pagingBody_cases bn _ currentBlock s s1 h with rfl | ⟨page, first, lastRow, hf, hh, hl, rfl⟩
  · exact hinv
  · simp only [fetchFrom, Option.some.injEq] at hf
    subst hf
    refine ⟨paging_page_eq_take bn source limit start hs s hinv first hh, Or.inr ⟨lastRow, ?_, ?_⟩⟩
    · simp only [List.getLast?_append, hl, Option.or_some]
    · apply toInt64_of_lt
      apply hb
      exact List.mem_of_mem_filter (List.mem_of_mem_take (List.mem_of_getLast?_eq_some hl))

theorem pagingInv_of_reached {α : Type} (bn : α → Nat) (source : List α) (limit : Nat)
    (start currentBlock : Int) (hs : source.Pairwise (fun a b => bn a ≤ bn b))
    (hb : ∀ r ∈ source, bn r < 2 ^ 63) (s : Paging α)
    (h : PagingReached (pagingBody bn (fetchFrom bn source limit) currentBlock) ⟨[], start⟩ s) :
    PagingInv bn (source.filter (fun r => decide (start ≤ (bn r : Int)))) start s := by
  induction h with
  | start => exact ⟨⟨0, rfl⟩, Or.inl ⟨rfl, rfl⟩⟩
  | next s s1 _ hstep ih =>
    exact pagingInv_step bn source limit start currentBlock hs hb s s1 ih (Or.inl hstep)
  | stop s s1 _ hstep ih =>
    exact pagingInv_step bn source limit start currentBlock hs hb s s1 ih (Or.inr hstep)

theorem pagingReached_of_loop {α : Type} (bn : α → Nat) (fetch : Int → Option (List α))
    (currentBlock : Int) (s0 : Paging α) (fuel : Nat) (s s1 : Paging α)
    (hs : PagingReached (pagingBody bn fetch currentBlock) s0 s)
    (h : pagingLoop bn fetch currentBlock fuel s = some (PagingStep.stop s1)) :
    PagingReached (pagingBody bn fetch currentBlock) s0 s1 := by
  induction fuel generalizing s with
  | zero => cases h
  | succ fuel ih =>
    unfold pagingLoop at h
    cases hb : pagingBody bn fetch currentBlock s with
    | failed =>
      rw [hb] at h
      cases h
    | stop s2 =>
      rw [hb] at h
      cases h
      exact PagingReached.stop s s1 hs hb
    | next s2 =>
      rw [hb] at h
      exact ih s2 (PagingReached.next s s2 hs hb) h

theorem trimTail_spec {α : Type} (bn : α → Nat) (first : Nat) (l : List α) :
    ∃ removed, l = trimTail bn first l ++ removed ∧ (∀ r ∈ removed, bn r = first) ∧
      ∀ r, (trimTail bn first l).getLast? = some r → bn r ≠ first := by
  refine ⟨l.rtakeWhile (fun r => decide (bn r = first)), ?_, ?_, ?_⟩
  · unfold trimTail List.rdropWhile List.rtakeWhile
    rw [← List.reverse_append, List.takeWhile_append_dropWhile, List.reverse_reverse]
  · intro r hr
    simpa using List.mem_rtakeWhile_imp hr
  · intro r hr
    have hne : trimTail bn first l ≠ [] := by
      intro h
      rw [h] at hr
      cases hr
    have h := List.rdropWhile_last_not (fun r => decide (bn r = first)) l hne
    rw [List.getLast?_eq_getLast _ hne, Option.some.injEq] at hr
    rw [← hr]
    simpa using h

/-! ## C13: the de-duplication at a page boundary -/

/-- C13 (page-boundary de-duplication), for the paging loop of initSolanaTrade and of
initSolanaTransfer (the row type and its block number are parameters). First, whatever
the fetch returns: a pass of the body that gets a non-empty page leaves as buffer the old
buffer without its maximal tail of rows whose block number is that of the first row of the
page, followed by the page. Second, for a static table listed in non-decreasing order of
block number (block numbers below 2^63, as in the database), from which a fetch returns
the first limit rows at or above the watermark: every buffer the loop holds when it enters
its body or leaves through a break, and so the buffer with which the loop ends, is an
initial segment of the rows of the table at or above the starting watermark; hence it
takes each row of the table at most once, in table order, and is sorted non-decreasingly
by block number. -/
theorem paging_buffer_has_no_duplicates {α : Type} (blockNumber : α → Nat) (source : List α)
    (limit : Nat) (start currentBlock : Int)
    (hsorted : source.Pairwise (fun a b => blockNumber a ≤ blockNumber b))
    (hrange : ∀ r ∈ source, blockNumber r < 2 ^ 63) :
    (∀ (fetch : Int → Option (List α)) (s s1 : Paging α) (page : List α) (first : α),
        fetch s.lastTradeBlock = some page → page.head? = some first →
        (pagingBody blockNumber fetch currentBlock s = PagingStep.next s1 ∨
          pagingBody blockNumber fetch currentBlock s = PagingStep.stop s1) →
        ∃ kept removed, s.trades = kept ++ removed ∧
          (∀ r ∈ removed, blockNumber r = blockNumber first) ∧
          (∀ r, kept.getLast? = some r → blockNumber r ≠ blockNumber first) ∧
          s1.trades = kept ++ page) ∧
      (∀ s, PagingReached (pagingBody blockNumber (fetchFrom blockNumber source limit)
            currentBlock) ⟨[], start⟩ s →
          (∃ n, s.trades =
            (source.filter (fun r => decide (start ≤ (blockNumber r : Int)))).take n) ∧
          s.trades.Sublist source ∧
          s.trades.Pairwise (fun a b => blockNumber a ≤ blockNumber b)) ∧
      (∀ fuel s,
          pagingLoop blockNumber (fetchFrom blockNumber source limit) currentBlock fuel
              ⟨[], start⟩ = some (PagingStep.stop s) →
          (∃ n, s.trades =
            (source.filter (fun r => decide (start ≤ (blockNumber r : Int)))).take n) ∧
          s.trades.Sublist source ∧
          s.trades.Pairwise (fun a b => blockNumber a ≤ blockNumber b)) := by
  have key : ∀ s, PagingReached (pagingBody blockNumber (fetchFrom blockNumber source limit)
      currentBlock) ⟨[], start⟩ s →
      (∃ n, s.trades =
        (source.filter (fun r => decide (start ≤ (blockNumber r : Int)))).take n) ∧
      s.trades.Sublist source ∧
      s.trades.Pairwise (fun a b => blockNumber a ≤ blockNumber b) := by
    intro s hs
    obtain ⟨⟨n, hn⟩, _⟩ :=
      pagingInv_of_reached blockNumber source limit start currentBlock hsorted hrange s hs
    have hsub : s.trades.Sublist source := by
      rw [hn]
      exact (List.take_sublist _ _).trans (List.filter_sublist _)
    exact ⟨⟨n, hn⟩, hsub, hsorted.sublist hsub⟩
  refine ⟨?_, key, ?_⟩
  · intro fetch s s1 page first hf hh hbody
    obtain ⟨removed, h1, h2, h3⟩ := trimTail_spec blockNumber (blockNumber first) s.trades
    refine ⟨trimTail blockNumber (blockNumber first) s.trades, removed, h1, h2, h3, ?_⟩
    have hne : page ≠ [] := by
      intro h
      rw [h] at hh
      cases hh
    unfold pagingBody at hbody
    rw [hf] at hbody
    dsimp only at hbody
    rw [hh, List.getLast?_eq_getLast _ hne] at hbody
    dsimp only at hbody
    split_ifs at hbody
    · rcases hbody with h | h
      · cases h
      · cases h
        rfl
    · rcases hbody with h | h
      · cases h
        rfl
      · cases h
  · intro fuel s hloop
    exact key s (pagingReached_of_loop blockNumber _ currentBlock _ fuel _ s
      PagingReached.start hloop)

/-- Witness of C13: scenario 5. The table with the blocks 10, 10, 11, 11, 12 is read in
pages of three rows from the watermark 10; the pages are 10, 10, 11 and 11, 11, 12, and the
loop ends after two passes with exactly the five rows of the table as buffer. -/
theorem paging_buffer_has_no_duplicates_witness :
    (scenarioSource.Pairwise (fun a b => a.BlockNumber ≤ b.BlockNumber) ∧
      ∀ r ∈ scenarioSource, r.BlockNumber < 2 ^ 63) ∧
    (∀ fuel s,
      pagingLoop SolanaTradelogDB.BlockNumber
          (fetchFrom SolanaTradelogDB.BlockNumber scenarioSource 3) 12 fuel ⟨[], 10⟩ =
        some (PagingStep.stop s) →
      (∃ n, s.trades =
        (scenarioSource.filter
          (fun r => decide ((10 : Int) ≤ (r.BlockNumber : Int)))).take n) ∧
      s.trades.Sublist scenarioSource ∧
      s.trades.Pairwise (fun a b => a.BlockNumber ≤ b.BlockNumber)) ∧
    fetchFrom SolanaTradelogDB.BlockNumber scenarioSource 3 10 = some (scenarioSource.take 3) ∧
    fetchFrom SolanaTradelogDB.BlockNumber scenarioSource 3 11 = some (scenarioSource.drop 2) ∧
    initSolanaTradeLoop (fetchFrom SolanaTradelogDB.BlockNumber scenarioSource 3) 12 2
        ⟨[], 10⟩ = some (PagingStep.stop ⟨scenarioSource, 12⟩) ∧
    scenarioSource.map SolanaTradelogDB.BlockNumber = [10, 10, 11, 11, 12] :=
  ⟨⟨by with_unfolding_all decide, by with_unfolding_all decide⟩,
    (paging_buffer_has_no_duplicates SolanaTradelogDB.BlockNumber scenarioSource 3 10 12
      (by with_unfolding_all decide) (by with_unfolding_all decide)).2.2,
    by with_unfolding_all rfl, by with_unfolding_all rfl, by with_unfolding_all rfl,
    by with_unfolding_all rfl⟩

/-! ## Reachable states of the whole engine -/

theorem AddTransferLogs_cons (c : ChainData) (t : Transferlog) (ts : List Transferlog) :
    AddTransferLogs c (t :: ts) = AddTransferLogs (addTransferLog c t) ts := rfl

theorem Reachable_induction (P : ChainData → Prop) (h0 : P NewStorage)
    (h1 : ∀ c e, P c → P (addTradeLog c e)) (h2 : ∀ c t, P c → P (addTransferLog c t))
    (h3 : ∀ now c c1, P c → RemoveTrades now c = some c1 → P c1)
    (h4 : ∀ now c c1, P c → RemoveTransfer now c = some c1 → P c1) :
    ∀ c, Reachable c → P c := by
  intro c hc
  induction hc with
  | init => exact h0
  | addTrades c logs _ ih =>
    clear * - h1 ih
    induction logs generalizing c with
    | nil => exact ih
    | cons e es ihl => exact ihl (addTradeLog c e) (h1 c e ih)
  | addTransfers c logs _ ih =>
    clear * - h2 ih
    induction logs generalizing c with
    | nil => exact ih
    | cons t ts ihl => exact ihl (addTransferLog c t) (h2 c t ih)
  | removeTrades c c1 now _ hr ih => exact h3 now c c1 ih hr
  | removeTransfer c c1 now _ hr ih => exact h4 now c c1 ih hr

theorem addTradeLog_frame (c : ChainData) (e : Tradelog) :
    (addTradeLog c e).transferLogs = c.transferLogs ∧
      (addTradeLog c e).transferDataRange = c.transferDataRange ∧
      (addTradeLog c e).tokenDeposit = c.tokenDeposit ∧
      (addTradeLog c e).tokenWithdraw = c.tokenWithdraw ∧
      (addTradeLog c e).tokens =
        (c.tokens.store (ToLower e.TokenInAddress) true).store (ToLower e.TokenOutAddress)
          true := by
  unfold addTradeLog
  simp only
  split_ifs <;> exact ⟨rfl, rfl, rfl, rfl, rfl⟩

theorem addTradeLog_tradeDataRange_any (c : ChainData) (e : Tradelog) :
    (addTradeLog c e).tradeDataRange = c.tradeDataRange ∨
      (addTradeLog c e).tradeDataRange =
        c.tradeDataRange.map (addTradeToRange e (c.tradeLogs.length + 1)) := by
  cases hf : e.GetCurrentRateFail with
  | true =>
    left
    rw [addTradeLog_fail c e hf]
  | false =>
    right
    exact addTradeLog_tradeDataRange c e hf

theorem addTransferLog_frame (c : ChainData) (t : Transferlog) :
    (addTransferLog c t).tradeLogs = c.tradeLogs ∧
      (addTransferLog c t).tradeDataRange = c.tradeDataRange ∧
      (addTransferLog c t).tokens = c.tokens.store (ToLower t.TokenAddress) true := by
  unfold addTransferLog
  simp only
  split_ifs <;> exact ⟨rfl, rfl, rfl⟩

theorem addTransferLog_transferDataRange (c : ChainData) (t : Transferlog)
    (hf : t.GetCurrentRateFail = false) :
    (addTransferLog c t).transferDataRange =
      c.transferDataRange.map (addTransferToRange t (c.transferLogs.length + 1)) := by
  unfold addTransferLog
  simp only [hf, Bool.false_eq_true, if_false]
  split_ifs <;> simp

theorem addTransferLog_transferDataRange_any (c : ChainData) (t : Transferlog) :
    (addTransferLog c t).transferDataRange = c.transferDataRange ∨
      (addTransferLog c t).transferDataRange =
        c.transferDataRange.map (addTransferToRange t (c.transferLogs.length + 1)) := by
  cases hf : t.GetCurrentRateFail with
  | true =>
    left
    rw [addTransferLog_fail c t hf]
  | false =>
    right
    exact addTransferLog_transferDataRange c t hf

theorem duration_addTransferToRange (t : Transferlog) (n : Nat) (r : TransferStorageByRange) :
    (addTransferToRange t n r).duration = r.duration := by
  unfold addTransferToRange
  simp only
  split_ifs <;> rfl

theorem duration_removeTradesRange (now : Time) (logs : List Tradelog)
    (r r1 : TradeStorageByRange) (h : removeTradesRange now logs r = some r1) :
    r1.duration = r.duration := by
  rcases removeTradesRange_some now logs r r1 h with ⟨_, rfl⟩ | ⟨_, _, hd, _⟩
  · rfl
  · exact hd

theorem duration_removeTransferRange (now : Time) (logs : List Transferlog)
    (r r1 : TransferStorageByRange) (h : removeTransferRange now logs r = some r1) :
    r1.duration = r.duration := by
  rcases removeTransferRange_some now logs r r1 h with ⟨_, rfl⟩ | ⟨_, _, hd, _⟩
  · rfl
  · exact hd

theorem forall₂_map_eq {α β : Type} (f : α → β) {R : α → α → Prop} {l l1 : List α}
    (h : List.Forall₂ R l l1) (hR : ∀ a b, R a b → f b = f a) : l1.map f = l.map f := by
  induction h with
  | nil => rfl
  | cons hab _ ih => simp [hR _ _ hab, ih]

theorem durations_of_reachable (c : ChainData) (h : Reachable c) :
    c.tradeDataRange.map (fun r => r.duration) = configuredDurations ∧
      c.transferDataRange.map (fun r => r.duration) = configuredDurations := by
  refine Reachable_induction
    (fun c => c.tradeDataRange.map (fun r => r.duration) = configuredDurations ∧
      c.transferDataRange.map (fun r => r.duration) = configuredDurations)
    ⟨rfl, rfl⟩ ?_ ?_ ?_ ?_ c h
  · intro c e ⟨h1, h2⟩
    refine ⟨?_, by rw [(addTradeLog_frame c e).2.1]; exact h2⟩
    rcases addTradeLog_tradeDataRange_any c e with h | h
    · rw [h]; exact h1
    · rw [h, List.map_map, ← h1]
      apply List.map_congr_left
      intro r _
      exact duration_addTradeToRange e _ r
  · intro c t ⟨h1, h2⟩
    refine ⟨by rw [(addTransferLog_frame c t).2.1]; exact h1, ?_⟩
    rcases addTransferLog_transferDataRange_any c t with h | h
    · rw [h]; exact h2
    · rw [h, List.map_map, ← h2]
      apply List.map_congr_left
      intro r _
      exact duration_addTransferToRange t _ r
  · intro now c c1 ⟨h1, h2⟩ hr
    obtain ⟨rs, rfl, hrs⟩ := (RemoveTrades_iff now c c1).1 hr
    exact ⟨(forall₂_map_eq (fun r => r.duration) hrs
      (fun a b hab => duration_removeTradesRange now _ a b hab)).trans h1, h2⟩
  · intro now c c1 ⟨h1, h2⟩ hr
    obtain ⟨rs, rfl, hrs⟩ := (RemoveTransfer_iff now c c1).1 hr
    exact ⟨h1, (forall₂_map_eq (fun r => r.duration) hrs
      (fun a b hab => duration_removeTransferRange now _ a b hab)).trans h2⟩

theorem Reachable_scenarioExpiredState : Reachable scenarioExpiredState :=
  Reachable.removeTrades _ _ scenarioExpiryClock
    (Reachable.addTrades NewStorage [scenarioTrade] Reachable.init) RemoveTrades_scenario

/-! ## C14: the lookup of a window by its duration -/

/-- C14 (duration lookup). In every reachable state of the engine and for every duration
d: when d is one of the five configured durations 1h, 4h, 24h, 7 * 24h, 30 * 24h,
GetTradeLogs and GetTransferLogs return, without error, a window of the engine whose
duration is exactly d; when d is none of them, both return the error. So an error is
returned if and only if d is not a configured duration. -/
theorem duration_lookup (c : ChainData) (hc : Reachable c) (d : Int) :
    (d ∈ [Hour, Hour * 4, Hour * 24, Hour * 24 * 7, Hour * 24 * 30] →
        (∃ t, GetTradeLogs c d = Except.ok t ∧ t ∈ c.tradeDataRange ∧ t.duration = d) ∧
          ∃ t, GetTransferLogs c d = Except.ok t ∧ t ∈ c.transferDataRange ∧
            t.duration = d) ∧
      (d ∉ [Hour, Hour * 4, Hour * 24, Hour * 24 * 7, Hour * 24 * 30] →
        GetTradeLogs c d = Except.error "invalid duration to get sol trade logs" ∧
          GetTransferLogs c d = Except.error "invalid duration to get transfer logs") := by
  obtain ⟨h1, h2⟩ := durations_of_reachable c hc
  have hmem1 : d ∈ configuredDurations ↔ ∃ t ∈ c.tradeDataRange, t.duration = d := by
    rw [← h1, List.mem_map]
  have hmem2 : d ∈ configuredDurations ↔ ∃ t ∈ c.transferDataRange, t.duration = d := by
    rw [← h2, List.mem_map]
  constructor
  · intro hd
    constructor
    · obtain ⟨t0, ht0, hd0⟩ := hmem1.1 hd
      unfold GetTradeLogs
      cases hfind : c.tradeDataRange.find? (fun t => decide (t.duration = d)) with
      | none =>
        rw [List.find?_eq_none] at hfind
        exact absurd (by simpa using hd0) (hfind t0 ht0)
      | some t =>
        exact ⟨t, rfl, List.mem_of_find?_eq_some hfind, by simpa using List.find?_some hfind⟩
    · obtain ⟨t0, ht0, hd0⟩ := hmem2.1 hd
      unfold GetTransferLogs
      cases hfind : c.transferDataRange.find? (fun t => decide (t.duration = d)) with
      | none =>
        rw [List.find?_eq_none] at hfind
        exact absurd (by simpa using hd0) (hfind t0 ht0)
      | some t =>
        exact ⟨t, rfl, List.mem_of_find?_eq_some hfind, by simpa using List.find?_some hfind⟩
  · intro hd
    constructor
    · unfold GetTradeLogs
      cases hfind : c.tradeDataRange.find? (fun t => decide (t.duration = d)) with
      | none => rfl
      | some t =>
        exact absurd (hmem1.2 ⟨t, List.mem_of_find?_eq_some hfind,
          by simpa using List.find?_some hfind⟩) hd
    · unfold GetTransferLogs
      cases hfind : c.transferDataRange.find? (fun t => decide (t.duration = d)) with
      | none => rfl
      | some t =>
        exact absurd (hmem2.2 ⟨t, List.mem_of_find?_eq_some hfind,
          by simpa using List.find?_some hfind⟩) hd

/-- Witness of C14: in the state of scenario 3 the duration 4h is found and the duration
of 2h is not. -/
theorem duration_lookup_witness :
    Reachable scenarioExpiredState ∧
    ((Hour * 4 ∈ [Hour, Hour * 4, Hour * 24, Hour * 24 * 7, Hour * 24 * 30] →
        (∃ t, GetTradeLogs scenarioExpiredState (Hour * 4) = Except.ok t ∧
            t ∈ scenarioExpiredState.tradeDataRange ∧ t.duration = Hour * 4) ∧
          ∃ t, GetTransferLogs scenarioExpiredState (Hour * 4) = Except.ok t ∧
            t ∈ scenarioExpiredState.transferDataRange ∧ t.duration = Hour * 4) ∧
      (Hour * 4 ∉ [Hour, Hour * 4, Hour * 24, Hour * 24 * 7, Hour * 24 * 30] →
        GetTradeLogs scenarioExpiredState (Hour * 4) =
            Except.error "invalid duration to get sol trade logs" ∧
          GetTransferLogs scenarioExpiredState (Hour * 4) =
            Except.error "invalid duration to get transfer logs")) ∧
    Hour * 4 ∈ [Hour, Hour * 4, Hour * 24, Hour * 24 * 7, Hour * 24 * 30] ∧
    GetTradeLogs scenarioExpiredState (Hour * 2) =
      Except.error "invalid duration to get sol trade logs" :=
  ⟨Reachable_scenarioExpiredState,
    duration_lookup scenarioExpiredState Reachable_scenarioExpiredState (Hour * 4),
    by decide, by with_unfolding_all rfl⟩

/-! ## C15: the big-tx query -/

theorem sortSlice_blockNumber_perm_sorted (l : List BigTx) :
    (sortSlice (fun a b => decide (a.BlockNumber > b.BlockNumber)) l).Perm l ∧
      (sortSlice (fun a b => decide (a.BlockNumber > b.BlockNumber)) l).Pairwise
        (fun a b => a.BlockNumber ≥ b.BlockNumber) := by
  unfold sortSlice
  refine ⟨List.perm_insertionSort _ l, ?_⟩
  haveI : IsTotal BigTx (fun a b => decide (b.BlockNumber > a.BlockNumber) = false) :=
    ⟨fun a b => by
      simp only [decide_eq_false_iff_not, not_lt, gt_iff_lt]
      exact le_total _ _⟩
  haveI : IsTrans BigTx (fun a b => decide (b.BlockNumber > a.BlockNumber) = false) :=
    ⟨fun a b c hab hbc => by
      simp only [decide_eq_false_iff_not, not_lt, gt_iff_lt] at hab hbc ⊢
      exact le_trans hbc hab⟩
  have h := List.sorted_insertionSort
    (fun a b : BigTx => decide (b.BlockNumber > a.BlockNumber) = false) l
  refine List.Pairwise.imp ?_ h
  intro a b hab
  simpa using hab

theorem GetLastBigTx_eq (c : ChainData) (action : SmartMoneyActivities) (last : Int) :
    GetLastBigTx c action last =
      sortSlice (fun a b => decide (a.BlockNumber > b.BlockNumber))
        (c.bigTx.reverse.filter
          (fun e => decide (action = SmartMoneyActivitiesAll ∨ action = e.Action))) := by
  unfold GetLastBigTx
  simp only
  congr 1
  rw [foldl_append_filterMap
    (fun e => if action = SmartMoneyActivitiesAll ∨ action = e.Action then some e else none)]
  · rw [List.nil_append]
    induction c.bigTx.reverse with
    | nil => rfl
    | cons e l ih =>
      by_cases h : action = SmartMoneyActivitiesAll ∨ action = e.Action
      · simp [List.filterMap_cons, List.filter_cons, h, ih]
      · simp [List.filterMap_cons, List.filter_cons, h, ih]
  · intro res e
    split_ifs <;> simp

/-- C15 (big-tx query). For every big-tx list, every action and every value of last,
GetLastBigTx returns a permutation of exactly the entries e of the list with action = all
or e.action = action, none dropped; the block number is non-increasing along the result;
and the result is the same for every value of last. -/
theorem GetLastBigTx_is_sorted_filter (c : ChainData) (action : SmartMoneyActivities)
    (last : Int) :
    (GetLastBigTx c action last).Perm
        (c.bigTx.filter
          (fun e => decide (action = SmartMoneyActivitiesAll ∨ e.Action = action))) ∧
      (GetLastBigTx c action last).Pairwise (fun a b => a.BlockNumber ≥ b.BlockNumber) ∧
      ∀ last1 : Int, GetLastBigTx c action last1 = GetLastBigTx c action last := by
  rw [GetLastBigTx_eq]
  obtain ⟨hperm, hsorted⟩ := sortSlice_blockNumber_perm_sorted
    (c.bigTx.reverse.filter
      (fun e => decide (action = SmartMoneyActivitiesAll ∨ action = e.Action)))
  refine ⟨?_, hsorted, fun last1 => GetLastBigTx_eq c action last1⟩
  refine hperm.trans ?_
  have hfun : (fun e : BigTx => decide (action = SmartMoneyActivitiesAll ∨ action = e.Action)) =
      (fun e : BigTx => decide (action = SmartMoneyActivitiesAll ∨ e.Action = action)) := by
    funext e
    simp only [eq_comm]
  rw [hfun]
  exact (List.reverse_perm c.bigTx).filter _

/-! ## C16: the pagination of getTopToken -/

set_option maxRecDepth 4000 in
/-- C16, evaluated at two requests the query surface accepts (start >= 1, limit >= 1): on
a map with the single entry "0xa" -> 1 and limit = 4, the page start = 2^62 + 1 is not
empty but holds that entry, because (start - 1) * limit wraps around to 0 in 64-bit
arithmetic; and the page start = 2^61 + 1 ends in an index-out-of-range panic, because
(start - 1) * limit wraps around to -2^63. -/
theorem getTopToken_offset_overflow :
    getTopToken Chain.ChainBase ⟨[("0xa", 1)]⟩ ⟨[]⟩ 4611686018427387905 4 =
        some [{ Addr := "0xa", Value := 1, Chain := "base", Symbol := "", CurrentPrice := 0,
                ImageUrl := "" }] ∧
      getTopToken Chain.ChainBase ⟨[("0xa", 1)]⟩ ⟨[]⟩ 2305843009213693953 4 = none ∧
      wrapInt (wrapInt (4611686018427387905 - 1) * 4) = 0 ∧
      wrapInt (wrapInt (2305843009213693953 - 1) * 4) = -(2 ^ 63) := by
  refine ⟨?_, ?_, ?_, ?_⟩
  · with_unfolding_all rfl
  · with_unfolding_all rfl
  · with_unfolding_all rfl
  · with_unfolding_all rfl

theorem wrapInt_of_range (x : Int) (h1 : -(2 ^ 63) ≤ x) (h2 : x < 2 ^ 63) : wrapInt x = x := by
  unfold wrapInt
  norm_num at h1 h2 ⊢
  omega

theorem topTokenLoop_eq (chain : Chain) (info : GoMap Token) (arr : List Data) (n i : Nat)
    (top : List TokenAddressResponse) :
    topTokenLoop chain info arr n (i : Int) top =
      some (top ++ ((arr.drop i).take n).map (topTokenEntry chain info)) := by
  induction n generalizing i top with
  | zero => simp [topTokenLoop]
  | succ n ih =>
    unfold topTokenLoop
    by_cases h : (i : Int) ≥ (arr.length : Int)
    · have h' : arr.length ≤ i := by omega
      simp [h, List.drop_of_length_le h']
    · have h' : i < arr.length := by omega
      have hneg : ¬ (i : Int) < 0 := by omega
      have hi : ((i : Int) + 1) = ((i + 1 : Nat) : Int) := by push_cast; ring
      simp only [h, hneg, if_false, Int.toNat_ofNat, List.getElem?_eq_getElem h', hi, ih]
      rw [List.drop_eq_getElem_cons h', List.take_succ_cons, List.map_cons]
      simp

theorem sortSlice_value_perm_sorted (l : List Data) :
    (sortSlice (fun a b : Data => decide (a.value > b.value)) l).Perm l ∧
      (sortSlice (fun a b : Data => decide (a.value > b.value)) l).Pairwise
        (fun a b => a.value ≥ b.value) := by
  unfold sortSlice
  refine ⟨List.perm_insertionSort _ l, ?_⟩
  haveI : IsTotal Data (fun a b => decide (b.value > a.value) = false) :=
    ⟨fun a b => by
      simp only [decide_eq_false_iff_not, not_lt, gt_iff_lt]
      exact le_total _ _⟩
  haveI : IsTrans Data (fun a b => decide (b.value > a.value) = false) :=
    ⟨fun a b c hab hbc => by
      simp only [decide_eq_false_iff_not, not_lt, gt_iff_lt] at hab hbc ⊢
      exact le_trans hbc hab⟩
  have h := List.sorted_insertionSort
    (fun a b : Data => decide (b.value > a.value) = false) l
  refine List.Pairwise.imp ?_ h
  intro a b hab
  simpa using hab

/-- The pagination of getTopToken when start * limit fits in an int64 (start >= 1, limit
>= 1): the result is the slice of the entries, sorted by value descending, from position
(start - 1) * limit, at most limit long. So it has min(limit, n - (start - 1) * limit)
entries (none when the offset is n or more), its values are non-increasing, and each is
at least every value of the sorted entries from position start * limit on. -/
theorem getTopToken_page_in_range (chain : Chain) (data : GoMap ℚ) (info : GoMap Token)
    (start limit : Int) (h1 : 1 ≤ start) (h2 : 1 ≤ limit) (h3 : start * limit < 2 ^ 63) :
    ∃ sorted : List Data,
      sorted.Perm (data.entries.map (fun kv => ({ key := kv.1, value := kv.2 } : Data))) ∧
      sorted.Pairwise (fun a b => a.value ≥ b.value) ∧
      ∃ page : List TokenAddressResponse,
        getTopToken chain data info start limit = some page ∧
        page = ((sorted.drop ((start - 1) * limit).toNat).take limit.toNat).map
          (topTokenEntry chain info) ∧
        page.length = min limit.toNat (data.entries.length - ((start - 1) * limit).toNat) ∧
        (data.entries.length ≤ ((start - 1) * limit).toNat → page = []) ∧
        page.Pairwise (fun a b => a.Value ≥ b.Value) ∧
        ∀ x ∈ page, ∀ y ∈ sorted.drop (start * limit).toNat, x.Value ≥ y.value := by
  obtain ⟨hperm, hsorted⟩ := sortSlice_value_perm_sorted
    (data.entries.map (fun kv => ({ key := kv.1, value := kv.2 } : Data)))
  generalize hsdef : sortSlice (fun a b : Data => decide (a.value > b.value))
    (data.entries.map (fun kv => ({ key := kv.1, value := kv.2 } : Data))) = sorted at *
  have hlen : sorted.length = data.entries.length := by
    rw [hperm.length_eq, List.length_map]
  have hpos : 0 ≤ (start - 1) * limit := mul_nonneg (by omega) (by omega)
  have hle : (start - 1) * limit + limit = start * limit := by ring
  have hst : wrapInt (wrapInt (start - 1) * limit) = (start - 1) * limit := by
    have hlt : start - 1 < 2 ^ 63 := by nlinarith
    rw [wrapInt_of_range (start - 1) (by norm_num; omega) hlt]
    exact wrapInt_of_range _ (by norm_num at hpos ⊢; omega) (by omega)
  have hed : wrapInt (wrapInt ((start - 1) * limit + limit) - 1) =
      (start - 1) * limit + limit - 1 := by
    rw [hle, wrapInt_of_range (start * limit) (by norm_num; nlinarith) h3]
    exact wrapInt_of_range _ (by norm_num; nlinarith) (by omega)
  refine ⟨sorted, hperm, hsorted, _, ?_, rfl, ?_, ?_, ?_, ?_⟩
  · unfold getTopToken
    simp only [hsdef, hst, hed]
    have hfuel : ((start - 1) * limit + limit - 1 - (start - 1) * limit + 1).toNat =
        limit.toNat := by
      congr 1
      ring
    have hi : (start - 1) * limit = (((start - 1) * limit).toNat : Int) :=
      (Int.toNat_of_nonneg hpos).symm
    rw [hfuel, hi, topTokenLoop_eq, ← hi]
    simp
  · rw [List.length_map, List.length_take, List.length_drop, hlen]
  · intro hn
    rw [List.drop_of_length_le (by omega)]
    simp
  · rw [List.pairwise_map]
    exact hsorted.sublist ((List.take_sublist _ _).trans (List.drop_sublist _ _))
  · intro x hx y hy
    rw [List.mem_map] at hx
    obtain ⟨d, hd, rfl⟩ := hx
    have hsplit : sorted = sorted.take (start * limit).toNat ++ sorted.drop (start * limit).toNat :=
      (List.take_append_drop _ _).symm
    rw [hsplit, List.pairwise_append] at hsorted
    refine hsorted.2.2 d ?_ y hy
    have htake : (sorted.drop ((start - 1) * limit).toNat).take limit.toNat =
        (sorted.take (start * limit).toNat).drop ((start - 1) * limit).toNat := by
      rw [List.drop_take]
      congr 1
      have : (start * limit).toNat = ((start - 1) * limit).toNat + limit.toNat := by
        rw [← hle]
        omega
      omega
    rw [htake] at hd
    exact List.mem_of_mem_drop hd

/-! ## C17: the symbol cache keeps the first writer -/

theorem lookup_SetSymbol_cons (m : GoMap CmcTokenInfo) (u : Int) (t : CmcTokenInfo)
    (ts : List CmcTokenInfo) :
    SetSymbolToTokenInfoFromCmc m ⟨u, t :: ts⟩ =
      SetSymbolToTokenInfoFromCmc (if (m.lookup t.Symbol).isNone then m.store t.Symbol t else m)
        ⟨u, ts⟩ := rfl

theorem lookup_SetSymbol (m : GoMap CmcTokenInfo) (u : Int) (ts : List CmcTokenInfo)
    (k : String) :
    (SetSymbolToTokenInfoFromCmc m ⟨u, ts⟩).lookup k =
      match m.lookup k with
      | some v => some v
      | none => ts.find? (fun t => decide (t.Symbol = k)) := by
  induction ts generalizing m with
  | nil =>
    cases h : m.lookup k <;> simp [SetSymbolToTokenInfoFromCmc, h]
  | cons t ts ih =>
    rw [lookup_SetSymbol_cons, ih]
    cases ht : m.lookup t.Symbol with
    | some w =>
      simp only [Option.isNone_some, Bool.false_eq_true, if_false]
      cases hk : m.lookup k with
      | some v => rfl
      | none =>
        have hne : ¬ t.Symbol = k := by
          intro h
          rw [h, hk] at ht
          cases ht
        simp [List.find?_cons, hne]
    | none =>
      simp only [Option.isNone_none, if_true, GoMap.lookup_store]
      by_cases hs : t.Symbol = k
      · subst hs
        simp [ht, List.find?_cons]
      · simp only [if_neg hs]
        cases hk : m.lookup k with
        | some v => rfl
        | none => simp [List.find?_cons, hs]

theorem SetSymbol_of_all_present (m : GoMap CmcTokenInfo) (u : Int) (ts : List CmcTokenInfo)
    (h : ∀ t ∈ ts, (m.lookup t.Symbol).isSome = true) :
    SetSymbolToTokenInfoFromCmc m ⟨u, ts⟩ = m := by
  induction ts with
  | nil => rfl
  | cons t ts ih =>
    rw [lookup_SetSymbol_cons]
    have ht := h t (List.mem_cons_self t ts)
    have hn : ¬ (m.lookup t.Symbol).isNone = true := by
      cases hl : m.lookup t.Symbol with
      | none => rw [hl] at ht; cases ht
      | some v => simp
    rw [if_neg hn]
    exact ih (fun x hx => h x (List.mem_cons_of_mem t hx))

/-- C17 (first-writer-wins symbol cache). For every symbol map m and every token list ts,
SetSymbolToTokenInfoFromCmc leaves every entry already in m unchanged and maps each symbol
not yet in m to the first element of ts carrying that symbol (a symbol neither in m nor in
ts stays absent); applying the same list twice gives the same map as applying it once; and
a later refresh, whatever it holds for a symbol already in the map, does not change what
GetTokenInfoFromSymbol returns for that symbol. -/
theorem symbol_cache_first_writer_wins (m : GoMap CmcTokenInfo) (tokens : CmcTokens) :
    (∀ k v, m.lookup k = some v →
        (SetSymbolToTokenInfoFromCmc m tokens).lookup k = some v) ∧
      (∀ k, m.lookup k = none →
        (SetSymbolToTokenInfoFromCmc m tokens).lookup k =
          tokens.Tokens.find? (fun t => decide (t.Symbol = k))) ∧
      SetSymbolToTokenInfoFromCmc (SetSymbolToTokenInfoFromCmc m tokens) tokens =
        SetSymbolToTokenInfoFromCmc m tokens ∧
      ∀ (later : CmcTokens) (k : String), (m.lookup k).isSome = true →
        GetTokenInfoFromSymbol (SetSymbolToTokenInfoFromCmc m later) k =
          GetTokenInfoFromSymbol m k := by
  obtain ⟨u, ts⟩ := tokens
  refine ⟨?_, ?_, ?_, ?_⟩
  · intro k v hk
    rw [lookup_SetSymbol, hk]
  · intro k hk
    rw [lookup_SetSymbol, hk]
  · apply SetSymbol_of_all_present
    intro t ht
    rw [lookup_SetSymbol]
    cases hm : m.lookup t.Symbol with
    | some v => rfl
    | none =>
      simp only
      cases hfind : ts.find? (fun x => decide (x.Symbol = t.Symbol)) with
      | some x => rfl
      | none =>
        rw [List.find?_eq_none] at hfind
        exact absurd (by simp) (hfind t ht)
  · intro later k hk
    obtain ⟨u1, ts1⟩ := later
    unfold GetTokenInfoFromSymbol
    cases hm : m.lookup k with
    | none => rw [hm] at hk; cases hk
    | some v => rw [lookup_SetSymbol, hm]

/-! ## Lower-casing is idempotent -/

theorem Char_toLower_toLower (c : Char) : c.toLower.toLower = c.toLower := by
  unfold Char.toLower
  simp only
  by_cases h : c.toNat ≥ 65 ∧ c.toNat ≤ 90
  · rw [if_pos h]
    obtain ⟨h1, h2⟩ := h
    have key : ∀ n : Nat, 65 ≤ n → n ≤ 90 →
        ¬ ((Char.ofNat (n + 32)).toNat ≥ 65 ∧ (Char.ofNat (n + 32)).toNat ≤ 90) := by
      intro n hn1 hn2
      interval_cases n <;> decide
    rw [if_neg (key c.toNat h1 h2)]
  · rw [if_neg h, if_neg h]

theorem ToLower_ToLower (s : String) : ToLower (ToLower s) = ToLower s := by
  unfold ToLower
  simp only [List.map_map]
  congr 1
  apply List.map_congr_left
  intro c _
  exact Char_toLower_toLower c

theorem IsQuote_ToLower (s : String) : IsQuote (ToLower s) = IsQuote s := by
  unfold IsQuote EqualFold
  simp only [ToLower_ToLower]

/-! ## C18: the largest current position -/

theorem leaderboardStep_largest (v : LeaderboardVars) (tra : Tradelog) :
    (leaderboardStep v tra).largestPositionAddress =
        (if IsQuote (ToLower tra.TokenOutAddress) = false ∧
            v.largestPositionInUsdtValue < tra.CurrentTokenOutUsdtRate * tra.TokenOutAmount
          then tra.TokenOutAddress else v.largestPositionAddress) ∧
      (leaderboardStep v tra).largestPositionInUsdtValue =
        (if IsQuote (ToLower tra.TokenOutAddress) = false ∧
            v.largestPositionInUsdtValue < tra.CurrentTokenOutUsdtRate * tra.TokenOutAmount
          then tra.CurrentTokenOutUsdtRate * tra.TokenOutAmount
          else v.largestPositionInUsdtValue) := by
  unfold leaderboardStep
  simp only
  split_ifs <;> exact ⟨rfl, rfl⟩

theorem leaderboardLoop_concat (trade : List Tradelog) (tra : Tradelog) :
    leaderboardLoop (trade ++ [tra]) = leaderboardStep (leaderboardLoop trade) tra := by
  unfold leaderboardLoop
  rw [List.foldl_append]
  rfl

theorem leaderboardLoop_largest (trade : List Tradelog) :
    ((∀ t ∈ trade, IsQuote (ToLower t.TokenOutAddress) = false →
          t.CurrentTokenOutUsdtRate * t.TokenOutAmount ≤ 0) ∧
        (leaderboardLoop trade).largestPositionAddress = "" ∧
        (leaderboardLoop trade).largestPositionInUsdtValue = 0) ∨
      ∃ pre t post, trade = pre ++ t :: post ∧
        IsQuote (ToLower t.TokenOutAddress) = false ∧
        0 < t.CurrentTokenOutUsdtRate * t.TokenOutAmount ∧
        (∀ u ∈ pre, IsQuote (ToLower u.TokenOutAddress) = false →
          u.CurrentTokenOutUsdtRate * u.TokenOutAmount <
            t.CurrentTokenOutUsdtRate * t.TokenOutAmount) ∧
        (∀ u ∈ post, IsQuote (ToLower u.TokenOutAddress) = false →
          u.CurrentTokenOutUsdtRate * u.TokenOutAmount ≤
            t.CurrentTokenOutUsdtRate * t.TokenOutAmount) ∧
        (leaderboardLoop trade).largestPositionAddress = t.TokenOutAddress ∧
        (leaderboardLoop trade).largestPositionInUsdtValue =
          t.CurrentTokenOutUsdtRate * t.TokenOutAmount := by
  induction trade using List.reverseRecOn with
  | nil => exact Or.inl ⟨fun t ht => absurd ht (List.not_mem_nil t), rfl, rfl⟩
  | append_singleton l x ih =>
    obtain ⟨hA, hV⟩ := leaderboardStep_largest (leaderboardLoop l) x
    rw [leaderboardLoop_concat, hA, hV]
    by_cases hc : IsQuote (ToLower x.TokenOutAddress) = false ∧
        (leaderboardLoop l).largestPositionInUsdtValue <
          x.CurrentTokenOutUsdtRate * x.TokenOutAmount
    · rw [if_pos hc, if_pos hc]
      right
      refine ⟨l, x, [], rfl, hc.1, ?_, ?_, fun u hu => absurd hu (List.not_mem_nil u), rfl, rfl⟩
      · rcases ih with ⟨_, _, h0⟩ | ⟨pre, t, post, _, _, hpos, _, _, _, hval⟩
        · rw [h0] at hc
          exact hc.2
        · rw [hval] at hc
          exact lt_trans hpos hc.2
      · intro u hu hq
        rcases ih with ⟨hall, _, h0⟩ | ⟨pre, t, post, hl, _, _, hpre, hpost, _, hval⟩
        · rw [h0] at hc
          exact lt_of_le_of_lt (hall u hu hq) hc.2
        · rw [hval] at hc
          rw [hl, List.mem_append, List.mem_cons] at hu
          rcases hu with hu | rfl | hu
          · exact lt_trans (hpre u hu hq) hc.2
          · exact hc.2
          · exact lt_of_le_of_lt (hpost u hu hq) hc.2
    · rw [if_neg hc, if_neg hc]
      rcases ih with ⟨hall, hA0, h0⟩ | ⟨pre, t, post, hl, hq, hpos, hpre, hpost, hA1, hval⟩
      · left
        refine ⟨?_, hA0, h0⟩
        intro u hu hqu
        rw [List.mem_append, List.mem_singleton] at hu
        rcases hu with hu | rfl
        · exact hall u hu hqu
        · rw [h0] at hc
          by_contra hcon
          exact hc ⟨hqu, not_le.1 hcon⟩
      · right
        refine ⟨pre, t, post ++ [x], by rw [hl]; simp, hq, hpos, hpre, ?_, hA1, hval⟩
        intro u hu hqu
        rw [List.mem_append, List.mem_singleton] at hu
        rcases hu with hu | rfl
        · exact hpost u hu hqu
        · rw [hval] at hc
          by_contra hcon
          exact hc ⟨hqu, not_le.1 hcon⟩

/-- C18 (the leaderboard's largest position ignores quotes). For every list of a user's
trades, the address chosen as largest current position is never a quote token. When some
trade whose token_out is not a quote has a positive value current_token_out_usdt_rate *
token_out_amount, the address is the token_out of the first trade attaining the maximum
of that value among the trades whose token_out is not a quote; otherwise the address is
empty. -/
theorem largest_position_ignores_quotes (trade : List Tradelog) :
    IsQuote (leaderboardLoop trade).largestPositionAddress = false ∧
      ((∀ t ∈ trade, IsQuote t.TokenOutAddress = false →
          t.CurrentTokenOutUsdtRate * t.TokenOutAmount ≤ 0) →
        (leaderboardLoop trade).largestPositionAddress = "") ∧
      ((∃ t ∈ trade, IsQuote t.TokenOutAddress = false ∧
          0 < t.CurrentTokenOutUsdtRate * t.TokenOutAmount) →
        ∃ pre t post, trade = pre ++ t :: post ∧
          IsQuote t.TokenOutAddress = false ∧
          0 < t.CurrentTokenOutUsdtRate * t.TokenOutAmount ∧
          (∀ u ∈ pre, IsQuote u.TokenOutAddress = false →
            u.CurrentTokenOutUsdtRate * u.TokenOutAmount <
              t.CurrentTokenOutUsdtRate * t.TokenOutAmount) ∧
          (∀ u ∈ post, IsQuote u.TokenOutAddress = false →
            u.CurrentTokenOutUsdtRate * u.TokenOutAmount ≤
              t.CurrentTokenOutUsdtRate * t.TokenOutAmount) ∧
          (leaderboardLoop trade).largestPositionAddress = t.TokenOutAddress) := by
  have h := leaderboardLoop_largest trade
  simp only [IsQuote_ToLower] at h
  refine ⟨?_, ?_, ?_⟩
  · rcases h with ⟨_, hA, _⟩ | ⟨pre, t, post, _, hq, _, _, _, hA, _⟩
    · rw [hA]
      decide
    · rw [hA]
      exact hq
  · intro hall
    rcases h with ⟨_, hA, _⟩ | ⟨pre, t, post, hl, hq, hpos, _, _, _, _⟩
    · exact hA
    · have := hall t (by rw [hl]; simp) hq
      exact absurd hpos (not_lt.2 this)
  · rintro ⟨t0, ht0, hq0, hpos0⟩
    rcases h with ⟨hall, _, _⟩ | ⟨pre, t, post, hl, hq, hpos, hpre, hpost, hA, _⟩
    · exact absurd hpos0 (not_lt.2 (hall t0 ht0 hq0))
    · exact ⟨pre, t, post, hl, hq, hpos, hpre, hpost, hA⟩

/-- Witness of C18: scenario 6. The user buys a quote token (USDC) with value 10 and 0xZ
with value 5; the largest current position is 0xZ. -/
theorem largest_position_ignores_quotes_witness :
    (∃ t ∈ scenarioLeaderboardTrades, IsQuote t.TokenOutAddress = false ∧
      0 < t.CurrentTokenOutUsdtRate * t.TokenOutAmount) ∧
    (∃ pre t post, scenarioLeaderboardTrades = pre ++ t :: post ∧
      IsQuote t.TokenOutAddress = false ∧
      0 < t.CurrentTokenOutUsdtRate * t.TokenOutAmount ∧
      (∀ u ∈ pre, IsQuote u.TokenOutAddress = false →
        u.CurrentTokenOutUsdtRate * u.TokenOutAmount <
          t.CurrentTokenOutUsdtRate * t.TokenOutAmount) ∧
      (∀ u ∈ post, IsQuote u.TokenOutAddress = false →
        u.CurrentTokenOutUsdtRate * u.TokenOutAmount ≤
          t.CurrentTokenOutUsdtRate * t.TokenOutAmount) ∧
      (leaderboardLoop scenarioLeaderboardTrades).largestPositionAddress =
        t.TokenOutAddress) ∧
    scenarioLeaderboardTrades.map
        (fun t => (IsQuote t.TokenOutAddress,
          t.CurrentTokenOutUsdtRate * t.TokenOutAmount)) = [(true, 10), (false, 5)] ∧
    (leaderboardLoop scenarioLeaderboardTrades).largestPositionAddress = "0xZ" :=
  ⟨⟨scenarioBuy "0xZ" 5, by simp [scenarioLeaderboardTrades], by decide,
      by with_unfolding_all decide⟩,
    (largest_position_ignores_quotes scenarioLeaderboardTrades).2.2
      ⟨scenarioBuy "0xZ" 5, by simp [scenarioLeaderboardTrades], by decide,
        by with_unfolding_all decide⟩,
    by with_unfolding_all rfl, by with_unfolding_all rfl⟩

/-! ## C19: the most bought and the most sold token -/

theorem leaderboardStep_most (v : LeaderboardVars) (tra : Tradelog) :
    (leaderboardStep v tra).mostTokenIn =
        v.mostTokenIn.add (ToLower tra.TokenOutAddress)
          (tra.CurrentTokenOutUsdtRate * tra.TokenOutAmount) ∧
      (leaderboardStep v tra).mostTokenInValue =
        (if v.mostTokenInValue <
            (v.mostTokenIn.add (ToLower tra.TokenOutAddress)
              (tra.CurrentTokenOutUsdtRate * tra.TokenOutAmount)).get
              (ToLower tra.TokenOutAddress)
          then (v.mostTokenIn.add (ToLower tra.TokenOutAddress)
              (tra.CurrentTokenOutUsdtRate * tra.TokenOutAmount)).get
              (ToLower tra.TokenOutAddress)
          else v.mostTokenInValue) ∧
      (leaderboardStep v tra).mostTokenInAddress =
        (if v.mostTokenInValue <
            (v.mostTokenIn.add (ToLower tra.TokenOutAddress)
              (tra.CurrentTokenOutUsdtRate * tra.TokenOutAmount)).get
              (ToLower tra.TokenOutAddress)
          then tra.TokenOutAddress else v.mostTokenInAddress) ∧
      (leaderboardStep v tra).mostTokenOut =
        v.mostTokenOut.add (ToLower tra.TokenInAddress)
          (tra.CurrentTokenInUsdtRate * tra.TokenInAmount) ∧
      (leaderboardStep v tra).mostTokenOutValue =
        (if v.mostTokenOutValue <
            (v.mostTokenOut.add (ToLower tra.TokenInAddress)
              (tra.CurrentTokenInUsdtRate * tra.TokenInAmount)).get
              (ToLower tra.TokenInAddress)
          then (v.mostTokenOut.add (ToLower tra.TokenInAddress)
              (tra.CurrentTokenInUsdtRate * tra.TokenInAmount)).get
              (ToLower tra.TokenInAddress)
          else v.mostTokenOutValue) ∧
      (leaderboardStep v tra).mostTokenOutAddress =
        (if v.mostTokenOutValue <
            (v.mostTokenOut.add (ToLower tra.TokenInAddress)
              (tra.CurrentTokenInUsdtRate * tra.TokenInAmount)).get
              (ToLower tra.TokenInAddress)
          then tra.TokenInAddress else v.mostTokenOutAddress) := by
  unfold leaderboardStep
  simp only
  split_ifs <;> exact ⟨rfl, rfl, rfl, rfl, rfl, rfl⟩

/-- One step of a running maximum over accumulated totals: the map m holds the totals,
M is the largest total seen and A an address whose lower-casing has that total. -/
theorem running_max_step (m : GoMap ℚ) (M : ℚ) (A : String) (total : String → ℚ)
    (a : String) (x : ℚ) (hx : 0 ≤ x) (h1 : ∀ j, m.get j = total j) (h2 : ∀ j, total j ≤ M)
    (h3 : 0 < M → total (ToLower A) = M) :
    (∀ j, (m.add (ToLower a) x).get j = total j + (if ToLower a = j then x else 0)) ∧
      (∀ j, total j + (if ToLower a = j then x else 0) ≤
        (if M < (m.add (ToLower a) x).get (ToLower a) then (m.add (ToLower a) x).get (ToLower a)
          else M)) ∧
      (0 < (if M < (m.add (ToLower a) x).get (ToLower a)
          then (m.add (ToLower a) x).get (ToLower a) else M) →
        total (ToLower (if M < (m.add (ToLower a) x).get (ToLower a) then a else A)) +
            (if ToLower a = ToLower (if M < (m.add (ToLower a) x).get (ToLower a) then a else A)
              then x else 0) =
          (if M < (m.add (ToLower a) x).get (ToLower a) then (m.add (ToLower a) x).get (ToLower a)
            else M)) := by
  have hget : ∀ j, (m.add (ToLower a) x).get j = total j + (if ToLower a = j then x else 0) := by
    intro j
    rw [GoMap.get_add, h1]
  have hself : (m.add (ToLower a) x).get (ToLower a) = total (ToLower a) + x := by
    rw [hget, if_pos rfl]
  refine ⟨hget, ?_, ?_⟩
  · intro j
    rw [hself]
    by_cases hj : ToLower a = j
    · subst hj
      rw [if_pos rfl]
      split_ifs with hc
      · exact le_refl _
      · exact not_lt.1 hc
    · rw [if_neg hj, add_zero]
      split_ifs with hc
      · exact le_trans (h2 j) (le_of_lt hc)
      · exact h2 j
  · rw [hself]
    by_cases hc : M < total (ToLower a) + x
    · simp only [if_pos hc, if_true]
      intro _
      trivial
    · simp only [if_neg hc]
      intro hM
      have hA := h3 hM
      by_cases hj : ToLower a = ToLower A
      · rw [if_pos hj, hA]
        have h5 : total (ToLower a) + x ≤ M := not_lt.1 hc
        rw [hj, hA] at h5
        linarith
      · rw [if_neg hj, add_zero, hA]

theorem sum_map_concat {α : Type} (f : α → ℚ) (l : List α) (x : α) :
    ((l ++ [x]).map f).sum = (l.map f).sum + f x := by
  simp

theorem leaderboardLoop_most (trade : List Tradelog)
    (hnn : ∀ t ∈ trade, 0 ≤ t.CurrentTokenOutUsdtRate * t.TokenOutAmount ∧
      0 ≤ t.CurrentTokenInUsdtRate * t.TokenInAmount) :
    ((∀ j, (leaderboardLoop trade).mostTokenIn.get j =
          (trade.map (fun t => if ToLower t.TokenOutAddress = j
            then t.CurrentTokenOutUsdtRate * t.TokenOutAmount else 0)).sum) ∧
        (∀ j, (trade.map (fun t => if ToLower t.TokenOutAddress = j
            then t.CurrentTokenOutUsdtRate * t.TokenOutAmount else 0)).sum ≤
          (leaderboardLoop trade).mostTokenInValue) ∧
        (0 < (leaderboardLoop trade).mostTokenInValue →
          (trade.map (fun t =>
            if ToLower t.TokenOutAddress = ToLower (leaderboardLoop trade).mostTokenInAddress
            then t.CurrentTokenOutUsdtRate * t.TokenOutAmount else 0)).sum =
            (leaderboardLoop trade).mostTokenInValue)) ∧
      ((∀ j, (leaderboardLoop trade).mostTokenOut.get j =
          (trade.map (fun t => if ToLower t.TokenInAddress = j
            then t.CurrentTokenInUsdtRate * t.TokenInAmount else 0)).sum) ∧
        (∀ j, (trade.map (fun t => if ToLower t.TokenInAddress = j
            then t.CurrentTokenInUsdtRate * t.TokenInAmount else 0)).sum ≤
          (leaderboardLoop trade).mostTokenOutValue) ∧
        (0 < (leaderboardLoop trade).mostTokenOutValue →
          (trade.map (fun t =>
            if ToLower t.TokenInAddress = ToLower (leaderboardLoop trade).mostTokenOutAddress
            then t.CurrentTokenInUsdtRate * t.TokenInAmount else 0)).sum =
            (leaderboardLoop trade).mostTokenOutValue)) := by
  induction trade using List.reverseRecOn with
  | nil =>
    refine ⟨⟨fun j => rfl, fun j => le_refl _, fun h => absurd h (lt_irrefl _)⟩,
      ⟨fun j => rfl, fun j => le_refl _, fun h => absurd h (lt_irrefl _)⟩⟩
  | append_singleton l x ih =>
    have hx := hnn x (by simp)
    obtain ⟨⟨a1, a2, a3⟩, ⟨b1, b2, b3⟩⟩ := ih (fun t ht => hnn t (by simp [ht]))
    obtain ⟨e1, e2, e3, e4, e5, e6⟩ := leaderboardStep_most (leaderboardLoop l) x
    rw [leaderboardLoop_concat, e1, e2, e3, e4, e5, e6]
    simp only [sum_map_concat]
    exact ⟨running_max_step _ _ _ _ x.TokenOutAddress _ hx.1 a1 a2 a3,
      running_max_step _ _ _ _ x.TokenInAddress _ hx.2 b1 b2 b3⟩

/-- C19 (most bought and most sold token of the leaderboard). For every list of a user's
trades whose amounts and current rates are non-negative: if some token's total of
current_token_out_usdt_rate * token_out_amount over the trades, keyed by the lower-cased
token_out, is positive, then the lower-cased most-bought address is a token whose total
is maximal among all tokens; symmetrically the lower-cased most-sold address maximises
the total of current_token_in_usdt_rate * token_in_amount keyed by the lower-cased
token_in. -/
theorem most_bought_and_sold_are_maximal (trade : List Tradelog)
    (hnn : ∀ t ∈ trade, 0 ≤ t.CurrentTokenOutUsdtRate ∧ 0 ≤ t.TokenOutAmount ∧
      0 ≤ t.CurrentTokenInUsdtRate ∧ 0 ≤ t.TokenInAmount) :
    ((∃ k, 0 < (trade.map (fun t => if ToLower t.TokenOutAddress = k
          then t.CurrentTokenOutUsdtRate * t.TokenOutAmount else 0)).sum) →
        ∀ j, (trade.map (fun t => if ToLower t.TokenOutAddress = j
            then t.CurrentTokenOutUsdtRate * t.TokenOutAmount else 0)).sum ≤
          (trade.map (fun t =>
            if ToLower t.TokenOutAddress = ToLower (leaderboardLoop trade).mostTokenInAddress
            then t.CurrentTokenOutUsdtRate * t.TokenOutAmount else 0)).sum) ∧
      ((∃ k, 0 < (trade.map (fun t => if ToLower t.TokenInAddress = k
          then t.CurrentTokenInUsdtRate * t.TokenInAmount else 0)).sum) →
        ∀ j, (trade.map (fun t => if ToLower t.TokenInAddress = j
            then t.CurrentTokenInUsdtRate * t.TokenInAmount else 0)).sum ≤
          (trade.map (fun t =>
            if ToLower t.TokenInAddress = ToLower (leaderboardLoop trade).mostTokenOutAddress
            then t.CurrentTokenInUsdtRate * t.TokenInAmount else 0)).sum) := by
  obtain ⟨⟨_, a2, a3⟩, ⟨_, b2, b3⟩⟩ := leaderboardLoop_most trade
    (fun t ht => ⟨mul_nonneg (hnn t ht).1 (hnn t ht).2.1,
      mul_nonneg (hnn t ht).2.2.1 (hnn t ht).2.2.2⟩)
  constructor
  · rintro ⟨k, hk⟩ j
    rw [a3 (lt_of_lt_of_le hk (a2 k))]
    exact a2 j
  · rintro ⟨k, hk⟩ j
    rw [b3 (lt_of_lt_of_le hk (b2 k))]
    exact b2 j

/-- Witness of C19: the trades of scenario 6 (USDC bought for 10, 0xZ for 5, each paid
with 1000 of 0xUSDC at rate 1); the most bought token is USDC and the most sold is
0xUSDC. -/
theorem most_bought_and_sold_are_maximal_witness :
    (∀ t ∈ scenarioLeaderboardTrades, 0 ≤ t.CurrentTokenOutUsdtRate ∧ 0 ≤ t.TokenOutAmount ∧
      0 ≤ t.CurrentTokenInUsdtRate ∧ 0 ≤ t.TokenInAmount) ∧
    (((∃ k, 0 < (scenarioLeaderboardTrades.map (fun t => if ToLower t.TokenOutAddress = k
          then t.CurrentTokenOutUsdtRate * t.TokenOutAmount else 0)).sum) →
        ∀ j, (scenarioLeaderboardTrades.map (fun t => if ToLower t.TokenOutAddress = j
            then t.CurrentTokenOutUsdtRate * t.TokenOutAmount else 0)).sum ≤
          (scenarioLeaderboardTrades.map (fun t =>
            if ToLower t.TokenOutAddress =
              ToLower (leaderboardLoop scenarioLeaderboardTrades).mostTokenInAddress
            then t.CurrentTokenOutUsdtRate * t.TokenOutAmount else 0)).sum) ∧
      ((∃ k, 0 < (scenarioLeaderboardTrades.map (fun t => if ToLower t.TokenInAddress = k
          then t.CurrentTokenInUsdtRate * t.TokenInAmount else 0)).sum) →
        ∀ j, (scenarioLeaderboardTrades.map (fun t => if ToLower t.TokenInAddress = j
            then t.CurrentTokenInUsdtRate * t.TokenInAmount else 0)).sum ≤
          (scenarioLeaderboardTrades.map (fun t =>
            if ToLower t.TokenInAddress =
              ToLower (leaderboardLoop scenarioLeaderboardTrades).mostTokenOutAddress
            then t.CurrentTokenInUsdtRate * t.TokenInAmount else 0)).sum)) ∧
    (leaderboardLoop scenarioLeaderboardTrades).mostTokenInAddress =
      "0xA0b86991c6218b36c1d19D4a2e9Eb0cE3606eB48" ∧
    (leaderboardLoop scenarioLeaderboardTrades).mostTokenOutAddress = "0xUSDC" :=
  ⟨by with_unfolding_all decide,
    most_bought_and_sold_are_maximal scenarioLeaderboardTrades (by with_unfolding_all decide),
    by with_unfolding_all rfl, by with_unfolding_all rfl⟩

/-! ## Lower-cased keys -/

theorem mem_keys_storeList {V : Type} (m : List (String × V)) (k : String) (v : V)
    (j : String) (h : j ∈ (GoMap.storeList m k v).map Prod.fst) :
    j = k ∨ j ∈ m.map Prod.fst := by
  induction m with
  | nil =>
    simp only [GoMap.storeList, List.map_cons, List.map_nil, List.mem_singleton] at h
    exact Or.inl h
  | cons a m ih =>
    obtain ⟨ka, va⟩ := a
    by_cases hk : ka = k
    · simp only [GoMap.storeList, hk, if_true, List.map_cons, List.mem_cons] at h ⊢
      rcases h with h | h
      · exact Or.inl h
      · exact Or.inr (Or.inr h)
    · simp only [GoMap.storeList, hk, if_false, List.map_cons, List.mem_cons] at h ⊢
      rcases h with h | h
      · exact Or.inr (Or.inl h)
      · rcases ih h with h | h
        · exact Or.inl h
        · exact Or.inr (Or.inr h)

theorem LowerKeys_empty {V : Type} : LowerKeys (GoMap.empty : GoMap V) := by
  intro k hk
  cases hk

theorem LowerKeys_store {V : Type} (m : GoMap V) (k : String) (v : V) (hm : LowerKeys m)
    (hk : ToLower k = k) : LowerKeys (m.store k v) := by
  intro j hj
  rcases mem_keys_storeList m.entries k v j hj with rfl | h
  · exact hk
  · exact hm j h

theorem LowerKeys_add (m : GoMap ℚ) (s : String) (v : ℚ) (hm : LowerKeys m) :
    LowerKeys (m.add (ToLower s) v) :=
  LowerKeys_store m _ _ hm (ToLower_ToLower s)

theorem LowerKeys_sub (m : GoMap ℚ) (s : String) (v : ℚ) (hm : LowerKeys m) :
    LowerKeys (m.sub (ToLower s) v) :=
  LowerKeys_store m _ _ hm (ToLower_ToLower s)

theorem tradeKey_lower (log : Tradelog) (f : TradeField) :
    ∃ s, tradeKey log f = ToLower s := by
  cases f <;> exact ⟨_, rfl⟩

theorem LowerKeys_addTradeToRange (e : Tradelog) (n : Nat) (r : TradeStorageByRange)
    (h : ∀ f, LowerKeys (r.field f)) : ∀ f, LowerKeys ((addTradeToRange e n r).field f) := by
  intro f
  rw [field_addTradeToRange]
  obtain ⟨s, hs⟩ := tradeKey_lower e f
  rw [hs]
  exact LowerKeys_add _ _ _ (h f)

theorem LowerKeys_subTrades (es : List Tradelog) (r : TradeStorageByRange)
    (h : ∀ f, LowerKeys (r.field f)) : ∀ f, LowerKeys ((subTrades es r).field f) := by
  induction es generalizing r with
  | nil => exact h
  | cons e es ih =>
    rw [subTrades_cons]
    apply ih
    intro f
    rw [field_subTradeFromRange]
    obtain ⟨s, hs⟩ := tradeKey_lower e f
    rw [hs]
    exact LowerKeys_sub _ _ _ (h f)

theorem LowerKeys_removeTradesRange (now : Time) (logs : List Tradelog)
    (r r1 : TradeStorageByRange) (h : ∀ f, LowerKeys (r.field f))
    (hr : removeTradesRange now logs r = some r1) : ∀ f, LowerKeys (r1.field f) := by
  rcases removeTradesRange_some now logs r r1 hr with ⟨_, rfl⟩ | ⟨_, _, _, hf⟩
  · exact h
  · intro f
    rw [hf f]
    exact LowerKeys_subTrades _ r h f

theorem LowerKeys_addTransferToRange (t : Transferlog) (n : Nat) (r : TransferStorageByRange)
    (h : TransferLowerKeys r) : TransferLowerKeys (addTransferToRange t n r) := by
  obtain ⟨h1, h2, h3, h4⟩ := h
  unfold addTransferToRange
  simp only
  split_ifs
  · exact ⟨LowerKeys_add _ _ _ h1, LowerKeys_add _ _ _ h2, h3, h4⟩
  · exact ⟨LowerKeys_add _ _ _ h1, LowerKeys_add _ _ _ h2, h3, h4⟩
  · exact ⟨h1, h2, LowerKeys_add _ _ _ h3, LowerKeys_add _ _ _ h4⟩
  · exact ⟨h1, h2, LowerKeys_add _ _ _ h3, LowerKeys_add _ _ _ h4⟩

theorem LowerKeys_subTransferFromRange (t : Transferlog) (r : TransferStorageByRange)
    (h : TransferLowerKeys r) : TransferLowerKeys (subTransferFromRange t r) := by
  obtain ⟨h1, h2, h3, h4⟩ := h
  unfold subTransferFromRange
  simp only
  split_ifs
  · exact ⟨LowerKeys_sub _ _ _ h1, LowerKeys_sub _ _ _ h2, h3, h4⟩
  · exact ⟨h1, h2, LowerKeys_sub _ _ _ h3, LowerKeys_sub _ _ _ h4⟩

theorem LowerKeys_subTransfers (es : List Transferlog) (r : TransferStorageByRange)
    (h : TransferLowerKeys r) : TransferLowerKeys (subTransfers es r) := by
  induction es generalizing r with
  | nil => exact h
  | cons e es ih =>
    rw [subTransfers_cons]
    exact ih _ (LowerKeys_subTransferFromRange e r h)

theorem LowerKeys_removeTransferRange (now : Time) (logs : List Transferlog)
    (r r1 : TransferStorageByRange) (h : TransferLowerKeys r)
    (hr : removeTransferRange now logs r = some r1) : TransferLowerKeys r1 := by
  rcases removeTransferRange_some now logs r r1 hr with ⟨_, rfl⟩ | ⟨_, _, _, e1, e2, e3, e4⟩
  · exact h
  · obtain ⟨h1, h2, h3, h4⟩ := LowerKeys_subTransfers (transfersToRetire now logs r) r h
    unfold TransferLowerKeys
    rw [e1, e2, e3, e4]
    exact ⟨h1, h2, h3, h4⟩

theorem LowerKeys_addDaily (series : GoMap TokenTransfer) (s date : String) (amount : ℚ)
    (h : LowerKeys series) : LowerKeys (addDaily series (ToLower s) date amount) := by
  unfold addDaily
  simp only
  apply LowerKeys_store _ _ _ _ (ToLower_ToLower s)
  split_ifs
  · exact LowerKeys_store _ _ _ h (ToLower_ToLower s)
  · exact h

theorem KeysInv_NewStorage : KeysInv NewStorage := by
  refine ⟨?_, ?_, LowerKeys_empty, LowerKeys_empty, LowerKeys_empty⟩
  · intro r hr f
    simp only [NewStorage, List.mem_cons, List.mem_singleton, List.not_mem_nil, or_false] at hr
    rcases hr with rfl | rfl | rfl | rfl | rfl <;> cases f <;> exact LowerKeys_empty
  · intro r hr
    simp only [NewStorage, List.mem_cons, List.mem_singleton, List.not_mem_nil, or_false] at hr
    rcases hr with rfl | rfl | rfl | rfl | rfl <;>
      exact ⟨LowerKeys_empty, LowerKeys_empty, LowerKeys_empty, LowerKeys_empty⟩

theorem KeysInv_addTradeLog (c : ChainData) (e : Tradelog) (h : KeysInv c) :
    KeysInv (addTradeLog c e) := by
  obtain ⟨h1, h2, h3, h4, h5⟩ := h
  obtain ⟨_, f2, f3, f4, f5⟩ := addTradeLog_frame c e
  refine ⟨?_, by rw [f2]; exact h2, ?_, by rw [f3]; exact h4, by rw [f4]; exact h5⟩
  · rcases addTradeLog_tradeDataRange_any c e with hr | hr
    · rw [hr]; exact h1
    · rw [hr]
      intro r hmem
      obtain ⟨r0, hr0, rfl⟩ := List.mem_map.1 hmem
      exact LowerKeys_addTradeToRange e _ r0 (h1 r0 hr0)
  · rw [f5]
    exact LowerKeys_store _ _ _ (LowerKeys_store _ _ _ h3 (ToLower_ToLower _))
      (ToLower_ToLower _)

theorem addTransferLog_daily_any (c : ChainData) (t : Transferlog) :
    ((addTransferLog c t).tokenDeposit = c.tokenDeposit ∨
        (addTransferLog c t).tokenDeposit =
          addDaily c.tokenDeposit (ToLower t.TokenAddress) (formatDate t.BlockTimestamp)
            t.TokenAmount) ∧
      ((addTransferLog c t).tokenWithdraw = c.tokenWithdraw ∨
        (addTransferLog c t).tokenWithdraw =
          addDaily c.tokenWithdraw (ToLower t.TokenAddress) (formatDate t.BlockTimestamp)
            t.TokenAmount) := by
  cases hf : t.GetCurrentRateFail with
  | true =>
    rw [addTransferLog_fail c t hf]
    exact ⟨Or.inl rfl, Or.inl rfl⟩
  | false =>
    obtain ⟨hd, hw⟩ := addTransferLog_daily c t hf
    rw [hd, hw]
    split_ifs
    · exact ⟨Or.inr rfl, Or.inl rfl⟩
    · exact ⟨Or.inl rfl, Or.inr rfl⟩

theorem KeysInv_addTransferLog (c : ChainData) (t : Transferlog) (h : KeysInv c) :
    KeysInv (addTransferLog c t) := by
  obtain ⟨h1, h2, h3, h4, h5⟩ := h
  obtain ⟨_, f2, f3⟩ := addTransferLog_frame c t
  obtain ⟨hd, hw⟩ := addTransferLog_daily_any c t
  refine ⟨by rw [f2]; exact h1, ?_, ?_, ?_, ?_⟩
  · rcases addTransferLog_transferDataRange_any c t with hr | hr
    · rw [hr]; exact h2
    · rw [hr]
      intro r hmem
      obtain ⟨r0, hr0, rfl⟩ := List.mem_map.1 hmem
      exact LowerKeys_addTransferToRange t _ r0 (h2 r0 hr0)
  · rw [f3]
    exact LowerKeys_store _ _ _ h3 (ToLower_ToLower _)
  · rcases hd with hd | hd
    · rw [hd]; exact h4
    · rw [hd]; exact LowerKeys_addDaily _ _ _ _ h4
  · rcases hw with hw | hw
    · rw [hw]; exact h5
    · rw [hw]; exact LowerKeys_addDaily _ _ _ _ h5

theorem KeysInv_of_reachable (c : ChainData) (hc : Reachable c) : KeysInv c := by
  refine Reachable_induction KeysInv KeysInv_NewStorage KeysInv_addTradeLog
    KeysInv_addTransferLog ?_ ?_ c hc
  · intro now c c1 ⟨h1, h2, h3, h4, h5⟩ hr
    obtain ⟨rs, rfl, hrs⟩ := (RemoveTrades_iff now c c1).1 hr
    refine ⟨?_, h2, h3, h4, h5⟩
    exact forall₂_forall hrs
      (fun a b hab ha => LowerKeys_removeTradesRange now c.tradeLogs a b ha hab) h1
  · intro now c c1 ⟨h1, h2, h3, h4, h5⟩ hr
    obtain ⟨rs, rfl, hrs⟩ := (RemoveTransfer_iff now c c1).1 hr
    refine ⟨h1, ?_, h3, h4, h5⟩
    exact forall₂_forall hrs
      (fun a b hab ha => LowerKeys_removeTransferRange now c.transferLogs a b ha hab) h2

/-! ## C20: the keys of the aggregate maps are lower-cased -/

/-- C20 (invariant I4). In every state reachable from NewStorage by AddTradeLogs,
AddTransferLogs, RemoveTrades and RemoveTransfer, whatever the letter case of the input
addresses, every key of each of the six maps of every trade window, every key of each of
the four maps of every transfer window, every member of the token set and every token key
of the two daily series is equal to its own lower-casing. -/
theorem aggregate_keys_are_lower_cased (c : ChainData) (hc : Reachable c) :
    (∀ r ∈ c.tradeDataRange, ∀ k,
        (k ∈ r.UserProfit.keys ∨ k ∈ r.TokenProfit.keys ∨ k ∈ r.TokenInFlowInUsdt.keys ∨
          k ∈ r.TokenInFlow.keys ∨ k ∈ r.TokenOutFlowInUsdt.keys ∨ k ∈ r.TokenOutFlow.keys) →
        ToLower k = k) ∧
      (∀ r ∈ c.transferDataRange, ∀ k,
        (k ∈ r.CexInFlow.keys ∨ k ∈ r.CexInFlowInUsdt.keys ∨ k ∈ r.CexOutFlow.keys ∨
          k ∈ r.CexOutFlowInUsdt.keys) →
        ToLower k = k) ∧
      (∀ k ∈ c.tokens.keys, ToLower k = k) ∧
      (∀ k ∈ c.tokenDeposit.keys, ToLower k = k) ∧
      (∀ k ∈ c.tokenWithdraw.keys, ToLower k = k) := by
  obtain ⟨h1, h2, h3, h4, h5⟩ := KeysInv_of_reachable c hc
  refine ⟨?_, ?_, h3, h4, h5⟩
  · intro r hr k hk
    rcases hk with hk | hk | hk | hk | hk | hk
    · exact h1 r hr .userProfit k hk
    · exact h1 r hr .tokenProfit k hk
    · exact h1 r hr .tokenInFlowInUsdt k hk
    · exact h1 r hr .tokenInFlow k hk
    · exact h1 r hr .tokenOutFlowInUsdt k hk
    · exact h1 r hr .tokenOutFlow k hk
  · intro r hr k hk
    obtain ⟨g1, g2, g3, g4⟩ := h2 r hr
    rcases hk with hk | hk | hk | hk
    · exact g1 k hk
    · exact g2 k hk
    · exact g3 k hk
    · exact g4 k hk

/-- Witness of C20: the state of scenario 3, reached with the mixed-case input addresses
"0xA", "0xUSDC" and "0xZ"; its token set is "0xusdc", "0xz". -/
theorem aggregate_keys_are_lower_cased_witness :
    Reachable scenarioExpiredState ∧
    ((∀ r ∈ scenarioExpiredState.tradeDataRange, ∀ k,
        (k ∈ r.UserProfit.keys ∨ k ∈ r.TokenProfit.keys ∨ k ∈ r.TokenInFlowInUsdt.keys ∨
          k ∈ r.TokenInFlow.keys ∨ k ∈ r.TokenOutFlowInUsdt.keys ∨ k ∈ r.TokenOutFlow.keys) →
        ToLower k = k) ∧
      (∀ r ∈ scenarioExpiredState.transferDataRange, ∀ k,
        (k ∈ r.CexInFlow.keys ∨ k ∈ r.CexInFlowInUsdt.keys ∨ k ∈ r.CexOutFlow.keys ∨
          k ∈ r.CexOutFlowInUsdt.keys) →
        ToLower k = k) ∧
      (∀ k ∈ scenarioExpiredState.tokens.keys, ToLower k = k) ∧
      (∀ k ∈ scenarioExpiredState.tokenDeposit.keys, ToLower k = k) ∧
      (∀ k ∈ scenarioExpiredState.tokenWithdraw.keys, ToLower k = k)) ∧
    scenarioExpiredState.tokens.keys = ["0xusdc", "0xz"] ∧
    (scenarioExpiredState.tradeDataRange.map (fun r => r.UserProfit.keys)).head? =
      some ["0xa"] :=
  ⟨Reachable_scenarioExpiredState,
    aggregate_keys_are_lower_cased scenarioExpiredState Reachable_scenarioExpiredState,
    by with_unfolding_all rfl, by with_unfolding_all rfl⟩

/-! ## C21: the address of the user-balances query -/

/-- C21, the code at the failing input. After the trade of scenario 1 (sender 0xA) is
added to a fresh engine, the 24h trade window holds the profit 200 at the lower-cased key
0xa. Whatever the token metadata and the stored balances are, the user-balances query for
the address spelt 0xA reports the profit 0 and the query for the spelling 0xa reports 200:
the profit is read at the address as the request spells it, while the key of the balance
read of the same handler is lower-cased. -/
theorem getUserBalances_reads_address_as_spelt :
    (∃ w, GetTradeLogs (AddTradeLogs NewStorage [scenarioTrade]) (Hour * 24) = Except.ok w ∧
      w.UserProfit.get (ToLower "0xA") = 200) ∧
    ToLower "0xA" = "0xa" ∧
    (∀ info db, ∃ res,
      getUserBalances (AddTradeLogs NewStorage [scenarioTrade]) info db Chain.ChainBase "0xA" =
        Except.ok res ∧ res.Profit = 0) ∧
    (∀ info db, ∃ res,
      getUserBalances (AddTradeLogs NewStorage [scenarioTrade]) info db Chain.ChainBase "0xa" =
        Except.ok res ∧ res.Profit = 200) := by
  have hget : ∃ w, GetTradeLogs (AddTradeLogs NewStorage [scenarioTrade]) (Hour * 24) =
      Except.ok w ∧ w.UserProfit.get "0xA" = 0 ∧ w.UserProfit.get "0xa" = 200 :=
    ⟨_, by with_unfolding_all rfl, by with_unfolding_all rfl, by with_unfolding_all rfl⟩
  obtain ⟨w, hw, h0, h200⟩ := hget
  refine ⟨⟨w, hw, ?_⟩, by with_unfolding_all rfl, ?_, ?_⟩
  · have e : ToLower "0xA" = "0xa" := by with_unfolding_all rfl
    rw [e]
    exact h200
  · intro info db
    unfold getUserBalances
    rw [hw]
    exact ⟨_, rfl, h0⟩
  · intro info db
    unfold getUserBalances
    rw [hw]
    exact ⟨_, rfl, h200⟩

/-! ## C22: appends preserve the order of the logs -/

theorem addTradeLog_tradeLogs_any (c : ChainData) (e : Tradelog) :
    (addTradeLog c e).tradeLogs =
      c.tradeLogs ++ [e].filter (fun x => decide (x.GetCurrentRateFail = false)) := by
  cases hf : e.GetCurrentRateFail with
  | true => rw [addTradeLog_fail c e hf]; simp [hf]
  | false => rw [addTradeLog_tradeLogs c e hf]; simp [hf]

theorem AddTradeLogs_tradeLogs (c : ChainData) (logs : List Tradelog) :
    (AddTradeLogs c logs).tradeLogs =
      c.tradeLogs ++ logs.filter (fun x => decide (x.GetCurrentRateFail = false)) := by
  induction logs generalizing c with
  | nil => simp [AddTradeLogs_nil]
  | cons e es ih =>
    rw [AddTradeLogs_cons, ih, addTradeLog_tradeLogs_any, List.append_assoc, ← List.filter_append]
    rfl

theorem addTransferLog_transferLogs_any (c : ChainData) (t : Transferlog) :
    (addTransferLog c t).transferLogs =
      c.transferLogs ++ [t].filter (fun x => decide (x.GetCurrentRateFail = false)) := by
  cases hf : t.GetCurrentRateFail with
  | true => rw [addTransferLog_fail c t hf]; simp [hf]
  | false =>
    unfold addTransferLog
    simp only [hf, Bool.false_eq_true, if_false]
    split_ifs <;> simp [hf]

theorem AddTransferLogs_transferLogs (c : ChainData) (logs : List Transferlog) :
    (AddTransferLogs c logs).transferLogs =
      c.transferLogs ++ logs.filter (fun x => decide (x.GetCurrentRateFail = false)) := by
  induction logs generalizing c with
  | nil => simp [AddTransferLogs]
  | cons t ts ih =>
    rw [AddTransferLogs_cons, ih, addTransferLog_transferLogs_any, List.append_assoc,
      ← List.filter_append]
    rfl

theorem pairwise_append_filter {α : Type} (bn : α → Nat) (p : α → Bool) (l1 l2 : List α)
    (h1 : l1.Pairwise (fun a b => bn a ≤ bn b)) (h2 : l2.Pairwise (fun a b => bn a ≤ bn b))
    (h : ∀ a b, l1.getLast? = some a → l2.head? = some b → bn a ≤ bn b) :
    (l1 ++ l2.filter p).Pairwise (fun a b => bn a ≤ bn b) := by
  rw [List.pairwise_append]
  refine ⟨h1, h2.sublist (List.filter_sublist _), ?_⟩
  intro a ha b hb
  have hb2 : b ∈ l2 := List.mem_of_mem_filter hb
  cases l2 with
  | nil => cases hb2
  | cons x l2 =>
    have hl1 : l1 ≠ [] := by
      intro h0
      rw [h0] at ha
      cases ha
    have hlast := h (l1.getLast hl1) x (List.getLast?_eq_getLast _ hl1) rfl
    have ha_le := pairwise_le_getLast bn l1 (l1.getLast hl1) h1
      (List.getLast?_eq_getLast _ hl1) a ha
    rw [List.pairwise_cons] at h2
    rcases List.mem_cons.1 hb2 with rfl | hb3
    · omega
    · have := h2.1 b hb3
      omega

/-- C22 (invariant I1, appends preserve order). For every engine state and every batch,
AddTradeLogs makes the trade log the old log followed by the events of the batch whose
get_current_rate_fail is false, in batch order; so when the old log and the batch are each
sorted non-decreasingly by block number and the first block number of the batch is at
least the last of the log, the new log is sorted non-decreasingly by block number. The
same holds of AddTransferLogs and the transfer log. -/
theorem appends_preserve_order (c : ChainData) (logs : List Tradelog)
    (transfers : List Transferlog) :
    ((AddTradeLogs c logs).tradeLogs =
        c.tradeLogs ++ logs.filter (fun e => decide (e.GetCurrentRateFail = false)) ∧
      (c.tradeLogs.Pairwise (fun a b => a.BlockNumber ≤ b.BlockNumber) →
        logs.Pairwise (fun a b => a.BlockNumber ≤ b.BlockNumber) →
        (∀ a b, c.tradeLogs.getLast? = some a → logs.head? = some b →
          a.BlockNumber ≤ b.BlockNumber) →
        (AddTradeLogs c logs).tradeLogs.Pairwise (fun a b => a.BlockNumber ≤ b.BlockNumber))) ∧
    ((AddTransferLogs c transfers).transferLogs =
        c.transferLogs ++ transfers.filter (fun e => decide (e.GetCurrentRateFail = false)) ∧
      (c.transferLogs.Pairwise (fun a b => a.BlockNumber ≤ b.BlockNumber) →
        transfers.Pairwise (fun a b => a.BlockNumber ≤ b.BlockNumber) →
        (∀ a b, c.transferLogs.getLast? = some a → transfers.head? = some b →
          a.BlockNumber ≤ b.BlockNumber) →
        (AddTransferLogs c transfers).transferLogs.Pairwise
          (fun a b => a.BlockNumber ≤ b.BlockNumber))) := by
  refine ⟨⟨AddTradeLogs_tradeLogs c logs, ?_⟩, ⟨AddTransferLogs_transferLogs c transfers, ?_⟩⟩
  · intro h1 h2 h3
    rw [AddTradeLogs_tradeLogs]
    exact pairwise_append_filter Tradelog.BlockNumber _ _ _ h1 h2 h3
  · intro h1 h2 h3
    rw [AddTransferLogs_transferLogs]
    exact pairwise_append_filter Transferlog.BlockNumber _ _ _ h1 h2 h3

/-- Witness of C22: the later trade (block 101), preceded by a rate-fail trade, and the
transfer of scenario 4 (block 200) are appended to the state of the expiry scenario, whose
trade log holds the trade of block 100 and whose transfer log is empty; the new logs hold
the blocks 100, 101 and 200 and are sorted. -/
theorem appends_preserve_order_witness :
    (AddTradeLogs scenarioExpiredState [scenarioRateFailTrade, scenarioLaterTrade]).tradeLogs =
      [scenarioTrade, scenarioLaterTrade] ∧
    (AddTradeLogs scenarioExpiredState
      [scenarioRateFailTrade, scenarioLaterTrade]).tradeLogs.Pairwise
        (fun a b => a.BlockNumber ≤ b.BlockNumber) ∧
    (AddTransferLogs scenarioExpiredState [scenarioTransfer]).transferLogs.Pairwise
      (fun a b => a.BlockNumber ≤ b.BlockNumber) :=
  ⟨by with_unfolding_all rfl,
    (appends_preserve_order scenarioExpiredState [scenarioRateFailTrade, scenarioLaterTrade]
      [scenarioTransfer]).1.2 (by with_unfolding_all decide) (by with_unfolding_all decide)
      (fun a b ha hb => by
        have e : scenarioExpiredState.tradeLogs.getLast? = some scenarioTrade := by
          with_unfolding_all rfl
        rw [e] at ha
        cases ha
        cases hb
        with_unfolding_all decide),
    (appends_preserve_order scenarioExpiredState [scenarioRateFailTrade, scenarioLaterTrade]
      [scenarioTransfer]).2.2 (by with_unfolding_all decide) (by with_unfolding_all decide)
      (fun a b ha hb => by
        have e : scenarioExpiredState.transferLogs.getLast? = none := by
          with_unfolding_all rfl
        rw [e] at ha
        cases ha)⟩

/-! ## C23: the cursor of the retire loop -/

theorem takeWhile_eq_take_length {α : Type} (p : α → Bool) (l : List α) :
    l.takeWhile p = l.take (l.takeWhile p).length := by
  have h := takeWhile_append_drop_length p l
  have h1 := List.take_left (l.takeWhile p) (l.drop (l.takeWhile p).length)
  rw [h] at h1
  exact h1.symm

theorem getElem?_length_takeWhile {α : Type} (p : α → Bool) (l : List α) (e : α)
    (h : l[(l.takeWhile p).length]? = some e) : p e = false := by
  induction l with
  | nil => simp at h
  | cons a l ih =>
    by_cases ha : p a = true
    · simp only [List.takeWhile_cons, ha, if_true, List.length_cons, List.getElem?_cons_succ] at h
      exact ih h
    · simp only [List.takeWhile_cons, ha, Bool.false_eq_true, if_false, List.length_nil,
        List.getElem?_cons_zero, Option.some.injEq] at h
      subst h
      simpa using ha

theorem getElem?_lt_length_takeWhile {α : Type} (p : α → Bool) (l : List α) (j : Nat) (e : α)
    (hj : j < (l.takeWhile p).length) (h : l[j]? = some e) : p e = true := by
  have h1 : (l.takeWhile p)[j]? = some e := by
    rw [takeWhile_eq_take_length p l, List.getElem?_take_of_lt hj]
    exact h
  exact List.mem_takeWhile_imp (List.getElem?_mem h1)

theorem removeTradesRange_cursor (now : Time) (logs : List Tradelog) (r r' : TradeStorageByRange)
    (h0 : 0 ≤ r.StartIndex) (hlen : r.StartIndex ≤ logs.length)
    (h : removeTradesRange now logs r = some r') :
    (r.StartIndex ≤ r'.StartIndex ∧ r'.StartIndex ≤ logs.length) ∧
      (r'.StartIndex = logs.length ∨
        ∃ e, logs[r'.StartIndex.toNat]? = some e ∧ Since now e.BlockTimestamp ≤ r.duration) ∧
      (∀ (j : Nat) e, r.StartIndex ≤ (j : Int) → (j : Int) < r'.StartIndex → logs[j]? = some e →
        r.duration < Since now e.BlockTimestamp) ∧
      (∀ f, r'.field f =
        (subTrades ((logs.drop r.StartIndex.toNat).take (r'.StartIndex - r.StartIndex).toNat)
          r).field f) ∧
      r'.duration = r.duration := by
  rcases removeTradesRange_some now logs r r' h with ⟨hneg, _⟩ | ⟨_, hS, hd, hf⟩
  · omega
  · have hle := length_tradesToRetire_le now logs r
    have htake : tradesToRetire now logs r =
        (logs.drop r.StartIndex.toNat).take (r'.StartIndex - r.StartIndex).toNat := by
      have e : (r'.StartIndex - r.StartIndex).toNat = (tradesToRetire now logs r).length := by
        omega
      rw [e]
      exact takeWhile_eq_take_length _ _
    refine ⟨⟨by omega, by omega⟩, ?_, ?_, ?_, hd⟩
    · by_cases hend : r'.StartIndex = logs.length
      · exact Or.inl hend
      · right
        have hlt : r'.StartIndex.toNat < logs.length := by omega
        refine ⟨logs[r'.StartIndex.toNat], List.getElem?_eq_getElem hlt, ?_⟩
        have hget : (logs.drop r.StartIndex.toNat)[((logs.drop r.StartIndex.toNat).takeWhile
            (tradeExpired now r.duration)).length]? = some logs[r'.StartIndex.toNat] := by
          rw [List.getElem?_drop]
          have e : r.StartIndex.toNat + ((logs.drop r.StartIndex.toNat).takeWhile
              (tradeExpired now r.duration)).length = r'.StartIndex.toNat := by
            unfold tradesToRetire at hS
            omega
          rw [e]
          exact List.getElem?_eq_getElem hlt
        have := getElem?_length_takeWhile _ _ _ hget
        simpa [tradeExpired] using this
    · intro j e hj1 hj2 hje
      have hget : (logs.drop r.StartIndex.toNat)[j - r.StartIndex.toNat]? = some e := by
        rw [List.getElem?_drop]
        have e' : r.StartIndex.toNat + (j - r.StartIndex.toNat) = j := by omega
        rw [e']
        exact hje
      have hjlt : j - r.StartIndex.toNat <
          ((logs.drop r.StartIndex.toNat).takeWhile (tradeExpired now r.duration)).length := by
        unfold tradesToRetire at hS
        omega
      have := getElem?_lt_length_takeWhile _ _ _ _ hjlt hget
      simp only [tradeExpired, decide_eq_true_eq] at this
      omega
    · intro f
      rw [hf f, htake]

theorem forall₂_imp_of_mem {α β : Type} {R S : α → β → Prop} {l : List α} {l' : List β}
    (h : List.Forall₂ R l l') (hRS : ∀ a ∈ l, ∀ b, R a b → S a b) : List.Forall₂ S l l' := by
  induction h with
  | nil => exact List.Forall₂.nil
  | cons hab _ ih =>
    exact List.Forall₂.cons (hRS _ (List.mem_cons_self _ _) _ hab)
      (ih (fun a ha b hR => hRS a (List.mem_cons_of_mem _ ha) b hR))

/-- C23 (retirement cursor). Take a state in which every trade window has its start index
between -1 and the length of the trade log (as in every reachable state), and a clock
reading now. RemoveTrades returns, leaves the trade log as it is, and for every window W
with start index s at least 0 it sets the start index to the position i such that
s ≤ i ≤ len(log), i is len(log) or the event at i has age now - block_ts at most the
duration of W, and every event at a position from s to i - 1 is older than the duration: i
is the least position from s on at which the log ends or the event is not expired. The
maps of W after the call are the maps before it with the subtractions of the loop body
made for exactly the events at the positions s to i - 1, so every value is the old value
minus the contributions of those events. An event at a position from s on whose age is
exactly the duration is not retired (i is at most its position), and when the maps of W
were the sums over the events from s on, they are afterwards the sums over all events
from i on, whatever the timestamps of those events are. -/
theorem retirement_cursor (now : Time) (c : ChainData)
    (hidx : ∀ r ∈ c.tradeDataRange,
      -1 ≤ r.StartIndex ∧ r.StartIndex ≤ (c.tradeLogs.length : Int)) :
    ∃ c', RemoveTrades now c = some c' ∧ c'.tradeLogs = c.tradeLogs ∧
      List.Forall₂
        (fun r r' => 0 ≤ r.StartIndex →
          (r.StartIndex ≤ r'.StartIndex ∧ r'.StartIndex ≤ (c.tradeLogs.length : Int)) ∧
          (r'.StartIndex = (c.tradeLogs.length : Int) ∨
            ∃ e, c.tradeLogs[r'.StartIndex.toNat]? = some e ∧
              Since now e.BlockTimestamp ≤ r.duration) ∧
          (∀ (j : Nat) e, r.StartIndex ≤ (j : Int) → (j : Int) < r'.StartIndex →
            c.tradeLogs[j]? = some e → r.duration < Since now e.BlockTimestamp) ∧
          (∀ f, r'.field f =
            (subTrades
              ((c.tradeLogs.drop r.StartIndex.toNat).take (r'.StartIndex - r.StartIndex).toNat)
              r).field f) ∧
          (∀ f k, (r'.field f).get k = (r.field f).get k -
            (((c.tradeLogs.drop r.StartIndex.toNat).take
              (r'.StartIndex - r.StartIndex).toNat).map (tradeContribution f k)).sum) ∧
          (∀ (j : Nat) e, r.StartIndex ≤ (j : Int) → c.tradeLogs[j]? = some e →
            Since now e.BlockTimestamp = r.duration → r'.StartIndex ≤ (j : Int)) ∧
          ((∀ f k, (r.field f).get k =
              ((c.tradeLogs.drop r.StartIndex.toNat).map (tradeContribution f k)).sum) →
            ∀ f k, (r'.field f).get k =
              ((c.tradeLogs.drop r'.StartIndex.toNat).map (tradeContribution f k)).sum) ∧
          r'.duration = r.duration)
        c.tradeDataRange c'.tradeDataRange := by
  obtain ⟨c', hc'⟩ := RemoveTrades_total now c (fun r hr => (hidx r hr).1)
  refine ⟨c', hc', ?_, ?_⟩
  · obtain ⟨rs', rfl, _⟩ := (RemoveTrades_iff now c c').1 hc'
    rfl
  · obtain ⟨rs', rfl, hrs⟩ := (RemoveTrades_iff now c c').1 hc'
    refine forall₂_imp_of_mem hrs ?_
    intro r hr r' hrr' h0
    obtain ⟨h1, h2, h3, h4, h5⟩ :=
      removeTradesRange_cursor now c.tradeLogs r r' h0 (hidx r hr).2 hrr'
    have h6 : ∀ f k, (r'.field f).get k = (r.field f).get k -
        (((c.tradeLogs.drop r.StartIndex.toNat).take
          (r'.StartIndex - r.StartIndex).toNat).map (tradeContribution f k)).sum := by
      intro f k
      rw [h4 f, get_field_subTrades]
    refine ⟨h1, h2, h3, h4, h6, ?_, ?_, h5⟩
    · intro j e hj hje hage
      by_contra hcon
      have := h3 j e hj (by omega) hje
      omega
    · intro hsum f k
      have hsplit : c.tradeLogs.drop r.StartIndex.toNat =
          (c.tradeLogs.drop r.StartIndex.toNat).take (r'.StartIndex - r.StartIndex).toNat ++
            c.tradeLogs.drop r'.StartIndex.toNat := by
        have e : r'.StartIndex.toNat =
            r.StartIndex.toNat + (r'.StartIndex - r.StartIndex).toNat := by omega
        rw [e, ← List.drop_drop, List.take_append_drop]
      have hsums : ((c.tradeLogs.drop r.StartIndex.toNat).map (tradeContribution f k)).sum =
          (((c.tradeLogs.drop r.StartIndex.toNat).take
            (r'.StartIndex - r.StartIndex).toNat).map (tradeContribution f k)).sum +
          ((c.tradeLogs.drop r'.StartIndex.toNat).map (tradeContribution f k)).sum := by
        rw [← List.sum_append, ← List.map_append, ← hsplit]
      rw [h6 f k, hsum f k, hsums]
      ring

/-- Witness of C23. The skewed trade (stamped T0 + 1h + 1s) and then the trade of
scenario 1 (stamped T0) are added to a fresh engine, and the engine is retired at
T0 + 1h + 1s: the event at position 0 is not expired, so every start index stays 0, and
the event at position 1, which is older than the 1h window, is still counted in it (the
profit of the user is 400). Retired at T0 + 1h exactly, the trade of scenario 1 alone has
the age of the 1h window and is not retired. -/
theorem retirement_cursor_witness :
    (∀ r ∈ (AddTradeLogs NewStorage [scenarioSkewedTrade, scenarioTrade]).tradeDataRange,
      -1 ≤ r.StartIndex ∧
        r.StartIndex ≤
          ((AddTradeLogs NewStorage [scenarioSkewedTrade, scenarioTrade]).tradeLogs.length : Int)) ∧
    (∃ c', RemoveTrades scenarioExpiryClock
          (AddTradeLogs NewStorage [scenarioSkewedTrade, scenarioTrade]) = some c' ∧
        c'.tradeLogs = [scenarioSkewedTrade, scenarioTrade]) ∧
    (RemoveTrades scenarioExpiryClock
        (AddTradeLogs NewStorage [scenarioSkewedTrade, scenarioTrade])).map
      (fun c' => c'.tradeDataRange.map
        (fun r => (r.StartIndex, r.UserProfit.get "0xa"))) =
      some [(0, 400), (0, 400), (0, 400), (0, 400), (0, 400)] ∧
    Hour < Since scenarioExpiryClock scenarioTrade.BlockTimestamp ∧
    Since { scenarioT0 with nanos := scenarioT0.nanos + Hour } scenarioTrade.BlockTimestamp =
      Hour ∧
    (RemoveTrades { scenarioT0 with nanos := scenarioT0.nanos + Hour }
        (AddTradeLogs NewStorage [scenarioTrade])).map
      (fun c' => c'.tradeDataRange.map (fun r => r.StartIndex)) = some [0, 0, 0, 0, 0] :=
  ⟨by with_unfolding_all decide,
    (retirement_cursor scenarioExpiryClock
      (AddTradeLogs NewStorage [scenarioSkewedTrade, scenarioTrade])
      (by with_unfolding_all decide)).imp
      (fun c' h => ⟨h.1, h.2.1.trans (by with_unfolding_all rfl)⟩),
    by with_unfolding_all rfl, by with_unfolding_all decide, by with_unfolding_all rfl,
    by with_unfolding_all rfl⟩

/-! ## C24: the start block after a window was emptied -/

/-- C24, the code at the failing input. The trade of scenario 1 (block 100, stamped T0) is
added to a fresh engine, the engine is retired at T0 + 1h + 1s, and the later trade
(block 101, stamped T0 + 1h + 1s) is added. In the state reached the 1h window has the
start index 1, a position of the trade log of length 2, and the entry at position 1 is
the later trade; but the start block of the window is 100 and its start timestamp is T0,
those of the entry at position 0. -/
theorem start_block_stale_after_empty_window :
    TradeReachable scenarioStaleStartState ∧
      scenarioStaleStartState =
        AddTradeLogs
          ((RemoveTrades scenarioExpiryClock (AddTradeLogs NewStorage [scenarioTrade])).getD
            NewStorage)
          [scenarioLaterTrade] ∧
      ∃ w e, scenarioStaleStartState.tradeDataRange.head? = some w ∧ w.duration = Hour ∧
        w.StartIndex = 1 ∧ scenarioStaleStartState.tradeLogs.length = 2 ∧
        scenarioStaleStartState.tradeLogs[1]? = some e ∧
        e.BlockNumber = 101 ∧ e.BlockTimestamp = scenarioExpiryClock ∧
        w.StartBlock = 100 ∧ w.StartBlockTs = scenarioT0 ∧
        w.StartBlock ≠ e.BlockNumber ∧ w.StartBlockTs ≠ e.BlockTimestamp := by
  refine ⟨TradeReachable.add scenarioExpiredState [scenarioLaterTrade]
    TradeReachable_scenarioExpiredState, rfl,
    scenarioStaleStartState.tradeDataRange.headD (NewTradeStorageByRange 0), scenarioLaterTrade,
    ?_, ?_, ?_, ?_, ?_, ?_, ?_, ?_, ?_, ?_, ?_⟩
  · with_unfolding_all rfl
  · with_unfolding_all rfl
  · with_unfolding_all rfl
  · with_unfolding_all rfl
  · with_unfolding_all rfl
  · with_unfolding_all rfl
  · with_unfolding_all rfl
  · with_unfolding_all rfl
  · with_unfolding_all rfl
  · with_unfolding_all decide
  · with_unfolding_all decide

/-! ## The start index along the operations -/

theorem forall₂_refl_of {α : Type} {R : α → α → Prop} (hR : ∀ a, R a a) (l : List α) :
    List.Forall₂ R l l := by
  induction l with
  | nil => exact List.Forall₂.nil
  | cons a l ih => exact List.Forall₂.cons (hR a) ih

theorem forall₂_trans_of {α : Type} {R : α → α → Prop} (hR : ∀ a b c, R a b → R b c → R a c)
    {l1 l2 l3 : List α} (h12 : List.Forall₂ R l1 l2) (h23 : List.Forall₂ R l2 l3) :
    List.Forall₂ R l1 l3 := by
  induction h12 generalizing l3 with
  | nil =>
    cases h23
    exact List.Forall₂.nil
  | cons hab _ ih =>
    cases h23 with
    | cons hbc h23 => exact List.Forall₂.cons (hR _ _ _ hab hbc) (ih h23)

theorem forall₂_map_of {α : Type} {R : α → α → Prop} (g : α → α) (hR : ∀ a, R a (g a))
    (l : List α) : List.Forall₂ R l (l.map g) := by
  induction l with
  | nil => exact List.Forall₂.nil
  | cons a l ih => exact List.Forall₂.cons (hR a) ih

theorem start_addTradeToRange (e : Tradelog) (n : Nat) (r : TradeStorageByRange) :
    (r.StartIndex = -1 →
        (addTradeToRange e n r).StartIndex = (n : Int) - 1 ∧
        (addTradeToRange e n r).StartBlock = e.BlockNumber ∧
        (addTradeToRange e n r).StartBlockTs = e.BlockTimestamp) ∧
      (r.StartIndex ≠ -1 →
        (addTradeToRange e n r).StartIndex = r.StartIndex ∧
        (addTradeToRange e n r).StartBlock = r.StartBlock ∧
        (addTradeToRange e n r).StartBlockTs = r.StartBlockTs) := by
  unfold addTradeToRange
  simp only
  constructor
  · intro h
    rw [if_pos h]
    exact ⟨rfl, rfl, rfl⟩
  · intro h
    rw [if_neg h]
    exact ⟨rfl, rfl, rfl⟩

theorem start_addTransferToRange (t : Transferlog) (n : Nat) (r : TransferStorageByRange) :
    (r.StartIndex = -1 →
        (addTransferToRange t n r).StartIndex = (n : Int) - 1 ∧
        (addTransferToRange t n r).StartBlock = t.BlockNumber ∧
        (addTransferToRange t n r).StartBlockTs = t.BlockTimestamp) ∧
      (r.StartIndex ≠ -1 →
        (addTransferToRange t n r).StartIndex = r.StartIndex ∧
        (addTransferToRange t n r).StartBlock = r.StartBlock ∧
        (addTransferToRange t n r).StartBlockTs = r.StartBlockTs) := by
  constructor
  · intro h
    cases hc : t.IsCexIn <;> simp [addTransferToRange, h, hc]
  · intro h
    cases hc : t.IsCexIn <;> simp [addTransferToRange, h, hc]

theorem AddTradeLogs_windows (R : TradeStorageByRange → TradeStorageByRange → Prop)
    (hrefl : ∀ a, R a a) (htrans : ∀ a b c, R a b → R b c → R a c)
    (hstep : ∀ e n r, 1 ≤ n → R r (addTradeToRange e n r)) (c : ChainData)
    (logs : List Tradelog) :
    List.Forall₂ R c.tradeDataRange (AddTradeLogs c logs).tradeDataRange := by
  induction logs generalizing c with
  | nil => exact forall₂_refl_of hrefl _
  | cons e es ih =>
    rw [AddTradeLogs_cons]
    refine forall₂_trans_of htrans ?_ (ih (addTradeLog c e))
    rcases addTradeLog_tradeDataRange_any c e with h | h
    · rw [h]
      exact forall₂_refl_of hrefl _
    · rw [h]
      exact forall₂_map_of _ (fun r => hstep e _ r (by omega)) _

theorem AddTransferLogs_windows (R : TransferStorageByRange → TransferStorageByRange → Prop)
    (hrefl : ∀ a, R a a) (htrans : ∀ a b c, R a b → R b c → R a c)
    (hstep : ∀ t n r, 1 ≤ n → R r (addTransferToRange t n r)) (c : ChainData)
    (logs : List Transferlog) :
    List.Forall₂ R c.transferDataRange (AddTransferLogs c logs).transferDataRange := by
  induction logs generalizing c with
  | nil => exact forall₂_refl_of hrefl _
  | cons t ts ih =>
    rw [AddTransferLogs_cons]
    refine forall₂_trans_of htrans ?_ (ih (addTransferLog c t))
    rcases addTransferLog_transferDataRange_any c t with h | h
    · rw [h]
      exact forall₂_refl_of hrefl _
    · rw [h]
      exact forall₂_map_of _ (fun r => hstep t _ r (by omega)) _

theorem AddTradeLogs_frame (c : ChainData) (logs : List Tradelog) :
    (AddTradeLogs c logs).transferLogs = c.transferLogs ∧
      (AddTradeLogs c logs).transferDataRange = c.transferDataRange := by
  induction logs generalizing c with
  | nil => exact ⟨rfl, rfl⟩
  | cons e es ih =>
    rw [AddTradeLogs_cons]
    obtain ⟨f1, f2, _⟩ := addTradeLog_frame c e
    exact ⟨(ih _).1.trans f1, (ih _).2.trans f2⟩

theorem AddTransferLogs_frame (c : ChainData) (logs : List Transferlog) :
    (AddTransferLogs c logs).tradeLogs = c.tradeLogs ∧
      (AddTransferLogs c logs).tradeDataRange = c.tradeDataRange := by
  induction logs generalizing c with
  | nil => exact ⟨rfl, rfl⟩
  | cons t ts ih =>
    rw [AddTransferLogs_cons]
    obtain ⟨f1, f2, _⟩ := addTransferLog_frame c t
    exact ⟨(ih _).1.trans f1, (ih _).2.trans f2⟩

theorem IndexNotDecreased_refl (a : StorageByRangeIndex) : IndexNotDecreased a a :=
  ⟨le_refl _, fun h => h⟩

theorem IndexNotDecreased_trans (a b c : StorageByRangeIndex) (h1 : IndexNotDecreased a b)
    (h2 : IndexNotDecreased b c) : IndexNotDecreased a c :=
  ⟨le_trans h1.1 h2.1, fun h => h2.2 (h1.2 h)⟩

theorem StartKept_refl (a : StorageByRangeIndex) : StartKept a a :=
  fun _ => ⟨rfl, rfl, rfl⟩

theorem StartKept_trans (a b c : StorageByRangeIndex) (h1 : StartKept a b) (h2 : StartKept b c) :
    StartKept a c := by
  intro h
  obtain ⟨e1, e2, e3⟩ := h1 h
  obtain ⟨e4, e5, e6⟩ := h2 (by rw [e1]; exact h)
  exact ⟨e4.trans e1, e5.trans e2, e6.trans e3⟩

theorem IndexNotDecreased_addTradeToRange (e : Tradelog) (n : Nat) (r : TradeStorageByRange)
    (hn : 1 ≤ n) :
    IndexNotDecreased r.toStorageByRangeIndex (addTradeToRange e n r).toStorageByRangeIndex := by
  obtain ⟨h1, h2⟩ := start_addTradeToRange e n r
  unfold IndexNotDecreased
  by_cases h : r.StartIndex = -1
  · have := (h1 h).1
    constructor <;> intros <;> omega
  · have := (h2 h).1
    constructor <;> intros <;> omega

theorem IndexNotDecreased_addTransferToRange (t : Transferlog) (n : Nat)
    (r : TransferStorageByRange) (hn : 1 ≤ n) :
    IndexNotDecreased r.toStorageByRangeIndex
      (addTransferToRange t n r).toStorageByRangeIndex := by
  obtain ⟨h1, h2⟩ := start_addTransferToRange t n r
  unfold IndexNotDecreased
  by_cases h : r.StartIndex = -1
  · have := (h1 h).1
    constructor <;> intros <;> omega
  · have := (h2 h).1
    constructor <;> intros <;> omega

theorem IndexNotDecreased_removeTradesRange (now : Time) (logs : List Tradelog)
    (r r' : TradeStorageByRange) (h : removeTradesRange now logs r = some r') :
    IndexNotDecreased r.toStorageByRangeIndex r'.toStorageByRangeIndex := by
  rcases removeTradesRange_some now logs r r' h with ⟨_, rfl⟩ | ⟨h0, hS, _, _⟩
  · exact IndexNotDecreased_refl _
  · unfold IndexNotDecreased
    constructor <;> intros <;> omega

theorem IndexNotDecreased_removeTransferRange (now : Time) (logs : List Transferlog)
    (r r' : TransferStorageByRange) (h : removeTransferRange now logs r = some r') :
    IndexNotDecreased r.toStorageByRangeIndex r'.toStorageByRangeIndex := by
  rcases removeTransferRange_some now logs r r' h with ⟨_, rfl⟩ | ⟨h0, hS, _⟩
  · exact IndexNotDecreased_refl _
  · unfold IndexNotDecreased
    constructor <;> intros <;> omega

theorem length_transfersToRetire_le (now : Time) (logs : List Transferlog)
    (r : TransferStorageByRange) :
    (transfersToRetire now logs r).length + r.StartIndex.toNat ≤
      max logs.length r.StartIndex.toNat := by
  unfold transfersToRetire
  have h1 := length_takeWhile_le_length (transferExpired now r.duration)
    (logs.drop r.StartIndex.toNat)
  rw [List.length_drop] at h1
  omega

theorem IndexInBounds_mono (n m : Nat) (ix : StorageByRangeIndex) (h : IndexInBounds n ix)
    (hnm : n ≤ m) : IndexInBounds m ix := by
  rcases h with h | ⟨h1, h2⟩
  · exact Or.inl h
  · exact Or.inr ⟨h1, by omega⟩

theorem IndexInBounds_addTradeToRange (e : Tradelog) (n : Nat) (r : TradeStorageByRange)
    (h : IndexInBounds n r.toStorageByRangeIndex) :
    IndexInBounds (n + 1) (addTradeToRange e (n + 1) r).toStorageByRangeIndex := by
  obtain ⟨h1, h2⟩ := start_addTradeToRange e (n + 1) r
  by_cases hs : r.StartIndex = -1
  · right
    have := (h1 hs).1
    change 0 ≤ (addTradeToRange e (n + 1) r).StartIndex ∧
      (addTradeToRange e (n + 1) r).StartIndex ≤ ((n + 1 : Nat) : Int)
    push_cast at this ⊢
    omega
  · rcases h with h | ⟨h3, h4⟩
    · exact absurd h hs
    · right
      have := (h2 hs).1
      change 0 ≤ (addTradeToRange e (n + 1) r).StartIndex ∧
        (addTradeToRange e (n + 1) r).StartIndex ≤ ((n + 1 : Nat) : Int)
      change 0 ≤ r.StartIndex at h3
      change r.StartIndex ≤ (n : Int) at h4
      push_cast
      omega

theorem IndexInBounds_addTransferToRange (t : Transferlog) (n : Nat)
    (r : TransferStorageByRange) (h : IndexInBounds n r.toStorageByRangeIndex) :
    IndexInBounds (n + 1) (addTransferToRange t (n + 1) r).toStorageByRangeIndex := by
  obtain ⟨h1, h2⟩ := start_addTransferToRange t (n + 1) r
  by_cases hs : r.StartIndex = -1
  · right
    have := (h1 hs).1
    change 0 ≤ (addTransferToRange t (n + 1) r).StartIndex ∧
      (addTransferToRange t (n + 1) r).StartIndex ≤ ((n + 1 : Nat) : Int)
    push_cast at this ⊢
    omega
  · rcases h with h | ⟨h3, h4⟩
    · exact absurd h hs
    · right
      have := (h2 hs).1
      change 0 ≤ (addTransferToRange t (n + 1) r).StartIndex ∧
        (addTransferToRange t (n + 1) r).StartIndex ≤ ((n + 1 : Nat) : Int)
      change 0 ≤ r.StartIndex at h3
      change r.StartIndex ≤ (n : Int) at h4
      push_cast
      omega

theorem IndexInBounds_removeTradesRange (now : Time) (logs : List Tradelog)
    (r r' : TradeStorageByRange) (h : IndexInBounds logs.length r.toStorageByRangeIndex)
    (hr : removeTradesRange now logs r = some r') :
    IndexInBounds logs.length r'.toStorageByRangeIndex := by
  rcases removeTradesRange_some now logs r r' hr with ⟨_, rfl⟩ | ⟨h0, hS, _, _⟩
  · exact h
  · have hle := length_tradesToRetire_le now logs r
    rcases h with h | ⟨h3, h4⟩
    · change r.StartIndex = -1 at h
      omega
    · right
      change r.StartIndex ≤ (logs.length : Int) at h4
      change 0 ≤ r'.StartIndex ∧ r'.StartIndex ≤ (logs.length : Int)
      omega

theorem IndexInBounds_removeTransferRange (now : Time) (logs : List Transferlog)
    (r r' : TransferStorageByRange) (h : IndexInBounds logs.length r.toStorageByRangeIndex)
    (hr : removeTransferRange now logs r = some r') :
    IndexInBounds logs.length r'.toStorageByRangeIndex := by
  rcases removeTransferRange_some now logs r r' hr with ⟨_, rfl⟩ | ⟨h0, hS, _⟩
  · exact h
  · have hle := length_transfersToRetire_le now logs r
    rcases h with h | ⟨h3, h4⟩
    · change r.StartIndex = -1 at h
      omega
    · right
      change r.StartIndex ≤ (logs.length : Int) at h4
      change 0 ≤ r'.StartIndex ∧ r'.StartIndex ≤ (logs.length : Int)
      omega

theorem bounds_of_reachable (c : ChainData) (h : Reachable c) :
    (∀ r ∈ c.tradeDataRange, IndexInBounds c.tradeLogs.length r.toStorageByRangeIndex) ∧
      (∀ r ∈ c.transferDataRange,
        IndexInBounds c.transferLogs.length r.toStorageByRangeIndex) := by
  refine Reachable_induction
    (fun c =>
      (∀ r ∈ c.tradeDataRange, IndexInBounds c.tradeLogs.length r.toStorageByRangeIndex) ∧
      (∀ r ∈ c.transferDataRange,
        IndexInBounds c.transferLogs.length r.toStorageByRangeIndex)) ?_ ?_ ?_ ?_ ?_ c h
  · constructor
    · intro r hr
      simp only [NewStorage, List.mem_cons, List.mem_singleton, List.not_mem_nil, or_false] at hr
      rcases hr with rfl | rfl | rfl | rfl | rfl <;> exact Or.inl rfl
    · intro r hr
      simp only [NewStorage, List.mem_cons, List.mem_singleton, List.not_mem_nil, or_false] at hr
      rcases hr with rfl | rfl | rfl | rfl | rfl <;> exact Or.inl rfl
  · intro c e ⟨h1, h2⟩
    obtain ⟨f1, f2, _⟩ := addTradeLog_frame c e
    refine ⟨?_, by rw [f1, f2]; exact h2⟩
    cases hf : e.GetCurrentRateFail with
    | true =>
      rw [addTradeLog_fail c e hf]
      exact h1
    | false =>
      rw [addTradeLog_tradeDataRange c e hf, addTradeLog_tradeLogs c e hf]
      intro r hr
      obtain ⟨r0, hr0, rfl⟩ := List.mem_map.1 hr
      rw [List.length_append, List.length_singleton]
      exact IndexInBounds_addTradeToRange e _ r0 (h1 r0 hr0)
  · intro c t ⟨h1, h2⟩
    obtain ⟨f1, f2, _⟩ := addTransferLog_frame c t
    refine ⟨by rw [f1, f2]; exact h1, ?_⟩
    cases hf : t.GetCurrentRateFail with
    | true =>
      rw [addTransferLog_fail c t hf]
      exact h2
    | false =>
      have hlogs : (addTransferLog c t).transferLogs = c.transferLogs ++ [t] := by
        rw [addTransferLog_transferLogs_any]
        simp [hf]
      rw [addTransferLog_transferDataRange c t hf, hlogs]
      intro r hr
      obtain ⟨r0, hr0, rfl⟩ := List.mem_map.1 hr
      rw [List.length_append, List.length_singleton]
      exact IndexInBounds_addTransferToRange t _ r0 (h2 r0 hr0)
  · intro now c c1 ⟨h1, h2⟩ hr
    obtain ⟨rs, rfl, hrs⟩ := (RemoveTrades_iff now c c1).1 hr
    exact ⟨forall₂_forall hrs
      (fun a b hab ha => IndexInBounds_removeTradesRange now c.tradeLogs a b ha hab) h1, h2⟩
  · intro now c c1 ⟨h1, h2⟩ hr
    obtain ⟨rs, rfl, hrs⟩ := (RemoveTransfer_iff now c c1).1 hr
    exact ⟨h1, forall₂_forall hrs
      (fun a b hab ha => IndexInBounds_removeTransferRange now c.transferLogs a b ha hab) h2⟩

theorem IndexNotDecreased_of_step (c c1 : ChainData) (h : Step c c1) :
    List.Forall₂
        (fun r r1 : TradeStorageByRange =>
          IndexNotDecreased r.toStorageByRangeIndex r1.toStorageByRangeIndex)
        c.tradeDataRange c1.tradeDataRange ∧
      List.Forall₂
        (fun r r1 : TransferStorageByRange =>
          IndexNotDecreased r.toStorageByRangeIndex r1.toStorageByRangeIndex)
        c.transferDataRange c1.transferDataRange := by
  have hrefl1 : ∀ l : List TradeStorageByRange, List.Forall₂
      (fun r r1 : TradeStorageByRange =>
        IndexNotDecreased r.toStorageByRangeIndex r1.toStorageByRangeIndex) l l :=
    fun l => forall₂_refl_of
      (R := fun r r1 : TradeStorageByRange =>
        IndexNotDecreased r.toStorageByRangeIndex r1.toStorageByRangeIndex)
      (fun a => IndexNotDecreased_refl _) l
  have hrefl2 : ∀ l : List TransferStorageByRange, List.Forall₂
      (fun r r1 : TransferStorageByRange =>
        IndexNotDecreased r.toStorageByRangeIndex r1.toStorageByRangeIndex) l l :=
    fun l => forall₂_refl_of
      (R := fun r r1 : TransferStorageByRange =>
        IndexNotDecreased r.toStorageByRangeIndex r1.toStorageByRangeIndex)
      (fun a => IndexNotDecreased_refl _) l
  induction h with
  | addTrades logs =>
    refine ⟨AddTradeLogs_windows
      (fun r r1 => IndexNotDecreased r.toStorageByRangeIndex r1.toStorageByRangeIndex)
      (fun a => IndexNotDecreased_refl _)
      (fun a b c h1 h2 => IndexNotDecreased_trans _ _ _ h1 h2)
      (fun e n r hn => IndexNotDecreased_addTradeToRange e n r hn) c logs, ?_⟩
    rw [(AddTradeLogs_frame c logs).2]
    exact hrefl2 _
  | addTransfers logs =>
    refine ⟨?_, AddTransferLogs_windows
      (fun r r1 => IndexNotDecreased r.toStorageByRangeIndex r1.toStorageByRangeIndex)
      (fun a => IndexNotDecreased_refl _)
      (fun a b c h1 h2 => IndexNotDecreased_trans _ _ _ h1 h2)
      (fun t n r hn => IndexNotDecreased_addTransferToRange t n r hn) c logs⟩
    rw [(AddTransferLogs_frame c logs).2]
    exact hrefl1 _
  | removeTrades c1 now hr =>
    obtain ⟨rs, rfl, hrs⟩ := (RemoveTrades_iff now c c1).1 hr
    exact ⟨forall₂_imp hrs (fun a b hab => IndexNotDecreased_removeTradesRange now _ a b hab),
      hrefl2 _⟩
  | removeTransfer c1 now hr =>
    obtain ⟨rs, rfl, hrs⟩ := (RemoveTransfer_iff now c c1).1 hr
    exact ⟨hrefl1 _,
      forall₂_imp hrs (fun a b hab => IndexNotDecreased_removeTransferRange now _ a b hab)⟩

theorem IndexNotDecreased_of_steps (c c1 : ChainData) (h : Relation.ReflTransGen Step c c1) :
    List.Forall₂
        (fun r r1 : TradeStorageByRange =>
          IndexNotDecreased r.toStorageByRangeIndex r1.toStorageByRangeIndex)
        c.tradeDataRange c1.tradeDataRange ∧
      List.Forall₂
        (fun r r1 : TransferStorageByRange =>
          IndexNotDecreased r.toStorageByRangeIndex r1.toStorageByRangeIndex)
        c.transferDataRange c1.transferDataRange := by
  induction h with
  | refl =>
    exact ⟨forall₂_refl_of
        (R := fun r r1 : TradeStorageByRange =>
          IndexNotDecreased r.toStorageByRangeIndex r1.toStorageByRangeIndex)
        (fun a => IndexNotDecreased_refl _) _,
      forall₂_refl_of
        (R := fun r r1 : TransferStorageByRange =>
          IndexNotDecreased r.toStorageByRangeIndex r1.toStorageByRangeIndex)
        (fun a => IndexNotDecreased_refl _) _⟩
  | tail _ hstep ih =>
    obtain ⟨s1, s2⟩ := IndexNotDecreased_of_step _ _ hstep
    exact ⟨forall₂_trans_of
        (R := fun r r1 : TradeStorageByRange =>
          IndexNotDecreased r.toStorageByRangeIndex r1.toStorageByRangeIndex)
        (fun a b c h1 h2 => IndexNotDecreased_trans _ _ _ h1 h2) ih.1 s1,
      forall₂_trans_of
        (R := fun r r1 : TransferStorageByRange =>
          IndexNotDecreased r.toStorageByRangeIndex r1.toStorageByRangeIndex)
        (fun a b c h1 h2 => IndexNotDecreased_trans _ _ _ h1 h2) ih.2 s2⟩

theorem removeTradesRange_all_expired (now : Time) (logs : List Tradelog)
    (r r' : TradeStorageByRange) (h0 : 0 ≤ r.StartIndex) (hlen : r.StartIndex ≤ logs.length)
    (hall : ∀ e ∈ logs.drop r.StartIndex.toNat, r.duration < Since now e.BlockTimestamp)
    (h : removeTradesRange now logs r = some r') : r'.StartIndex = (logs.length : Int) := by
  rcases removeTradesRange_some now logs r r' h with ⟨hneg, _⟩ | ⟨_, hS, _, _⟩
  · omega
  · have htw : tradesToRetire now logs r = logs.drop r.StartIndex.toNat := by
      unfold tradesToRetire
      apply takeWhile_eq_self_of_all
      intro e he
      have := hall e he
      simp only [tradeExpired, decide_eq_true_eq]
      omega
    rw [hS, htw, List.length_drop]
    omega

theorem removeTransferRange_all_expired (now : Time) (logs : List Transferlog)
    (r r' : TransferStorageByRange) (h0 : 0 ≤ r.StartIndex) (hlen : r.StartIndex ≤ logs.length)
    (hall : ∀ e ∈ logs.drop r.StartIndex.toNat, r.duration < Since now e.BlockTimestamp)
    (h : removeTransferRange now logs r = some r') : r'.StartIndex = (logs.length : Int) := by
  rcases removeTransferRange_some now logs r r' h with ⟨hneg, _⟩ | ⟨_, hS, _⟩
  · omega
  · have htw : transfersToRetire now logs r = logs.drop r.StartIndex.toNat := by
      unfold transfersToRetire
      apply takeWhile_eq_self_of_all
      intro e he
      have := hall e he
      simp only [transferExpired, decide_eq_true_eq]
      omega
    rw [hS, htw, List.length_drop]
    omega

theorem StartKept_addTradeToRange (e : Tradelog) (n : Nat) (r : TradeStorageByRange) :
    StartKept r.toStorageByRangeIndex (addTradeToRange e n r).toStorageByRangeIndex :=
  fun h => (start_addTradeToRange e n r).2 h

theorem StartKept_addTransferToRange (t : Transferlog) (n : Nat) (r : TransferStorageByRange) :
    StartKept r.toStorageByRangeIndex (addTransferToRange t n r).toStorageByRangeIndex :=
  fun h => (start_addTransferToRange t n r).2 h

/-! ## C25: the state machine of a window -/

/-- C25 (window state machine). In every state reachable from NewStorage by the four
operations: every trade window and every transfer window has a start index that is -1 or
lies between 0 and the length of its log; along every further run of operations no start
index decreases, and a start index that is at least 0 stays at least 0 (it never returns
to -1); RemoveTrades and RemoveTransfer return at every clock reading (no position they
read is out of bounds), leave the log as it is, and leave the start index of a window at
the length of the log when every event from its start index on is expired; and
AddTradeLogs (AddTransferLogs) changes neither the start index nor the start block nor the
start timestamp of a trade (transfer) window whose start index is not -1. -/
theorem window_state_machine (c : ChainData) (h : Reachable c) :
    ((∀ r ∈ c.tradeDataRange, IndexInBounds c.tradeLogs.length r.toStorageByRangeIndex) ∧
      (∀ r ∈ c.transferDataRange,
        IndexInBounds c.transferLogs.length r.toStorageByRangeIndex)) ∧
    (∀ c1, Relation.ReflTransGen Step c c1 →
      List.Forall₂
          (fun r r1 : TradeStorageByRange =>
            IndexNotDecreased r.toStorageByRangeIndex r1.toStorageByRangeIndex)
          c.tradeDataRange c1.tradeDataRange ∧
        List.Forall₂
          (fun r r1 : TransferStorageByRange =>
            IndexNotDecreased r.toStorageByRangeIndex r1.toStorageByRangeIndex)
          c.transferDataRange c1.transferDataRange) ∧
    (∀ now, ∃ c1, RemoveTrades now c = some c1 ∧ c1.tradeLogs = c.tradeLogs ∧
      List.Forall₂
        (fun r r1 : TradeStorageByRange => 0 ≤ r.StartIndex →
          (∀ e ∈ c.tradeLogs.drop r.StartIndex.toNat, r.duration < Since now e.BlockTimestamp) →
          r1.StartIndex = (c.tradeLogs.length : Int))
        c.tradeDataRange c1.tradeDataRange) ∧
    (∀ now, ∃ c1, RemoveTransfer now c = some c1 ∧ c1.transferLogs = c.transferLogs ∧
      List.Forall₂
        (fun r r1 : TransferStorageByRange => 0 ≤ r.StartIndex →
          (∀ e ∈ c.transferLogs.drop r.StartIndex.toNat,
            r.duration < Since now e.BlockTimestamp) →
          r1.StartIndex = (c.transferLogs.length : Int))
        c.transferDataRange c1.transferDataRange) ∧
    (∀ logs, List.Forall₂
      (fun r r1 : TradeStorageByRange =>
        StartKept r.toStorageByRangeIndex r1.toStorageByRangeIndex)
      c.tradeDataRange (AddTradeLogs c logs).tradeDataRange) ∧
    (∀ logs, List.Forall₂
      (fun r r1 : TransferStorageByRange =>
        StartKept r.toStorageByRangeIndex r1.toStorageByRangeIndex)
      c.transferDataRange (AddTransferLogs c logs).transferDataRange) := by
  have hb := bounds_of_reachable c h
  have hge1 : ∀ r ∈ c.tradeDataRange, -1 ≤ r.StartIndex := by
    intro r hr
    rcases hb.1 r hr with h1 | ⟨h1, _⟩
    · change r.StartIndex = -1 at h1
      omega
    · change 0 ≤ r.StartIndex at h1
      omega
  have hge2 : ∀ r ∈ c.transferDataRange, -1 ≤ r.StartIndex := by
    intro r hr
    rcases hb.2 r hr with h1 | ⟨h1, _⟩
    · change r.StartIndex = -1 at h1
      omega
    · change 0 ≤ r.StartIndex at h1
      omega
  refine ⟨hb, fun c1 hc1 => IndexNotDecreased_of_steps c c1 hc1, ?_, ?_, ?_, ?_⟩
  · intro now
    obtain ⟨c1, hc1⟩ := RemoveTrades_total now c hge1
    refine ⟨c1, hc1, ?_, ?_⟩
    · obtain ⟨rs, rfl, _⟩ := (RemoveTrades_iff now c c1).1 hc1
      rfl
    · obtain ⟨rs, rfl, hrs⟩ := (RemoveTrades_iff now c c1).1 hc1
      refine forall₂_imp_of_mem hrs ?_
      intro r hr r1 hrr1 h0 hall
      rcases hb.1 r hr with h1 | ⟨_, h2⟩
      · change r.StartIndex = -1 at h1
        omega
      · exact removeTradesRange_all_expired now c.tradeLogs r r1 h0 h2 hall hrr1
  · intro now
    obtain ⟨c1, hc1⟩ := RemoveTransfer_total now c hge2
    refine ⟨c1, hc1, ?_, ?_⟩
    · obtain ⟨rs, rfl, _⟩ := (RemoveTransfer_iff now c c1).1 hc1
      rfl
    · obtain ⟨rs, rfl, hrs⟩ := (RemoveTransfer_iff now c c1).1 hc1
      refine forall₂_imp_of_mem hrs ?_
      intro r hr r1 hrr1 h0 hall
      rcases hb.2 r hr with h1 | ⟨_, h2⟩
      · change r.StartIndex = -1 at h1
        omega
      · exact removeTransferRange_all_expired now c.transferLogs r r1 h0 h2 hall hrr1
  · intro logs
    exact AddTradeLogs_windows
      (fun r r1 => StartKept r.toStorageByRangeIndex r1.toStorageByRangeIndex)
      (fun a => StartKept_refl _) (fun a b c h1 h2 => StartKept_trans _ _ _ h1 h2)
      (fun e n r _ => StartKept_addTradeToRange e n r) c logs
  · intro logs
    exact AddTransferLogs_windows
      (fun r r1 => StartKept r.toStorageByRangeIndex r1.toStorageByRangeIndex)
      (fun a => StartKept_refl _) (fun a b c h1 h2 => StartKept_trans _ _ _ h1 h2)
      (fun t n r _ => StartKept_addTransferToRange t n r) c logs

/-- Witness of C25: the state of the expiry scenario. The retire at T0 + 1h + 1s has moved
the start index of the 1h window from 0 to 1, the length of the log, and left the others
at 0; the append of the later trade then leaves the five start indexes as they are. -/
theorem window_state_machine_witness :
    Reachable scenarioExpiredState ∧
      ((∀ r ∈ scenarioExpiredState.tradeDataRange,
          IndexInBounds scenarioExpiredState.tradeLogs.length r.toStorageByRangeIndex) ∧
        (∀ r ∈ scenarioExpiredState.transferDataRange,
          IndexInBounds scenarioExpiredState.transferLogs.length r.toStorageByRangeIndex)) ∧
      (AddTradeLogs NewStorage [scenarioTrade]).tradeDataRange.map (fun r => r.StartIndex) =
        [0, 0, 0, 0, 0] ∧
      scenarioExpiredState.tradeLogs.length = 1 ∧
      scenarioExpiredState.tradeDataRange.map (fun r => r.StartIndex) = [1, 0, 0, 0, 0] ∧
      (AddTradeLogs scenarioExpiredState [scenarioLaterTrade]).tradeDataRange.map
        (fun r => r.StartIndex) = [1, 0, 0, 0, 0] :=
  ⟨Reachable_scenarioExpiredState,
    (window_state_machine scenarioExpiredState Reachable_scenarioExpiredState).1,
    by with_unfolding_all rfl, by with_unfolding_all rfl, by with_unfolding_all rfl,
    by with_unfolding_all rfl⟩

/-! ## The paging loop on a sorted table -/

theorem GetMaxBlockNumber_cons {α : Type} (bn : α → Nat) (r : α) (rs : List α)
    (hs : (r :: rs).Pairwise (fun a b => bn a ≤ bn b)) :
    rs.foldl (fun m x => max m (bn x)) (bn r) = bn ((r :: rs).getLast (List.cons_ne_nil r rs)) := by
  induction rs generalizing r with
  | nil => rfl
  | cons x rs ih =>
    rw [List.pairwise_cons] at hs
    have hle : bn r ≤ bn x := hs.1 x (List.mem_cons_self x rs)
    rw [List.foldl_cons, max_eq_right hle, ih x hs.2, List.getLast_cons_cons]

theorem GetMaxBlockNumber_sorted {α : Type} (bn : α → Nat) (source : List α)
    (hs : source.Pairwise (fun a b => bn a ≤ bn b)) :
    GetMaxBlockNumber bn source = source.getLast?.map (fun r => (bn r : Int)) := by
  cases source with
  | nil => rfl
  | cons r rs =>
    have h := GetMaxBlockNumber_cons bn r rs hs
    rw [List.getLast?_eq_getLast _ (List.cons_ne_nil r rs)]
    simp only [GetMaxBlockNumber, h, Option.map_some']

theorem getLast?_dropWhile {α : Type} (p : α → Bool) (l : List α) (h : l.dropWhile p ≠ []) :
    (l.dropWhile p).getLast? = l.getLast? := by
  induction l with
  | nil => rfl
  | cons a l ih =>
    by_cases ha : p a = true
    · rw [List.dropWhile_cons_of_pos ha] at h ⊢
      rw [ih h]
      cases l with
      | nil => simp at h
      | cons b l => rw [List.getLast?_cons_cons]
    · rw [List.dropWhile_cons_of_neg ha]

theorem pagingBody_next {α : Type} (bn : α → Nat) (fetch : Int → Option (List α))
    (currentBlock : Int) (s s1 : Paging α)
    (h : pagingBody bn fetch currentBlock s = PagingStep.next s1) :
    ∃ page first lastRow, fetch s.lastTradeBlock = some page ∧ page.head? = some first ∧
      page.getLast? = some lastRow ∧ toInt64 (bn lastRow) < currentBlock ∧
      s1 = ⟨trimTail bn (bn first) s.trades ++ page, toInt64 (bn lastRow)⟩ := by
  unfold pagingBody at h
  cases hf : fetch s.lastTradeBlock with
  | none =>
    rw [hf] at h
    cases h
  | some page =>
    rw [hf] at h
    dsimp only at h
    cases hh : page.head? with
    | none =>
      rw [hh] at h
      simp only at h
      cases h
    | some first =>
      cases hl : page.getLast? with
      | none =>
        rw [hh, hl] at h
        simp only at h
        cases h
      | some lastRow =>
        rw [hh, hl] at h
        simp only at h
        split_ifs at h with hge
        cases h
        exact ⟨page, first, lastRow, rfl, hh, hl, by omega, rfl⟩

theorem pagingBody_fetchFrom_cases {α : Type} (bn : α → Nat) (source : List α) (limit : Nat)
    (currentBlock : Int) (s : Paging α) :
    (∃ s1, pagingBody bn (fetchFrom bn source limit) currentBlock s = PagingStep.stop s1) ∨
      ∃ s1, pagingBody bn (fetchFrom bn source limit) currentBlock s = PagingStep.next s1 := by
  unfold pagingBody fetchFrom
  dsimp only
  split
  · split_ifs
    · exact Or.inl ⟨_, rfl⟩
    · exact Or.inr ⟨_, rfl⟩
  · exact Or.inl ⟨_, rfl⟩

theorem watermark_increases {α : Type} (bn : α → Nat) (source : List α) (limit : Nat)
    (hs : source.Pairwise (fun a b => bn a ≤ bn b)) (hb : ∀ r ∈ source, bn r < 2 ^ 63)
    (hblock : ∀ b, (source.filter (fun r => decide (bn r = b))).length < limit)
    (s s1 : Paging α)
    (h : pagingBody bn (fetchFrom bn source limit) ((GetMaxBlockNumber bn source).getD 0) s =
      PagingStep.next s1) :
    s.lastTradeBlock < s1.lastTradeBlock ∧
      s1.lastTradeBlock < (GetMaxBlockNumber bn source).getD 0 := by
  obtain ⟨page, first, lastRow, hf, hh, hl, hlt, rfl⟩ := pagingBody_next bn _ _ s s1 h
  simp only [fetchFrom, Option.some.injEq] at hf
  have hlastmem : lastRow ∈ page := List.mem_of_getLast?_eq_some hl
  have hpsub : page.Sublist source := by
    rw [← hf]
    exact (List.take_sublist _ _).trans (List.filter_sublist _)
  have hlastsrc : lastRow ∈ source := hpsub.subset hlastmem
  have hto : toInt64 (bn lastRow) = (bn lastRow : Int) := toInt64_of_lt _ (hb _ hlastsrc)
  rw [hto] at hlt
  refine ⟨?_, by simpa [hto] using hlt⟩
  change s.lastTradeBlock < toInt64 (bn lastRow)
  rw [hto]
  by_contra hcon
  have hle : (bn lastRow : Int) ≤ s.lastTradeBlock := by omega
  -- the page is full
  have hfull : page.length = limit := by
    by_contra hne
    have hlenle : page.length ≤ limit := by
      rw [← hf, List.length_take]
      exact min_le_left _ _
    have hF : page = source.filter (fun r => decide (s.lastTradeBlock ≤ (bn r : Int))) := by
      rw [← hf]
      apply List.take_of_length_le
      by_contra hgt
      have : page.length = limit := by
        rw [← hf, List.length_take]
        omega
      exact hne this
    have hne0 : source.dropWhile (fun r => decide ((bn r : Int) < s.lastTradeBlock)) ≠ [] := by
      rw [← filter_ge_eq_dropWhile bn source _ hs, ← hF]
      intro h0
      rw [h0] at hlastmem
      cases hlastmem
    have hlast2 : source.getLast? = some lastRow := by
      rw [← getLast?_dropWhile _ source hne0, ← filter_ge_eq_dropWhile bn source _ hs, ← hF]
      exact hl
    rw [GetMaxBlockNumber_sorted bn source hs, hlast2] at hlt
    simp at hlt
  -- every row of the page is in the block of the watermark
  have hall : ∀ x ∈ page, bn x = bn lastRow := by
    intro x hx
    have h1 : bn x ≤ bn lastRow :=
      pairwise_le_getLast bn page lastRow (hs.sublist hpsub) hl x hx
    have h2 : s.lastTradeBlock ≤ (bn x : Int) := by
      rw [← hf] at hx
      have := (List.mem_filter.1 (List.mem_of_mem_take hx)).2
      simpa using this
    omega
  have hsub2 : page.Sublist (source.filter (fun r => decide (bn r = bn lastRow))) := by
    have := hpsub.filter (fun r => decide (bn r = bn lastRow))
    rwa [List.filter_eq_self.2 (fun x hx => by simp [hall x hx])] at this
  have := hsub2.length_le
  have := hblock (bn lastRow)
  omega

/-! ## C26: rows of the last block at a page edge -/

theorem straddle_sorted {α : Type} (bn : α → Nat) (n : Nat) (a b c : α) (hab : bn a ≤ bn b)
    (hbc : bn b ≤ bn c) :
    (List.replicate n a ++ [b, c]).Pairwise (fun x y => bn x ≤ bn y) := by
  rw [List.pairwise_append]
  refine ⟨?_, ?_, ?_⟩
  · rw [List.pairwise_replicate]
    exact Or.inr (le_refl _)
  · simp [hbc]
  · intro x hx y hy
    rw [List.eq_of_mem_replicate hx]
    simp only [List.mem_cons, List.mem_singleton, List.not_mem_nil, or_false] at hy
    rcases hy with rfl | rfl
    · exact hab
    · exact le_trans hab hbc

theorem straddle_fetch {α : Type} (bn : α → Nat) (n : Nat) (a b c : α) (w : Int)
    (ha : w ≤ (bn a : Int)) (hab : bn a ≤ bn b) (hbc : bn b ≤ bn c) :
    fetchFrom bn (List.replicate n a ++ [b, c]) (n + 1) w = some (List.replicate n a ++ [b]) := by
  unfold fetchFrom
  have hfil : (List.replicate n a ++ [b, c]).filter (fun r => decide (w ≤ (bn r : Int))) =
      List.replicate n a ++ [b, c] := by
    apply List.filter_eq_self.2
    intro x hx
    simp only [List.mem_append, List.mem_cons, List.mem_singleton, List.not_mem_nil,
      or_false] at hx
    simp only [decide_eq_true_eq]
    rcases hx with hx | rfl | rfl
    · rw [List.eq_of_mem_replicate hx]
      exact ha
    · omega
    · omega
  rw [hfil]
  have h := @List.take_append _ (List.replicate n a) [b, c] 1
  rw [List.length_replicate] at h
  rw [h]
  rfl

theorem straddle_loop {α : Type} (bn : α → Nat) (n : Nat) (a b c : α) (w currentBlock : Int)
    (hn : 0 < n) (ha : w ≤ (bn a : Int)) (hab : bn a ≤ bn b) (hbc : bn b ≤ bn c)
    (hcur : currentBlock ≤ toInt64 (bn b)) (fuel : Nat) :
    pagingLoop bn (fetchFrom bn (List.replicate n a ++ [b, c]) (n + 1)) currentBlock (fuel + 1)
        ⟨[], w⟩ =
      some (PagingStep.stop ⟨List.replicate n a ++ [b], toInt64 (bn b)⟩) := by
  have hhead : (List.replicate n a ++ [b]).head? = some a := by
    cases n with
    | zero => omega
    | succ m => rfl
  have hlast : (List.replicate n a ++ [b]).getLast? = some b := by simp
  unfold pagingLoop pagingBody
  simp only [straddle_fetch bn n a b c w ha hab hbc, hhead, hlast]
  rw [if_pos (by omega)]
  simp [trimTail]

theorem straddle_blocks {α : Type} (bn : α → Nat) (n : Nat) (a b c : α) (hn : 2 ≤ n)
    (hab : bn a ≠ bn b) (hbc : bn c = bn b) (blk : Nat) :
    ((List.replicate n a ++ [b, c]).filter (fun r => decide (bn r = blk))).length < n + 1 := by
  rw [List.filter_append, List.length_append, List.filter_replicate]
  by_cases h : bn a = blk
  · have hb : ¬ bn b = blk := fun e => hab (h.trans e.symm)
    have hc : ¬ bn c = blk := fun e => hb (hbc ▸ e)
    simp [h, hb, hc, List.filter_cons]
  · have h2 := List.length_filter_le (fun r => decide (bn r = blk)) [b, c]
    simp only [h, decide_False, Bool.false_eq_true, if_false, List.length_nil, zero_add]
    simp only [List.length_cons, List.length_nil] at h2
    omega

theorem straddle_getLast? {α : Type} (l : List α) (b c : α) :
    (l ++ [b, c]).getLast? = some c := by
  simp

/-- C26, the code at the failing input. The table holds 199999 rows of block 1 followed
by two rows of block 2 (tx hashes b and c); it is sorted by block number and no block
holds limitLogs = 200000 rows. GetMaxBlockNumber returns 2. With the configured first
block 0 and the maximal range 10 the starting watermark is 0, the first fetch returns the
first 200000 rows, whose last row is the row b of block 2, and the loop ends there because
the watermark 2 has reached the current block 2: the buffer with which the loop ends does
not hold the row c of block 2, a row of the table whose block number lies between the
starting watermark and the maximal block number. -/
theorem initSolanaTrade_loses_rows_of_last_block :
    scenarioStraddleSource.Pairwise (fun a b => a.BlockNumber ≤ b.BlockNumber) ∧
    (∀ r ∈ scenarioStraddleSource, r.BlockNumber < 2 ^ 63) ∧
    (∀ b, (scenarioStraddleSource.filter (fun r => decide (r.BlockNumber = b))).length <
      limitLogs) ∧
    GetMaxBlockNumber SolanaTradelogDB.BlockNumber scenarioStraddleSource = some 2 ∧
    (∀ fuel, 1 ≤ fuel →
      initSolanaTrade scenarioStraddleSource 0 10 fuel =
        some (PagingStep.stop
          ⟨List.replicate 199999 (scenarioRowAt 1 "a") ++ [scenarioRowAt 2 "b"], 2⟩)) ∧
    scenarioRowAt 2 "c" ∈ scenarioStraddleSource ∧
    (0 : Int) ≤ ((scenarioRowAt 2 "c").BlockNumber : Int) ∧
    ((scenarioRowAt 2 "c").BlockNumber : Int) ≤ 2 ∧
    scenarioRowAt 2 "c" ∉
      List.replicate 199999 (scenarioRowAt 1 "a") ++ [scenarioRowAt 2 "b"] := by
  have hsorted : scenarioStraddleSource.Pairwise (fun a b => a.BlockNumber ≤ b.BlockNumber) :=
    straddle_sorted SolanaTradelogDB.BlockNumber 199999 _ _ _ (by decide) (by decide)
  have hmax : GetMaxBlockNumber SolanaTradelogDB.BlockNumber scenarioStraddleSource = some 2 := by
    rw [GetMaxBlockNumber_sorted _ _ hsorted]
    unfold scenarioStraddleSource
    rw [straddle_getLast?]
    rfl
  have hloop : ∀ fuel, pagingLoop SolanaTradelogDB.BlockNumber
      (fetchFrom SolanaTradelogDB.BlockNumber scenarioStraddleSource limitLogs) 2 (fuel + 1)
        ⟨[], 0⟩ =
      some (PagingStep.stop
        ⟨List.replicate 199999 (scenarioRowAt 1 "a") ++ [scenarioRowAt 2 "b"], 2⟩) :=
    fun fuel => straddle_loop SolanaTradelogDB.BlockNumber 199999 (scenarioRowAt 1 "a")
      (scenarioRowAt 2 "b") (scenarioRowAt 2 "c") 0 2 (by decide) (by decide) (by decide)
      (by decide) (by with_unfolding_all decide) fuel
  refine ⟨hsorted, ?_, ?_, hmax, ?_, ?_, by decide, by decide, ?_⟩
  · intro r hr
    unfold scenarioStraddleSource at hr
    rw [List.mem_append] at hr
    rcases hr with hr | hr
    · rw [List.eq_of_mem_replicate hr]
      decide
    · simp only [List.mem_cons, List.mem_singleton, List.not_mem_nil, or_false] at hr
      rcases hr with rfl | rfl <;> decide
  · intro b
    exact straddle_blocks SolanaTradelogDB.BlockNumber 199999 _ _ _ (by decide) (by decide)
      (by decide) b
  · intro fuel hfuel
    obtain ⟨k, rfl⟩ := Nat.exists_eq_add_of_le hfuel
    have hw : ¬ (wrapInt (2 - 10) > 0) := by with_unfolding_all decide
    unfold initSolanaTrade initSolanaTradeLoop
    simp only [hmax, Option.getD_some, Option.isSome_some, true_and, if_neg hw]
    rw [Nat.add_comm 1 k]
    exact hloop k
  · exact List.mem_append_right _ (List.mem_cons_of_mem _ (List.mem_singleton_self _))
  · intro h
    rw [List.mem_append] at h
    rcases h with h | h
    · exact absurd (congrArg SolanaTradelogDB.TxHash (List.eq_of_mem_replicate h)) (by decide)
    · exact absurd (congrArg SolanaTradelogDB.TxHash (List.mem_singleton.1 h)) (by decide)

/-! ## The float64 rounding on some values -/

theorem roundFloat64_examples :
    roundFloat64 1 = 1 ∧
      roundFloat64 (1 / 3) = 6004799503160661 / 18014398509481984 ∧
      roundFloat64 9007199254740993 = 9007199254740992 ∧
      roundFloat64 9007199254740995 = 9007199254740996 ∧
      roundFloat64 (-(1 / 10)) = -float64Tenth := by
  refine ⟨?_, ?_, ?_, ?_, ?_⟩ <;> with_unfolding_all rfl

/-! ## C27: the flow values in float64 arithmetic -/

set_option maxRecDepth 8000 in
/-- C27, counterexample. In float64 arithmetic, as the code computes: three trades buy
0.1, 0.2 and 0.2 of the token 0xZ (amounts and rates all non-negative float64 values); the
first two, stamped T0, are added to a fresh engine, the engine is retired at T0 + 1h + 1s,
the third, stamped T0 + 1h + 1s, is added, and the engine is retired at T0 + 5h + 2s, a
later clock. The 1h window has computed 0.1 + 0.2 - 0.1 - 0.2 + 0.2 - 0.2 and holds the
in-flow 2^(-55) at the key 0xz; the 4h window has computed 0.1 + 0.2 + 0.2 - 0.1 - 0.2 - 0.2
and holds 0 (the map TokenInFlow is updated by += amount and -= amount alone, no product
enters). The start indexes are nested (both 3), but the flow value of the shorter window
is not at most that of the longer one. -/
theorem float64_flow_of_shorter_window_exceeds_longer :
    (roundFloat64 float64Tenth = float64Tenth ∧ roundFloat64 float64Fifth = float64Fifth ∧
      roundFloat64 (1 / 10) = float64Tenth ∧ roundFloat64 (1 / 5) = float64Fifth) ∧
    (float64Add float64Tenth float64Fifth = 1351079888211149 / 4503599627370496 ∧
      float64Sub (1351079888211149 / 4503599627370496) float64Tenth =
        7205759403792795 / 36028797018963968 ∧
      float64Sub (7205759403792795 / 36028797018963968) float64Fifth =
        1 / 36028797018963968 ∧
      float64Add (1 / 36028797018963968) float64Fifth =
        7205759403792795 / 36028797018963968 ∧
      float64Add (1351079888211149 / 4503599627370496) float64Fifth = 1 / 2 ∧
      float64Sub (1 / 2) float64Tenth = 3602879701896397 / 9007199254740992 ∧
      float64Sub (3602879701896397 / 9007199254740992) float64Fifth = float64Fifth ∧
      float64Sub float64Fifth float64Fifth = 0) ∧
    scenarioExpiryClock.nanos ≤ scenarioDriftClock.nanos ∧
    ∃ c r1 r2, scenarioDriftState = some c ∧
      c.tradeLogs = [scenarioDriftTrade1, scenarioDriftTrade2, scenarioDriftTrade3] ∧
      (∀ e ∈ c.tradeLogs, 0 ≤ e.TokenInAmount ∧ 0 ≤ e.TokenInUsdtRate ∧
        0 ≤ e.TokenOutAmount ∧ 0 ≤ e.TokenOutUsdtRate) ∧
      r1 ∈ c.tradeDataRange ∧ r2 ∈ c.tradeDataRange ∧
      r1.duration = Hour ∧ r2.duration = Hour * 4 ∧ r1.duration < r2.duration ∧
      r1.StartIndex = 3 ∧ r2.StartIndex = 3 ∧
      r1.TokenInFlow.get "0xz" = 1 / 36028797018963968 ∧
      r2.TokenInFlow.get "0xz" = 0 ∧
      ¬ r1.TokenInFlow.get "0xz" ≤ r2.TokenInFlow.get "0xz" := by
  refine ⟨⟨?_, ?_, ?_, ?_⟩, ⟨?_, ?_, ?_, ?_, ?_, ?_, ?_, ?_⟩, ?_,
    scenarioDriftState.getD NewStorage,
    (scenarioDriftState.getD NewStorage).tradeDataRange.headD (NewTradeStorageByRange 0),
    (scenarioDriftState.getD NewStorage).tradeDataRange.tail.headD (NewTradeStorageByRange 0),
    ?_, ?_, ?_, ?_, ?_, ?_, ?_, ?_, ?_, ?_, ?_, ?_, ?_⟩
  · with_unfolding_all rfl
  · with_unfolding_all rfl
  · with_unfolding_all rfl
  · with_unfolding_all rfl
  · with_unfolding_all rfl
  · with_unfolding_all rfl
  · with_unfolding_all rfl
  · with_unfolding_all rfl
  · with_unfolding_all rfl
  · with_unfolding_all rfl
  · with_unfolding_all rfl
  · with_unfolding_all rfl
  · with_unfolding_all decide
  · with_unfolding_all rfl
  · with_unfolding_all rfl
  · have h : (scenarioDriftState.getD NewStorage).tradeLogs =
        [scenarioDriftTrade1, scenarioDriftTrade2, scenarioDriftTrade3] := by
      with_unfolding_all rfl
    rw [h]
    intro e he
    simp only [List.mem_cons, List.mem_singleton, List.not_mem_nil, or_false] at he
    rcases he with rfl | rfl | rfl <;> with_unfolding_all decide
  · with_unfolding_all exact List.mem_cons_self _ _
  · with_unfolding_all exact List.mem_cons_of_mem _ (List.mem_cons_self _ _)
  · with_unfolding_all rfl
  · with_unfolding_all rfl
  · with_unfolding_all decide
  · with_unfolding_all rfl
  · with_unfolding_all rfl
  · with_unfolding_all rfl
  · with_unfolding_all rfl
  · with_unfolding_all decide

/-! ## C27: the trade windows are nested -/

theorem forall₂_exists_left {α β : Type} {R : α → β → Prop} {l : List α} {l' : List β}
    (h : List.Forall₂ R l l') : ∀ b ∈ l', ∃ a ∈ l, R a b := by
  induction h with
  | nil => intro b hb; cases hb
  | cons hab _ ih =>
    intro b hb
    rcases List.mem_cons.1 hb with rfl | hb
    · exact ⟨_, List.mem_cons_self _ _, hab⟩
    · obtain ⟨a, ha, hR⟩ := ih b hb
      exact ⟨a, List.mem_cons_of_mem _ ha, hR⟩

theorem nested_removeTradesRange (now : Time) (logs : List Tradelog)
    (r1 r2 r1' r2' : TradeStorageByRange) (hinv1 : TradeInv logs r1) (hinv2 : TradeInv logs r2)
    (hd : r1.duration < r2.duration) (hnest : r2.StartIndex ≤ r1.StartIndex)
    (h1 : removeTradesRange now logs r1 = some r1')
    (h2 : removeTradesRange now logs r2 = some r2') : r2'.StartIndex ≤ r1'.StartIndex := by
  have hmono1 := (IndexNotDecreased_removeTradesRange now logs r1 r1' h1).1
  change r1.StartIndex ≤ r1'.StartIndex at hmono1
  by_cases hs2 : r2.StartIndex = -1
  · rw [removeTradesRange_neg_one now logs r2 hs2] at h2
    cases h2
    have := hinv1.2.1
    omega
  · have h20 : 0 ≤ r2.StartIndex := by
      have := hinv2.2.1
      omega
    have h10 : 0 ≤ r1.StartIndex := by omega
    obtain ⟨⟨_, hle1⟩, hstop1, _, _, _⟩ :=
      removeTradesRange_cursor now logs r1 r1' h10 hinv1.2.2.1 h1
    obtain ⟨⟨_, hle2⟩, _, hexp2, _, _⟩ :=
      removeTradesRange_cursor now logs r2 r2' h20 hinv2.2.2.1 h2
    by_contra hcon
    have hlt : r1'.StartIndex < r2'.StartIndex := by omega
    rcases hstop1 with hend | ⟨e, he, hage⟩
    · omega
    · have := hexp2 r1'.StartIndex.toNat e (by omega) (by omega) he
      omega

theorem nested_addTradeToRange (logs : List Tradelog) (e : Tradelog) (n : Nat)
    (r1 r2 : TradeStorageByRange) (hinv1 : TradeInv logs r1) (hinv2 : TradeInv logs r2)
    (hnest : r2.StartIndex ≤ r1.StartIndex) :
    (addTradeToRange e n r2).StartIndex ≤ (addTradeToRange e n r1).StartIndex := by
  rw [StartIndex_addTradeToRange, StartIndex_addTradeToRange]
  by_cases hl : logs = []
  · rw [if_pos (hinv1.1.2 hl), if_pos (hinv2.1.2 hl)]
  · have hn1 : r1.StartIndex ≠ -1 := fun h => hl (hinv1.1.1 h)
    have hn2 : r2.StartIndex ≠ -1 := fun h => hl (hinv2.1.1 h)
    rw [if_neg hn1, if_neg hn2]
    exact hnest

theorem nested_of_reachable (c : ChainData) (h : TradeReachable c) :
    ∀ r1 ∈ c.tradeDataRange, ∀ r2 ∈ c.tradeDataRange, r1.duration < r2.duration →
      r2.StartIndex ≤ r1.StartIndex := by
  have key : ∀ c, TradeReachable c → StateInv c ∧
      ∀ r1 ∈ c.tradeDataRange, ∀ r2 ∈ c.tradeDataRange, r1.duration < r2.duration →
        r2.StartIndex ≤ r1.StartIndex := by
    intro c hc
    induction hc with
    | init =>
      refine ⟨StateInv_NewStorage, ?_⟩
      intro r1 h1 r2 h2 _
      simp only [NewStorage, List.mem_cons, List.mem_singleton, List.not_mem_nil, or_false]
        at h1 h2
      have e1 : r1.StartIndex = -1 := by
        rcases h1 with rfl | rfl | rfl | rfl | rfl <;> rfl
      have e2 : r2.StartIndex = -1 := by
        rcases h2 with rfl | rfl | rfl | rfl | rfl <;> rfl
      omega
    | add c logs _ ih =>
      clear * - ih
      induction logs generalizing c with
      | nil => exact ih
      | cons e es ihl =>
        rw [AddTradeLogs_cons]
        apply ihl
        refine ⟨StateInv_addTradeLog c e ih.1, ?_⟩
        rcases addTradeLog_tradeDataRange_any c e with hr | hr
        · rw [hr]
          exact ih.2
        · rw [hr]
          intro r1 h1 r2 h2 hd
          obtain ⟨a1, ha1, rfl⟩ := List.mem_map.1 h1
          obtain ⟨a2, ha2, rfl⟩ := List.mem_map.1 h2
          rw [duration_addTradeToRange, duration_addTradeToRange] at hd
          exact nested_addTradeToRange c.tradeLogs e _ a1 a2 (ih.1.2 a1 ha1) (ih.1.2 a2 ha2)
            (ih.2 a1 ha1 a2 ha2 hd)
    | remove c c' now _ hr ih =>
      refine ⟨StateInv_RemoveTrades now c c' ih.1 hr, ?_⟩
      obtain ⟨rs', rfl, hrs⟩ := (RemoveTrades_iff now c c').1 hr
      intro r1 h1 r2 h2 hd
      obtain ⟨a1, ha1, hR1⟩ := forall₂_exists_left hrs r1 h1
      obtain ⟨a2, ha2, hR2⟩ := forall₂_exists_left hrs r2 h2
      rw [duration_removeTradesRange now _ a1 r1 hR1,
        duration_removeTradesRange now _ a2 r2 hR2] at hd
      exact nested_removeTradesRange now c.tradeLogs a1 a2 r1 r2 (ih.1.2 a1 ha1)
        (ih.1.2 a2 ha2) hd (ih.2 a1 ha1 a2 ha2 hd) hR1 hR2
  exact (key c h).2

theorem liveTrades_suffix (logs : List Tradelog) (r1 r2 : TradeStorageByRange)
    (hinv1 : TradeInv logs r1) (hinv2 : TradeInv logs r2)
    (hnest : r2.StartIndex ≤ r1.StartIndex) :
    ∃ t, liveTrades logs r2 = t ++ liveTrades logs r1 := by
  unfold liveTrades
  by_cases hl : logs = []
  · rw [if_pos (hinv1.1.2 hl), if_pos (hinv2.1.2 hl)]
    exact ⟨[], rfl⟩
  · have hn1 : r1.StartIndex ≠ -1 := fun h => hl (hinv1.1.1 h)
    have hn2 : r2.StartIndex ≠ -1 := fun h => hl (hinv2.1.1 h)
    have h2 := hinv2.2.1
    rw [if_neg hn1, if_neg hn2]
    refine ⟨(logs.drop r2.StartIndex.toNat).take (r1.StartIndex.toNat - r2.StartIndex.toNat), ?_⟩
    have e : r2.StartIndex.toNat + (r1.StartIndex.toNat - r2.StartIndex.toNat) =
        r1.StartIndex.toNat := by omega
    have hd : logs.drop r1.StartIndex.toNat =
        (logs.drop r2.StartIndex.toNat).drop (r1.StartIndex.toNat - r2.StartIndex.toNat) := by
      rw [List.drop_drop, e]
    rw [hd]
    exact (List.take_append_drop _ _).symm

theorem sum_contribution_nonneg (f : TradeField) (k : String) (t : List Tradelog)
    (h : ∀ e ∈ t, 0 ≤ tradeAmount e f) : 0 ≤ (t.map (tradeContribution f k)).sum := by
  induction t with
  | nil => simp
  | cons e t ih =>
    rw [List.map_cons, List.sum_cons]
    have h1 : 0 ≤ tradeContribution f k e := by
      unfold tradeContribution
      split_ifs
      · exact h e (List.mem_cons_self e t)
      · exact le_refl _
    have h2 := ih (fun x hx => h x (List.mem_cons_of_mem e hx))
    linarith

/-- C27, amended. In every state reachable from NewStorage by AddTradeLogs and
RemoveTrades, each RemoveTrades call reading one clock value (whatever the clock values of
the calls are, so in particular when they do not decrease), for any two trade windows with
durations d1 < d2: the start index of the window of d1 is at least that of the window of
d2, and the events the shorter window counts are a final segment of those the longer
window counts. With the aggregate arithmetic taken exactly (the sums and differences of
the window maps are not rounded), when the amounts and rates of all events of the log are
non-negative, each of the four flow values of the shorter window, at every key, is at most
the same flow value of the longer window. -/
theorem windows_are_nested (c : ChainData) (h : TradeReachable c) :
    ∀ r1 ∈ c.tradeDataRange, ∀ r2 ∈ c.tradeDataRange, r1.duration < r2.duration →
      r2.StartIndex ≤ r1.StartIndex ∧
      (∃ t, liveTrades c.tradeLogs r2 = t ++ liveTrades c.tradeLogs r1) ∧
      ((∀ e ∈ c.tradeLogs, 0 ≤ e.TokenInAmount ∧ 0 ≤ e.TokenInUsdtRate ∧
          0 ≤ e.TokenOutAmount ∧ 0 ≤ e.TokenOutUsdtRate) →
        ∀ k, r1.TokenInFlow.get k ≤ r2.TokenInFlow.get k ∧
          r1.TokenInFlowInUsdt.get k ≤ r2.TokenInFlowInUsdt.get k ∧
          r1.TokenOutFlow.get k ≤ r2.TokenOutFlow.get k ∧
          r1.TokenOutFlowInUsdt.get k ≤ r2.TokenOutFlowInUsdt.get k) := by
  intro r1 h1 r2 h2 hd
  have hinv := StateInv_of_reachable c h
  have hinv1 := hinv.2 r1 h1
  have hinv2 := hinv.2 r2 h2
  have hnest := nested_of_reachable c h r1 h1 r2 h2 hd
  obtain ⟨t, ht⟩ := liveTrades_suffix c.tradeLogs r1 r2 hinv1 hinv2 hnest
  refine ⟨hnest, ⟨t, ht⟩, ?_⟩
  intro hpos k
  have htmem : ∀ e ∈ t, e ∈ c.tradeLogs := by
    intro e he
    have hmem : e ∈ liveTrades c.tradeLogs r2 := by
      rw [ht]
      exact List.mem_append_left _ he
    unfold liveTrades at hmem
    split_ifs at hmem
    · cases hmem
    · exact List.mem_of_mem_drop hmem
  have hle : ∀ f, (∀ e ∈ c.tradeLogs, 0 ≤ tradeAmount e f) →
      (r1.field f).get k ≤ (r2.field f).get k := by
    intro f hf
    rw [hinv1.2.2.2 f k, hinv2.2.2.2 f k, ht, List.map_append, List.sum_append]
    have := sum_contribution_nonneg f k t (fun e he => hf e (htmem e he))
    linarith
  refine ⟨hle .tokenInFlow ?_, hle .tokenInFlowInUsdt ?_, hle .tokenOutFlow ?_,
    hle .tokenOutFlowInUsdt ?_⟩
  · intro e he
    exact (hpos e he).2.2.1
  · intro e he
    exact mul_nonneg (hpos e he).2.2.1 (hpos e he).2.2.2
  · intro e he
    exact (hpos e he).1
  · intro e he
    exact mul_nonneg (hpos e he).1 (hpos e he).2.1

/-- Witness of C27: the state of the expiry scenario. The start index of the 1h window
is 1 and that of the other four windows is 0; at the key 0xz the in-flow of the 1h window
is 0 and that of the 4h window is 10. -/
theorem windows_are_nested_witness :
    TradeReachable scenarioExpiredState ∧
      (∀ r1 ∈ scenarioExpiredState.tradeDataRange, ∀ r2 ∈ scenarioExpiredState.tradeDataRange,
        r1.duration < r2.duration → r2.StartIndex ≤ r1.StartIndex) ∧
      scenarioExpiredState.tradeDataRange.map
          (fun r => (r.duration, r.StartIndex, r.TokenInFlow.get "0xz")) =
        [(Hour, 1, 0), (Hour * 4, 0, 10), (Hour * 24, 0, 10), (Hour * 24 * 7, 0, 10),
          (Hour * 24 * 30, 0, 10)] :=
  ⟨TradeReachable_scenarioExpiredState,
    fun r1 h1 r2 h2 hd =>
      (windows_are_nested scenarioExpiredState TradeReachable_scenarioExpiredState r1 h1 r2 h2
        hd).1,
    by with_unfolding_all rfl⟩

/-! ## C28: the scan of the transfer log by token -/

theorem GetTransferLogsForToken_eq_filter (c : ChainData) (fromTs : Time) (token : String) :
    GetTransferLogsForToken c fromTs token =
      c.transferLogs.filter (fun t => EqualFold t.TokenAddress token) := by
  unfold GetTransferLogsForToken
  have h := foldl_append_filterMap
    (fun t : Transferlog => if EqualFold t.TokenAddress token then some t else none)
    (fun transferlogs t =>
      if EqualFold t.TokenAddress token then transferlogs ++ [t] else transferlogs)
    (fun logs t => by by_cases h : EqualFold t.TokenAddress token = true <;> simp [h])
    c.transferLogs []
  simp only [List.nil_append] at h
  rw [h]
  induction c.transferLogs with
  | nil => rfl
  | cons a l ih =>
    by_cases h : EqualFold a.TokenAddress token = true <;>
      simp [List.filterMap_cons, List.filter_cons, h, ih]

/-- C28 (the scan of the transfer log does not filter by time). For every state, token
and two times from1 and from2, GetTransferLogsForToken returns the same list for both
times: the entries of the transfer log whose token address equals the token ignoring
case, in log order. In particular an entry with that token whose block timestamp is before
the time passed as from is in the result. -/
theorem GetTransferLogsForToken_ignores_from (c : ChainData) (token : String)
    (from1 from2 : Time) :
    GetTransferLogsForToken c from1 token = GetTransferLogsForToken c from2 token ∧
    GetTransferLogsForToken c from1 token =
      c.transferLogs.filter (fun t => decide (ToLower t.TokenAddress = ToLower token)) ∧
    ∀ t ∈ c.transferLogs, ToLower t.TokenAddress = ToLower token →
      t.BlockTimestamp.nanos < from1.nanos → t ∈ GetTransferLogsForToken c from1 token := by
  refine ⟨?_, ?_, ?_⟩
  · rw [GetTransferLogsForToken_eq_filter, GetTransferLogsForToken_eq_filter]
  · rw [GetTransferLogsForToken_eq_filter]
    rfl
  · intro t ht he _
    rw [GetTransferLogsForToken_eq_filter, List.mem_filter]
    exact ⟨ht, by simp [EqualFold, he]⟩

/-- Witness of C28: the transfer of scenario 4 (token 0xZ, stamped T0) is added to a fresh
engine; the scan for the token 0xz from the time T0 + 1h + 1s, which is after the timestamp
of the transfer, returns it. -/
theorem GetTransferLogsForToken_ignores_from_witness :
    scenarioTransfer.BlockTimestamp.nanos < scenarioExpiryClock.nanos ∧
      scenarioTransfer ∈
        GetTransferLogsForToken (AddTransferLogs NewStorage [scenarioTransfer])
          scenarioExpiryClock "0xz" ∧
      GetTransferLogsForToken (AddTransferLogs NewStorage [scenarioTransfer])
        scenarioExpiryClock "0xz" = [scenarioTransfer] :=
  ⟨by with_unfolding_all decide,
    (GetTransferLogsForToken_ignores_from (AddTransferLogs NewStorage [scenarioTransfer]) "0xz"
      scenarioExpiryClock scenarioT0).2.2 scenarioTransfer
      (by with_unfolding_all exact List.mem_singleton_self _) (by with_unfolding_all rfl)
      (by with_unfolding_all decide),
    by with_unfolding_all rfl⟩

theorem pagingLoop_mono {α : Type} (bn : α → Nat) (fetch : Int → Option (List α))
    (currentBlock : Int) (fuel k : Nat) (s : Paging α) (r : PagingStep α)
    (h : pagingLoop bn fetch currentBlock fuel s = some r) :
    pagingLoop bn fetch currentBlock (fuel + k) s = some r := by
  induction fuel generalizing s with
  | zero => cases h
  | succ fuel ih =>
    rw [Nat.succ_add]
    unfold pagingLoop at h ⊢
    cases hb : pagingBody bn fetch currentBlock s with
    | failed =>
      rw [hb] at h
      exact h
    | stop s2 =>
      rw [hb] at h
      exact h
    | next s2 =>
      rw [hb] at h
      exact ih s2 h

theorem pagingLoop_terminates {α : Type} (bn : α → Nat) (source : List α) (limit : Nat)
    (hs : source.Pairwise (fun a b => bn a ≤ bn b)) (hb : ∀ r ∈ source, bn r < 2 ^ 63)
    (hblock : ∀ b, (source.filter (fun r => decide (bn r = b))).length < limit) (n : Nat) :
    ∀ s : Paging α, ((GetMaxBlockNumber bn source).getD 0 - s.lastTradeBlock).toNat ≤ n →
      ∃ fuel s1, pagingLoop bn (fetchFrom bn source limit)
        ((GetMaxBlockNumber bn source).getD 0) fuel s = some (PagingStep.stop s1) := by
  induction n with
  | zero =>
    intro s hm
    rcases pagingBody_fetchFrom_cases bn source limit ((GetMaxBlockNumber bn source).getD 0) s
      with ⟨s1, h1⟩ | ⟨s1, h1⟩
    · exact ⟨1, s1, by simp [pagingLoop, h1]⟩
    · have := watermark_increases bn source limit hs hb hblock s s1 h1
      omega
  | succ n ih =>
    intro s hm
    rcases pagingBody_fetchFrom_cases bn source limit ((GetMaxBlockNumber bn source).getD 0) s
      with ⟨s1, h1⟩ | ⟨s1, h1⟩
    · exact ⟨1, s1, by simp [pagingLoop, h1]⟩
    · have hw := watermark_increases bn source limit hs hb hblock s s1 h1
      obtain ⟨fuel, s2, h2⟩ := ih s1 (by omega)
      exact ⟨fuel + 1, s2, by simp [pagingLoop, h1, h2]⟩

/-! ## C29: the initial paging loop terminates -/

/-- C29 (termination of the initial backfill). Take a static trade table listed in
non-decreasing order of block number (block numbers below 2^63, as in the database) in
which no block holds limitLogs rows or more, read by fetches that never fail and return
the first limitLogs rows at or above the watermark, the current block being the result of
GetMaxBlockNumber on the same table (0 when that call fails). Whatever the configured
first block and maximal range are, the paging loop of initSolanaTrade ends through a
break: there are a number of passes n and a final state s such that the loop, given at
least n passes, ends in s. And every pass through the body that does not leave the loop
strictly increases the watermark. With the current block 0 of a failed GetMaxBlockNumber
the loop ends in its first pass, from every watermark. -/
theorem initSolanaTrade_terminates (source : List SolanaTradelogDB)
    (lastTradeBlock maxRangeBlock : Int)
    (hsorted : source.Pairwise (fun a b => a.BlockNumber ≤ b.BlockNumber))
    (hrange : ∀ r ∈ source, r.BlockNumber < 2 ^ 63)
    (hblock : ∀ b, (source.filter (fun r => decide (r.BlockNumber = b))).length < limitLogs) :
    (∃ n s, ∀ fuel, n ≤ fuel →
      initSolanaTrade source lastTradeBlock maxRangeBlock fuel = some (PagingStep.stop s)) ∧
    (∀ s s1,
      pagingBody SolanaTradelogDB.BlockNumber
          (fetchFrom SolanaTradelogDB.BlockNumber source limitLogs)
          ((GetMaxBlockNumber SolanaTradelogDB.BlockNumber source).getD 0) s =
        PagingStep.next s1 →
      s.lastTradeBlock < s1.lastTradeBlock) ∧
    (∀ w, ∃ s, ∀ fuel, 1 ≤ fuel →
      initSolanaTradeLoop (fetchFrom SolanaTradelogDB.BlockNumber source limitLogs) 0 fuel
        ⟨[], w⟩ = some (PagingStep.stop s)) := by
  refine ⟨?_, ?_, ?_⟩
  · unfold initSolanaTrade initSolanaTradeLoop
    dsimp only
    generalize hw : (if (GetMaxBlockNumber SolanaTradelogDB.BlockNumber source).isSome = true ∧
        wrapInt ((GetMaxBlockNumber SolanaTradelogDB.BlockNumber source).getD 0 - maxRangeBlock) >
          lastTradeBlock then
        wrapInt ((GetMaxBlockNumber SolanaTradelogDB.BlockNumber source).getD 0 - maxRangeBlock)
      else lastTradeBlock) = w
    obtain ⟨n, s, hn⟩ := pagingLoop_terminates SolanaTradelogDB.BlockNumber source limitLogs
      hsorted hrange hblock _ ⟨[], w⟩ (le_refl _)
    refine ⟨n, s, ?_⟩
    intro fuel hfuel
    obtain ⟨k, rfl⟩ := Nat.exists_eq_add_of_le hfuel
    exact pagingLoop_mono _ _ _ n k _ _ hn
  · intro s s1 h
    exact (watermark_increases SolanaTradelogDB.BlockNumber source limitLogs hsorted hrange
      hblock s s1 h).1
  · intro w
    unfold initSolanaTradeLoop
    rcases pagingBody_fetchFrom_cases SolanaTradelogDB.BlockNumber source limitLogs 0 ⟨[], w⟩
      with ⟨s1, h1⟩ | ⟨s1, h1⟩
    · refine ⟨s1, ?_⟩
      intro fuel hfuel
      obtain ⟨k, rfl⟩ := Nat.exists_eq_add_of_le hfuel
      exact pagingLoop_mono _ _ _ 1 k _ _ (by simp [pagingLoop, h1])
    · obtain ⟨page, first, lastRow, hf, _, hl, hlt, _⟩ := pagingBody_next _ _ _ _ s1 h1
      simp only [fetchFrom, Option.some.injEq] at hf
      have hmem : lastRow ∈ source := by
        have := List.mem_of_getLast?_eq_some hl
        rw [← hf] at this
        exact List.mem_of_mem_filter (List.mem_of_mem_take this)
      rw [toInt64_of_lt _ (hrange _ hmem)] at hlt
      omega

/-- Witness of C29: the table of scenario 5 (blocks 10, 10, 11, 11, 12), read from the
configured first block 10 with the maximal range 1000; the loop ends after one pass with
the five rows and the watermark 12. -/
theorem initSolanaTrade_terminates_witness :
    (scenarioSource.Pairwise (fun a b => a.BlockNumber ≤ b.BlockNumber) ∧
      (∀ r ∈ scenarioSource, r.BlockNumber < 2 ^ 63) ∧
      ∀ b, (scenarioSource.filter (fun r => decide (r.BlockNumber = b))).length < limitLogs) ∧
    (∃ n s, ∀ fuel, n ≤ fuel →
      initSolanaTrade scenarioSource 10 1000 fuel = some (PagingStep.stop s)) ∧
    initSolanaTrade scenarioSource 10 1000 1 = some (PagingStep.stop ⟨scenarioSource, 12⟩) :=
  ⟨⟨by with_unfolding_all decide, by with_unfolding_all decide,
      fun b => lt_of_le_of_lt (List.length_filter_le _ _) (by with_unfolding_all decide)⟩,
    (initSolanaTrade_terminates scenarioSource 10 1000 (by with_unfolding_all decide)
      (by with_unfolding_all decide)
      (fun b => lt_of_le_of_lt (List.length_filter_le _ _) (by with_unfolding_all decide))).1,
    by with_unfolding_all rfl⟩

/-! ## C30: the response of getPriceWithTransfer -/

theorem storeList_of_not_mem {V : Type} (m : List (String × V)) (k : String) (v : V)
    (h : k ∉ m.map Prod.fst) : GoMap.storeList m k v = m ++ [(k, v)] := by
  induction m with
  | nil => rfl
  | cons a m ih =>
    obtain ⟨ka, va⟩ := a
    simp only [List.map_cons, List.mem_cons, not_or] at h
    have hk : ¬ ka = k := fun e => h.1 e.symm
    simp only [GoMap.storeList, hk, if_false, ih h.2, List.cons_append]

theorem keys_storeList_of_mem {V : Type} (m : List (String × V)) (k : String) (v : V)
    (h : k ∈ m.map Prod.fst) : (GoMap.storeList m k v).map Prod.fst = m.map Prod.fst := by
  induction m with
  | nil => cases h
  | cons a m ih =>
    obtain ⟨ka, va⟩ := a
    by_cases hk : ka = k
    · simp [GoMap.storeList, hk]
    · simp only [List.map_cons, List.mem_cons] at h
      have h' : k ∈ m.map Prod.fst := by
        rcases h with h | h
        · exact absurd h.symm hk
        · exact h
      simp [GoMap.storeList, hk, ih h']

theorem nodup_keys_store {V : Type} (m : GoMap V) (k : String) (v : V) (h : m.keys.Nodup) :
    (m.store k v).keys.Nodup := by
  unfold GoMap.keys GoMap.store at *
  by_cases hk : k ∈ m.entries.map Prod.fst
  · rw [keys_storeList_of_mem _ _ _ hk]
    exact h
  · rw [storeList_of_not_mem _ _ _ hk, List.map_append]
    simp only [List.map_cons, List.map_nil]
    rw [List.nodup_append]
    refine ⟨h, List.nodup_singleton _, ?_⟩
    intro x hx hx'
    rw [List.mem_singleton] at hx'
    subst hx'
    exact hk hx

theorem SeriesNodup_addDaily (series : GoMap TokenTransfer) (token date : String) (amount : ℚ)
    (h : SeriesNodup series) : SeriesNodup (addDaily series token date amount) := by
  intro tk s hs
  rw [lookup_addDaily] at hs
  split_ifs at hs with ht
  · cases hs
    apply nodup_keys_store
    cases hl : series.lookup token with
    | none => exact List.nodup_nil
    | some s0 => exact h token s0 hl
  · exact h tk s hs

theorem SeriesNodup_of_reachable (c : ChainData) (h : Reachable c) :
    SeriesNodup c.tokenDeposit ∧ SeriesNodup c.tokenWithdraw := by
  refine Reachable_induction
    (fun c => SeriesNodup c.tokenDeposit ∧ SeriesNodup c.tokenWithdraw) ?_ ?_ ?_ ?_ ?_ c h
  · constructor <;> intro tk s hs <;> cases hs
  · intro c e ⟨h1, h2⟩
    obtain ⟨_, _, f3, f4, _⟩ := addTradeLog_frame c e
    rw [f3, f4]
    exact ⟨h1, h2⟩
  · intro c t ⟨h1, h2⟩
    obtain ⟨hd, hw⟩ := addTransferLog_daily_any c t
    constructor
    · rcases hd with hd | hd <;> rw [hd]
      · exact h1
      · exact SeriesNodup_addDaily _ _ _ _ h1
    · rcases hw with hw | hw <;> rw [hw]
      · exact h2
      · exact SeriesNodup_addDaily _ _ _ _ h2
  · intro now c c1 hc hr
    obtain ⟨rs, rfl, _⟩ := (RemoveTrades_iff now c c1).1 hr
    exact hc
  · intro now c c1 hc hr
    obtain ⟨rs, rfl, _⟩ := (RemoveTransfer_iff now c c1).1 hr
    exact hc

theorem foldl_store_entries {V R : Type} (g : String → V → R) (es : List (String × V))
    (acc : GoMap R) (h : (acc.keys ++ es.map Prod.fst).Nodup) :
    (es.foldl (fun res kv => res.store kv.1 (g kv.1 kv.2)) acc).entries =
      acc.entries ++ es.map (fun kv => (kv.1, g kv.1 kv.2)) := by
  induction es generalizing acc with
  | nil => simp
  | cons a es ih =>
    have hnot : a.1 ∉ acc.entries.map Prod.fst := by
      intro hmem
      rw [List.nodup_append] at h
      exact h.2.2 hmem (by simp)
    have hstore : (acc.store a.1 (g a.1 a.2)).entries = acc.entries ++ [(a.1, g a.1 a.2)] :=
      storeList_of_not_mem _ _ _ hnot
    rw [List.foldl_cons, ih, hstore]
    · simp
    · unfold GoMap.keys
      rw [hstore]
      simpa [GoMap.keys] using h

theorem lookupList_map_entries {V R : Type} (g : String → V → R) (es : List (String × V))
    (k : String) :
    GoMap.lookupList (es.map (fun kv => (kv.1, g kv.1 kv.2))) k =
      (GoMap.lookupList es k).map (g k) := by
  induction es with
  | nil => rfl
  | cons a es ih =>
    obtain ⟨ka, va⟩ := a
    by_cases hk : ka = k
    · subst hk
      simp [GoMap.lookupList]
    · simp [GoMap.lookupList, hk, ih]

theorem lookupList_eq_none_iff {V : Type} (es : List (String × V)) (k : String) :
    GoMap.lookupList es k = none ↔ k ∉ es.map Prod.fst := by
  induction es with
  | nil => simp [GoMap.lookupList]
  | cons a es ih =>
    obtain ⟨ka, va⟩ := a
    by_cases hk : ka = k
    · simp [GoMap.lookupList, hk]
    · have hk' : ¬ k = ka := fun e => hk e.symm
      simp [GoMap.lookupList, hk, hk', ih]

/-- C30 (the price-with-transfer response covers the deposit dates only). In every
reachable state and for every token address of a request, the response map of
getPriceWithTransfer has exactly the date keys of the deposit series of the lower-cased
token, each once; the entry of a date carries the date, the deposit amount of that date
and the amount the withdraw series holds at the same date, which is 0 when the withdraw
series has no such date; and a date that occurs in the withdraw series but not in the
deposit series has no entry. -/
theorem price_with_transfer_covers_deposit_dates (c : ChainData) (h : Reachable c)
    (address : String) :
    (getPriceWithTransfer c address).keys =
        (GetPriceWithTransferByRange c (ToLower address)).1.keys ∧
      (getPriceWithTransfer c address).keys.Nodup ∧
      (∀ date, (getPriceWithTransfer c address).lookup date =
        ((GetPriceWithTransferByRange c (ToLower address)).1.lookup date).map
          (fun v => { Date := date, Deposit := v,
                      Withdraw := (GetPriceWithTransferByRange c (ToLower address)).2.get date,
                      Price := 0 })) ∧
      (∀ date v, (GetPriceWithTransferByRange c (ToLower address)).1.lookup date = some v →
        (GetPriceWithTransferByRange c (ToLower address)).2.lookup date = none →
        (getPriceWithTransfer c address).lookup date =
          some { Date := date, Deposit := v, Withdraw := 0, Price := 0 }) ∧
      (∀ date, date ∈ (GetPriceWithTransferByRange c (ToLower address)).2.keys →
        date ∉ (GetPriceWithTransferByRange c (ToLower address)).1.keys →
        (getPriceWithTransfer c address).lookup date = none) := by
  have hnd : (GetPriceWithTransferByRange c (ToLower address)).1.keys.Nodup := by
    unfold GetPriceWithTransferByRange
    cases hl : c.tokenDeposit.lookup (ToLower address) with
    | none => exact List.nodup_nil
    | some s => exact (SeriesNodup_of_reachable c h).1 _ s hl
  have hent : (getPriceWithTransfer c address).entries =
      (GetPriceWithTransferByRange c (ToLower address)).1.entries.map
        (fun kv => (kv.1,
          ({ Date := kv.1, Deposit := kv.2,
             Withdraw := (GetPriceWithTransferByRange c (ToLower address)).2.get kv.1,
             Price := 0 } : PriceWithTransferResponse))) := by
    unfold getPriceWithTransfer
    have := foldl_store_entries
      (fun (k : String) (v : ℚ) =>
        ({ Date := k, Deposit := v,
           Withdraw := (GetPriceWithTransferByRange c (ToLower address)).2.get k,
           Price := 0 } : PriceWithTransferResponse))
      (GetPriceWithTransferByRange c (ToLower address)).1.entries GoMap.empty
      (by simpa [GoMap.keys, GoMap.empty] using hnd)
    simpa [GoMap.empty] using this
  have hkeys : (getPriceWithTransfer c address).keys =
      (GetPriceWithTransferByRange c (ToLower address)).1.keys := by
    unfold GoMap.keys
    rw [hent, List.map_map]
    rfl
  have hlook : ∀ date, (getPriceWithTransfer c address).lookup date =
      ((GetPriceWithTransferByRange c (ToLower address)).1.lookup date).map
        (fun v => { Date := date, Deposit := v,
                    Withdraw := (GetPriceWithTransferByRange c (ToLower address)).2.get date,
                    Price := 0 }) := by
    intro date
    unfold GoMap.lookup
    rw [hent]
    exact lookupList_map_entries
      (fun (k : String) (v : ℚ) =>
        ({ Date := k, Deposit := v,
           Withdraw := (GetPriceWithTransferByRange c (ToLower address)).2.get k,
           Price := 0 } : PriceWithTransferResponse)) _ date
  refine ⟨hkeys, by rw [hkeys]; exact hnd, hlook, ?_, ?_⟩
  · intro date v hd hw
    rw [hlook, hd]
    simp [GoMap.get, hw]
  · intro date _ hnot
    rw [hlook]
    have : (GetPriceWithTransferByRange c (ToLower address)).1.lookup date = none :=
      (lookupList_eq_none_iff _ _).2 hnot
    rw [this]
    rfl

/-- Witness of C30: a deposit of 5 of the token 0xZ on 5 March 2024 and a withdrawal of 5
on 6 March 2024 are added to a fresh engine; the response for the address 0xZ has the one
entry of 5 March, with deposit 5 and withdraw 0, and no entry for 6 March. -/
theorem price_with_transfer_covers_deposit_dates_witness :
    Reachable (AddTransferLogs NewStorage [scenarioCexInTransfer, scenarioNextDayTransfer]) ∧
      (getPriceWithTransfer
        (AddTransferLogs NewStorage [scenarioCexInTransfer, scenarioNextDayTransfer])
        "0xZ").entries = [("5-3-2024", ⟨"5-3-2024", 5, 0, 0⟩)] ∧
      (GetPriceWithTransferByRange
        (AddTransferLogs NewStorage [scenarioCexInTransfer, scenarioNextDayTransfer])
        (ToLower "0xZ")).2.entries = [("6-3-2024", 5)] ∧
      (getPriceWithTransfer
        (AddTransferLogs NewStorage [scenarioCexInTransfer, scenarioNextDayTransfer])
        "0xZ").lookup "6-3-2024" = none :=
  ⟨Reachable.addTransfers _ _ Reachable.init, by with_unfolding_all rfl,
    by with_unfolding_all rfl,
    (price_with_transfer_covers_deposit_dates _
      (Reachable.addTransfers NewStorage [scenarioCexInTransfer, scenarioNextDayTransfer]
        Reachable.init) "0xZ").2.2.2.2 "6-3-2024" (by with_unfolding_all decide)
      (by with_unfolding_all decide)⟩

end BaseServer
